import Mathlib

/-!
# navdesk: category / bookmark lifecycle and icon assets

A shallow embedding of the Go handlers of `handlers/categories.go`,
`handlers/bookmarks.go`, `handlers/upload.go` and of `storage/storage.go`.

* Go strings are Lean `String`s; the byte-level helpers of package `strings`
  that the handlers use with ASCII arguments are defined on the character list.
* `time.Time` is an instant, counted in nanoseconds from the zero `Time`
  (`Time := Int`); its JSON form is the text of the layout `RFC3339Nano` in UTC.
* The two JSON collections are the parsed contents of `categories.json` and
  `bookmarks.json` (`none`: the file cannot be read or parsed), each with a flag
  telling whether `ioutil.WriteFile` on it succeeds. The section on the collection
  files in the tree places the two files in the directory tree as well.
* The directory tree below the working directory is a finite map from cleaned
  relative paths to node kinds; every `os` call is recorded in a trace.
* The clock, the random UUID and the functions of the Go standard library
  `sort.Slice`, `strings.ToLower` and `url.Parse` are inputs of the handlers;
  `goLib` holds the `sort.Slice` of package `sort` since Go 1.19.
-/

namespace Navdesk

/-! ## Package `strings` -/

/-- Go `len` of a string: the number of bytes of its UTF-8 form. -/
def len (s : String) : Nat := (s.data.map Char.utf8Size).sum

/-- Go `strings.HasPrefix`. -/
def hasPrefix (s pre : String) : Bool := pre.data.isPrefixOf s.data

/-- Go `strings.TrimPrefix`. -/
def trimPrefix (s pre : String) : String :=
  if hasPrefix s pre then String.mk (s.data.drop pre.data.length) else s

/-- Splitting of a character list at every `/`, as `strings.Split(s, "/")` does. -/
def splitSlashChars : List Char → List (List Char)
  | [] => [[]]
  | c :: cs =>
    match splitSlashChars cs with
    | [] => [[]]
    | seg :: rest => if c = '/' then [] :: seg :: rest else (c :: seg) :: rest

/-- Go `strings.Split(s, "/")`. -/
def splitSlash (s : String) : List String := (splitSlashChars s.data).map String.mk

/-! ## Package `path/filepath` (Unix, relative paths) -/

/-- A cleaned relative path, as its list of segments; `[]` is the working directory. -/
abbrev Path := List String

/-- One step of `filepath.Clean` over the segments read so far (innermost first). -/
def cleanStep (stack : List String) (seg : String) : List String :=
  if seg = "" ∨ seg = "." then stack
  else if seg = ".." then
    match stack with
    | [] => [".."]
    | top :: rest => if top = ".." then ".." :: top :: rest else rest
  else seg :: stack

/-- The segments of `filepath.Clean` of a relative path given by its raw segments. -/
def cleanSegs (segs : List String) : Path := (segs.foldl cleanStep []).reverse

/-- The path a name denotes. -/
def toPath (name : String) : Path := cleanSegs (splitSlash name)

/-- The textual form of a cleaned relative path. -/
def pathString (p : Path) : String := if p = [] then "." else String.intercalate "/" p

/-- Go `filepath.Join`: empty elements are ignored, the rest is joined and cleaned. -/
def filepathJoin (elems : List String) : String :=
  let ne := elems.filter (fun e => e ≠ "")
  if ne = [] then "" else pathString (toPath (String.intercalate "/" ne))

/-! ## models/models.go -/

/-- An instant of `time.Time`, in nanoseconds. -/
abbrev Time := Int

/-- The zero value of `time.Time`. -/
def Time.zero : Time := 0

/-- Go `Time.Before`. -/
def Time.Before (t u : Time) : Bool := decide (t < u)

/-- Category record (`models.Category`), its fields under their JSON names. -/
structure Category where
  id : String
  name : String
  icon : String
  uploadDir : String
  sort : Int
  createdAt : Time
  updatedAt : Time
deriving DecidableEq, Repr

/-- Bookmark record (`models.Bookmark`); `tags = none` is the nil slice. -/
structure Bookmark where
  id : String
  name : String
  url : String
  description : String
  icon : String
  category : String
  tags : Option (List String)
  sort : Int
  createdAt : Time
  updatedAt : Time
deriving DecidableEq, Repr

/-- Body of a create-category request (`models.CreateCategoryRequest`). -/
structure CreateCategoryRequest where
  name : String
  icon : String
  uploadDir : String
  sort : Int
deriving DecidableEq, Repr

/-- Body of an update-category request (`models.UpdateCategoryRequest`). -/
structure UpdateCategoryRequest where
  name : String
  icon : String
  uploadDir : String
  sort : Int
deriving DecidableEq, Repr

/-- Body of a create-bookmark request (`models.CreateBookmarkRequest`). -/
structure CreateBookmarkRequest where
  name : String
  url : String
  description : String
  icon : String
  category : String
  tags : Option (List String)
  sort : Int
deriving DecidableEq, Repr

/-- Body of an update-bookmark request (`models.UpdateBookmarkRequest`). -/
structure UpdateBookmarkRequest where
  name : String
  url : String
  description : String
  icon : String
  category : String
  tags : Option (List String)
  sort : Int
deriving DecidableEq, Repr

/-- The `binding:"required"` tags of `CreateCategoryRequest`. -/
def CreateCategoryRequest.bound (r : CreateCategoryRequest) : Bool :=
  decide (r.name ≠ "") && decide (r.icon ≠ "") && decide (r.uploadDir ≠ "")

/-- The `binding:"required"` tags of `UpdateCategoryRequest`. -/
def UpdateCategoryRequest.bound (r : UpdateCategoryRequest) : Bool :=
  decide (r.name ≠ "") && decide (r.icon ≠ "") && decide (r.uploadDir ≠ "")

/-- The `binding:"required"` tags of `CreateBookmarkRequest`. -/
def CreateBookmarkRequest.bound (r : CreateBookmarkRequest) : Bool :=
  decide (r.name ≠ "") && decide (r.url ≠ "") && decide (r.category ≠ "")

/-- The `binding:"required"` tags of `UpdateBookmarkRequest`. -/
def UpdateBookmarkRequest.bound (r : UpdateBookmarkRequest) : Bool :=
  decide (r.name ≠ "") && decide (r.url ≠ "") && decide (r.category ≠ "")

/-- What a handler writes with `c.JSON(status, models.APIResponse ...)`. -/
structure APIResponse (α : Type) where
  status : Nat
  success : Bool
  message : String
  data : Option α
deriving DecidableEq, Repr

/-! ## The directory tree and package `os` -/

/-- Kind of a node of the directory tree. -/
inductive Kind where
  | file
  | dir
deriving DecidableEq, Repr

/-- The directory tree: the first entry of a path decides what is there. -/
abbrev FS := List (Path × Kind)

/-- What is at a path; the working directory always is a directory. -/
def FS.kind (fs : FS) (p : Path) : Option Kind :=
  if p = [] then some Kind.dir else fs.lookup p

/-- Drop whatever is at exactly this path. -/
def FS.erase (fs : FS) (p : Path) : FS := fs.filter (fun e => e.1 ≠ p)

/-- Some node lies strictly below the path. -/
def FS.hasChild (fs : FS) (p : Path) : Bool :=
  fs.any (fun e => p.isPrefixOf e.1 && decide (e.1 ≠ p))

/-- Drop the path and everything below it. -/
def FS.eraseTree (fs : FS) (p : Path) : FS := fs.filter (fun e => !p.isPrefixOf e.1)

/-- Some proper ancestor of the path is a regular file. -/
def FS.fileAbove (fs : FS) (p : Path) : Bool :=
  p.inits.any (fun q => decide (q ≠ p) && decide (fs.kind q = some Kind.file))

/-- A single name of more than 255 bytes (`NAME_MAX` of the file systems of Linux):
a call that has to look it up or to make it fails with `ENAMETOOLONG`. -/
def nameTooLong (seg : String) : Bool := decide (255 < len seg)

/-- A path of 4096 bytes or more (`PATH_MAX`): every call refuses it with
`ENAMETOOLONG`. -/
def pathTooLong (p : Path) : Bool := decide (4096 ≤ len (pathString p))

/-- The first name on the way down the path at which nothing is in the tree. -/
def FS.firstMissing (fs : FS) (p : Path) : Option String :=
  (p.inits.find? (fun q => decide (fs.kind q = none))).bind List.getLast?

/-- Outcome of `os.Stat`: the node kind, `ENOENT`, or another error (`ENOTDIR`,
`ENAMETOOLONG`). -/
inductive StatResult where
  | found (k : Kind)
  | notExist
  | otherError
deriving DecidableEq, Repr

/-- The error of `os.Stat` is nil. -/
def StatResult.isOk : StatResult → Bool
  | .found _ => true
  | _ => false

/-- Go `os.IsNotExist` of the error of `os.Stat`. -/
def StatResult.isNotExist : StatResult → Bool
  | .notExist => true
  | _ => false

/-- Result of `os.Stat` on a path. With nothing at the path the error is `ENOTDIR`
when a file is on the way, `ENAMETOOLONG` when the path, or the first name that
is missing, is too long, and `ENOENT` otherwise. -/
def FS.stat (fs : FS) (p : Path) : StatResult :=
  match fs.kind p with
  | some k => .found k
  | none =>
    if fs.fileAbove p then .otherError
    else if pathTooLong p || (fs.firstMissing p).any nameTooLong then .otherError
    else .notExist

/-- Result of `os.Remove`: a file or an empty directory goes away, anything else fails. -/
def FS.remove (fs : FS) (p : Path) : Option FS :=
  if p = [] then none
  else
    match fs.kind p with
    | some Kind.file => some (fs.erase p)
    | some Kind.dir => if fs.hasChild p then none else some (fs.erase p)
    | none => none

/-- The tree after `os.MkdirAll`, whose error every caller drops: `none` when a file
is in the way or the path is too long, which changes nothing; else the missing
directories on the way are made from the top down, up to the first name that is
too long. -/
def FS.mkdirAll (fs : FS) (p : Path) : Option FS :=
  if p.inits.any (fun q => decide (fs.kind q = some Kind.file)) then none
  else if pathTooLong p then none
  else
    some (fs ++ ((p.inits.filter (fun q => decide (fs.kind q = none))).takeWhile
      (fun q => !(q.getLast?).any nameTooLong)).map (fun q => (q, Kind.dir)))

/-- Move the subtree at `old` to `new`. -/
def FS.rebase (fs : FS) (old new : Path) : FS :=
  fs.map (fun e => if old.isPrefixOf e.1 then (new ++ e.1.drop old.length, e.2) else e)

/-- Result of `os.Rename`. The source must exist, no name of the target may be too
long, the parent of the target must be a directory, a directory never is a valid
target, a file replaces a file, and a directory moves with all it holds to a
path that is free and not below itself. -/
def FS.rename (fs : FS) (old new : Path) : Option FS :=
  if pathTooLong new || new.any nameTooLong then none
  else
  match fs.kind old with
  | none => none
  | some Kind.file =>
    if fs.kind new = some Kind.dir then none
    else if fs.kind new.dropLast ≠ some Kind.dir then none
    else some ((new, Kind.file) :: (fs.erase old).erase new)
  | some Kind.dir =>
    if old = [] then none
    else if fs.kind new ≠ none then none
    else if old.isPrefixOf new then none
    else if fs.kind new.dropLast ≠ some Kind.dir then none
    else some (fs.rebase old new)

/-- Result of `os.RemoveAll`; the working directory itself is refused. -/
def FS.removeAll (fs : FS) (p : Path) : Option FS :=
  if p = [] then none else some (fs.eraseTree p)

/-- A call of package `os`, with the name it was given. -/
inductive OsCall where
  | stat (name : String)
  | remove (name : String)
  | mkdirAll (name : String)
  | rename (old new : String)
  | removeAll (name : String)
deriving DecidableEq, Repr

/-! ## storage/storage.go -/

/-- The state the handlers work on. -/
structure World where
  /-- Parsed content of `categories.json`; `none` when it cannot be read or parsed. -/
  categories : Option (List Category)
  /-- Parsed content of `bookmarks.json`; `none` when it cannot be read or parsed. -/
  bookmarks : Option (List Bookmark)
  /-- Writing `categories.json` succeeds. -/
  categoriesWritable : Bool
  /-- Writing `bookmarks.json` succeeds. -/
  bookmarksWritable : Bool
  /-- The directory tree (the two collections are kept apart from it). -/
  fs : FS
  /-- The calls of package `os` made so far, oldest first. -/
  trace : List OsCall
deriving DecidableEq, Repr

/-- The constant `dataDir` and `Storage.GetDataPath`. -/
def GetDataPath : String := "./data"

/-- The method `Storage.GetUploadsPath`. -/
def GetUploadsPath : String := filepathJoin [GetDataPath, "uploads"]

/-- The method `Storage.GetCategories`: `none` is the error. -/
def World.GetCategories (w : World) : Option (List Category) := w.categories

/-- The method `Storage.GetBookmarks`: `none` is the error. -/
def World.GetBookmarks (w : World) : Option (List Bookmark) := w.bookmarks

/-- The method `Storage.SaveCategories`: the flag tells whether the error is nil. A
write that fails leaves the file as it was. -/
def World.SaveCategories (w : World) (categories : List Category) : Bool × World :=
  if w.categoriesWritable then (true, { w with categories := some categories }) else (false, w)

/-- The method `Storage.SaveBookmarks`: the flag tells whether the error is nil. A
write that fails leaves the file as it was. -/
def World.SaveBookmarks (w : World) (bookmarks : List Bookmark) : Bool × World :=
  if w.bookmarksWritable then (true, { w with bookmarks := some bookmarks }) else (false, w)

/-- Go `os.Stat`. -/
def World.osStat (w : World) (name : String) : StatResult × World :=
  (w.fs.stat (toPath name), { w with trace := w.trace ++ [OsCall.stat name] })

/-- Go `os.Remove`, its error dropped as every caller does. -/
def World.osRemove (w : World) (name : String) : World :=
  { w with fs := (w.fs.remove (toPath name)).getD w.fs, trace := w.trace ++ [OsCall.remove name] }

/-- Go `os.MkdirAll`, its error dropped as every caller does. -/
def World.osMkdirAll (w : World) (name : String) : World :=
  { w with fs := (w.fs.mkdirAll (toPath name)).getD w.fs,
           trace := w.trace ++ [OsCall.mkdirAll name] }

/-- Go `os.Rename`: the flag tells whether the error is nil. -/
def World.osRename (w : World) (old new : String) : Bool × World :=
  match w.fs.rename (toPath old) (toPath new) with
  | some fs => (true, { w with fs := fs, trace := w.trace ++ [OsCall.rename old new] })
  | none => (false, { w with trace := w.trace ++ [OsCall.rename old new] })

/-- Go `os.RemoveAll`, its error dropped as every caller does. -/
def World.osRemoveAll (w : World) (name : String) : World :=
  { w with fs := (w.fs.removeAll (toPath name)).getD w.fs,
           trace := w.trace ++ [OsCall.removeAll name] }

/-- The idiom `if _, err := os.Stat(p); os.IsNotExist(err) { os.MkdirAll(p, 0755) }`. -/
def World.ensureDir (w : World) (name : String) : World :=
  let r := w.osStat name
  if r.1.isNotExist then r.2.osMkdirAll name else r.2

/-- The idiom `if _, err := os.Stat(p); err == nil { os.Remove(p) }`. -/
def World.removeIfPresent (w : World) (name : String) : World :=
  let r := w.osStat name
  if r.1.isOk then r.2.osRemove name else r.2

/-! ## The environment of a request -/

/-- What a handler reads from outside the store: the clock and the random UUID. -/
structure Env where
  /-- The value of `time.Now().UnixNano()` used for the id. -/
  unixNano : Int
  /-- The value of `uuid.New().String()`. -/
  uuid : String
  /-- The value of `time.Now()` stored in the record. -/
  now : Time
deriving DecidableEq, Repr

/-- The expression `strings.ReplaceAll(uuid.New().String()[:8], "-", "")`. -/
def Env.suffix (env : Env) : String :=
  String.mk ((env.uuid.data.take 8).filter (fun c => c ≠ '-'))

/-- The id expression shared by both create handlers, after its prefix. -/
def Env.newID (env : Env) (pre : String) : String :=
  pre ++ toString env.unixNano ++ "_" ++ env.suffix

/-! ## The Go standard library -/

/-- The functions of the Go standard library that the handlers call and that are
taken as given: `sort.Slice` (as a function of the comparison and the slice),
`strings.ToLower` and whether `url.Parse` returns a nil error. -/
structure StdLib where
  sortSlice : {α : Type} → (α → α → Bool) → List α → List α
  toLower : String → String
  urlParseOk : String → Bool

/-- A comparison is a strict weak ordering, which is what package `sort` asks of
`less`. -/
structure StrictWeak {α : Type} (less : α → α → Bool) : Prop where
  irrefl : ∀ a, less a a = false
  trans : ∀ a b c, less a b = true → less b c = true → less a c = true
  incomp : ∀ a b c, less a b = false → less b a = false → less b c = false →
    less c b = false → less a c = false ∧ less c a = false

/-- The contract of `sort.Slice`: the elements are rearranged, and under a strict
weak ordering no element of the result is less than an earlier one. Nothing is
promised about the order of elements that compare equal. -/
structure StdLib.SortContract (lib : StdLib) : Prop where
  perm : ∀ {α : Type} (less : α → α → Bool) (l : List α), (lib.sortSlice less l).Perm l
  sorted : ∀ {α : Type} (less : α → α → Bool) (l : List α), StrictWeak less →
    (lib.sortSlice less l).Pairwise (fun a b => less b a = false)

/-- The inner loop of `insertionSortLessFunc` of package `sort`: the new element
moves towards the front while it is less than the one before it. The sorted part
is given back to front. -/
def insertBack {α : Type} (less : α → α → Bool) (x : α) : List α → List α
  | [] => [x]
  | y :: ys => if less x y then y :: insertBack less x ys else x :: y :: ys

/-- The function `insertionSortLessFunc` of package `sort`, which is what
`sort.Slice` runs on a slice of at most twelve elements. -/
def insertionSort {α : Type} (less : α → α → Bool) (l : List α) : List α :=
  (l.foldl (fun acc x => insertBack less x acc) []).reverse

/-- ASCII lower-casing, which is what `strings.ToLower` does on ASCII text. -/
def asciiLower (s : String) : String := String.mk (s.data.map Char.toLower)

/-- A standard library for running the handlers on small examples: insertion
sort, ASCII lower-casing, and a parser that accepts every URL. -/
def smallLib : StdLib :=
  { sortSlice := fun less l => insertionSort less l
    toLower := asciiLower
    urlParseOk := fun _ => true }

/-- Go `strings.Contains`. -/
def stringsContains (s substr : String) : Bool :=
  s.data.tails.any (fun t => substr.data.isPrefixOf t)

/-! ## Loops shared by the handlers -/

/-- The loop `for i, x := range xs { if p(x) { index = i; found = x; break } }`:
the first element that satisfies `p`, with its index; `none` is index `-1`. -/
def findFirst {α : Type} (p : α → Bool) : List α → Option (Nat × α)
  | [] => none
  | x :: xs => if p x then some (0, x) else (findFirst p xs).map (fun r => (r.1 + 1, r.2))

/-- The assignments `xs[i].field = ...`: the element at index `i` is replaced by
its image under `f`. -/
def updateAt {α : Type} : List α → Nat → (α → α) → List α
  | [], _, _ => []
  | x :: xs, 0, f => f x :: xs
  | x :: xs, i + 1, f => x :: updateAt xs i f

/-! ## handlers/categories.go -/

/-- The handler `CategoriesHandler.CreateCategory`. -/
def CreateCategory (env : Env) (w : World) (req : CreateCategoryRequest) :
    APIResponse Category × World :=
  if !req.bound then (⟨400, false, "分类名称、图标和上传目录不能为空", none⟩, w)
  else
    match w.GetCategories with
    | none => (⟨500, false, "获取分类失败", none⟩, w)
    | some categories =>
      if categories.any (fun category => category.name == req.name) then
        (⟨400, false, "分类名称已存在", none⟩, w)
      else if categories.any (fun category => category.uploadDir == req.uploadDir) then
        (⟨400, false, "上传目录已存在", none⟩, w)
      else
        let id := env.newID "cat_"
        let newCategory : Category :=
          { id := id, name := req.name, icon := req.icon, uploadDir := req.uploadDir,
            sort := if req.sort = 0 then (categories.length : Int) else req.sort,
            createdAt := env.now, updatedAt := Time.zero }
        let categories := categories ++ [newCategory]
        match w.SaveCategories categories with
        | (false, w1) => (⟨500, false, "保存分类失败", none⟩, w1)
        | (true, w1) =>
          let uploadPath := filepathJoin [GetUploadsPath, req.uploadDir]
          (⟨200, true, "分类创建成功", some newCategory⟩, w1.ensureDir uploadPath)

/-- The handler `CategoriesHandler.UpdateCategory`. -/
def UpdateCategory (env : Env) (w : World) (id : String) (req : UpdateCategoryRequest) :
    APIResponse Category × World :=
  if !req.bound then (⟨400, false, "分类名称、图标和上传目录不能为空", none⟩, w)
  else
    match w.GetCategories with
    | none => (⟨500, false, "获取分类失败", none⟩, w)
    | some categories =>
      match findFirst (fun category => category.id == id) categories with
      | none => (⟨404, false, "分类不存在", none⟩, w)
      | some (categoryIndex, _) =>
        if categories.enum.any (fun e => e.1 != categoryIndex && e.2.name == req.name) then
          (⟨400, false, "分类名称已存在", none⟩, w)
        else if categories.enum.any
            (fun e => e.1 != categoryIndex && e.2.uploadDir == req.uploadDir) then
          (⟨400, false, "上传目录已存在", none⟩, w)
        else
          let categories := updateAt categories categoryIndex (fun category =>
            { category with name := req.name, icon := req.icon, uploadDir := req.uploadDir,
                            sort := req.sort, updatedAt := env.now })
          match w.SaveCategories categories with
          | (false, w1) => (⟨500, false, "保存分类失败", none⟩, w1)
          | (true, w1) =>
            let uploadPath := filepathJoin [GetUploadsPath, req.uploadDir]
            (⟨200, true, "分类更新成功", categories[categoryIndex]?⟩, w1.ensureDir uploadPath)

/-- The icon of a bookmark is a local file: `icon != "" && HasPrefix(icon, "/uploads/")`. -/
def isLocalIcon (icon : String) : Bool := decide (icon ≠ "") && hasPrefix icon "/uploads/"

/-- The name of the file of a local icon:
`filepath.Join(GetDataPath(), strings.TrimPrefix(icon, "/"))`. -/
def iconFilePath (icon : String) : String := filepathJoin [GetDataPath, trimPrefix icon "/"]

/-- One round of the loop of `DeleteCategory` over the bookmarks; the state is
`categoryBookmarks`, `remainingBookmarks` and the world. -/
def cascadeStep (id : String) (st : List Bookmark × List Bookmark × World)
    (bookmark : Bookmark) : List Bookmark × List Bookmark × World :=
  if bookmark.category = id then
    (st.1 ++ [bookmark], st.2.1,
      if isLocalIcon bookmark.icon then st.2.2.removeIfPresent (iconFilePath bookmark.icon)
      else st.2.2)
  else (st.1, st.2.1 ++ [bookmark], st.2.2)

/-- The block of `DeleteCategory` that handles the bookmarks of the category; the
error of `SaveBookmarks` is not looked at. -/
def cascadeBookmarks (w : World) (id : String) : World :=
  match w.GetBookmarks with
  | none => w
  | some bookmarks =>
    let st := bookmarks.foldl (cascadeStep id) ([], [], w)
    if st.1.length > 0 then (st.2.2.SaveBookmarks st.2.1).2 else st.2.2

/-- The block of `DeleteCategory` that removes the upload directory of the category. -/
def removeUploadDir (w : World) (categoryToDelete : Category) : World :=
  if categoryToDelete.uploadDir ≠ "" then
    let uploadDirPath := filepathJoin [GetUploadsPath, categoryToDelete.uploadDir]
    let r := w.osStat uploadDirPath
    if r.1.isOk then r.2.osRemoveAll uploadDirPath else r.2
  else w

/-- The handler `CategoriesHandler.DeleteCategory`. -/
def DeleteCategory (w : World) (id : String) : APIResponse Unit × World :=
  if id = "all" then (⟨400, false, "不能删除\"全部\"分类", none⟩, w)
  else
    match w.GetCategories with
    | none => (⟨500, false, "获取分类失败", none⟩, w)
    | some categories =>
      match findFirst (fun category => category.id == id) categories with
      | none => (⟨404, false, "分类不存在", none⟩, w)
      | some (categoryIndex, categoryToDelete) =>
        let w1 := cascadeBookmarks w id
        let w2 := removeUploadDir w1 categoryToDelete
        let newCategories := categories.eraseIdx categoryIndex
        match w2.SaveCategories newCategories with
        | (false, w3) => (⟨500, false, "删除分类失败", none⟩, w3)
        | (true, w3) => (⟨200, true, "分类删除成功", none⟩, w3)

/-! ## handlers/bookmarks.go -/

/-- The comparison passed to `sort.Slice` in `GetBookmarks`. -/
def GetBookmarks.less (a b : Bookmark) : Bool :=
  if a.sort == b.sort then a.createdAt.Before b.createdAt else decide (a.sort < b.sort)

/-- The handler `BookmarksHandler.GetBookmarks`. -/
def GetBookmarks (lib : StdLib) (w : World) : APIResponse (List Bookmark) :=
  match w.GetBookmarks with
  | none => ⟨500, false, "获取书签失败", none⟩
  | some bookmarks => ⟨200, true, "", some (lib.sortSlice GetBookmarks.less bookmarks)⟩

/-- The comparison passed to `sort.Slice` in `GetBookmarksByCategory`. -/
def GetBookmarksByCategory.less (a b : Bookmark) : Bool :=
  if a.sort == b.sort then a.createdAt.Before b.createdAt else decide (a.sort < b.sort)

/-- The bookmarks `GetBookmarksByCategory` keeps before it sorts. -/
def GetBookmarksByCategory.filtered (categoryId : String) (bookmarks : List Bookmark) :
    List Bookmark :=
  if categoryId = "all" then bookmarks
  else bookmarks.filter (fun bookmark => bookmark.category == categoryId)

/-- The handler `BookmarksHandler.GetBookmarksByCategory`. -/
def GetBookmarksByCategory (lib : StdLib) (w : World) (categoryId : String) :
    APIResponse (List Bookmark) :=
  match w.GetBookmarks with
  | none => ⟨500, false, "获取书签失败", none⟩
  | some bookmarks =>
    ⟨200, true, "", some (lib.sortSlice GetBookmarksByCategory.less
      (GetBookmarksByCategory.filtered categoryId bookmarks))⟩

/-- The test `req.Category != "all"` with its loop: the category is unknown. -/
def unknownCategory (categories : List Category) (category : String) : Bool :=
  decide (category ≠ "all") && !categories.any (fun c => c.id == category)

/-- The handler `BookmarksHandler.CreateBookmark`. -/
def CreateBookmark (lib : StdLib) (env : Env) (w : World) (req : CreateBookmarkRequest) :
    APIResponse Bookmark × World :=
  if !req.bound then (⟨400, false, "书签名称、网址和分类不能为空", none⟩, w)
  else if !lib.urlParseOk req.url then (⟨400, false, "网址格式不正确", none⟩, w)
  else
    match w.GetCategories with
    | none => (⟨500, false, "获取分类失败", none⟩, w)
    | some categories =>
      if unknownCategory categories req.category then
        (⟨400, false, "指定的分类不存在", none⟩, w)
      else
        match w.GetBookmarks with
        | none => (⟨500, false, "获取书签失败", none⟩, w)
        | some bookmarks =>
          if bookmarks.any (fun bookmark =>
              bookmark.category == req.category && bookmark.name == req.name) then
            (⟨400, false, "该分类下已存在相同名称的书签", none⟩, w)
          else
            let id := env.newID "bookmark_"
            let icon := if req.icon = "" then "/favicon.ico" else req.icon
            let sort : Int :=
              if req.sort = 0 then
                (bookmarks.countP (fun bookmark => bookmark.category == req.category) : Int) + 1
              else req.sort
            let newBookmark : Bookmark :=
              { id := id, name := req.name, url := req.url, description := req.description,
                icon := icon, category := req.category, tags := some (req.tags.getD []),
                sort := sort, createdAt := env.now, updatedAt := Time.zero }
            let bookmarks := bookmarks ++ [newBookmark]
            match w.SaveBookmarks bookmarks with
            | (false, w1) => (⟨500, false, "保存书签失败", none⟩, w1)
            | (true, w1) => (⟨200, true, "书签创建成功", some newBookmark⟩, w1)

/-- The lookup of `moveIconToNewCategory` (the loop that sets `newUploadDir`). -/
def moveIconToNewCategory.newUploadDir (categories : List Category) (newCategoryId : String) :
    String :=
  match findFirst (fun category => category.id == newCategoryId) categories with
  | some (_, category) => category.uploadDir
  | none => "common"

/-- The method `BookmarksHandler.moveIconToNewCategory`; `oldCategoryId` is not used
by the source either. -/
def moveIconToNewCategory (w : World) (oldIconPath _oldCategoryId newCategoryId : String)
    (categories : List Category) : String × World :=
  if !hasPrefix oldIconPath "/uploads/" then (oldIconPath, w)
  else
    match splitSlash (trimPrefix oldIconPath "/uploads/") with
    | oldDir :: filename :: _ =>
      let newUploadDir := moveIconToNewCategory.newUploadDir categories newCategoryId
      let oldFilePath := filepathJoin [GetDataPath, "uploads", oldDir, filename]
      let newDirPath := filepathJoin [GetUploadsPath, newUploadDir]
      let newFilePath := filepathJoin [newDirPath, filename]
      let r := w.osStat oldFilePath
      if r.1.isNotExist then ("/uploads/" ++ newUploadDir ++ "/" ++ filename, r.2)
      else
        let moved := (r.2.ensureDir newDirPath).osRename oldFilePath newFilePath
        if !moved.1 then (oldIconPath, moved.2)
        else ("/uploads/" ++ newUploadDir ++ "/" ++ filename, moved.2)
    | _ => (oldIconPath, w)

/-- The block of `UpdateBookmark` that handles the icon: the value of `newIconPath`
and the world after the file operations. -/
def UpdateBookmark.iconTransition (w : World) (oldIcon oldCategory : String)
    (req : UpdateBookmarkRequest) (categories : List Category) : String × World :=
  if oldIcon ≠ req.icon then
    if isLocalIcon oldIcon then
      if isLocalIcon req.icon then
        if oldCategory ≠ req.category then
          moveIconToNewCategory w oldIcon oldCategory req.category categories
        else (req.icon, w)
      else (req.icon, w.removeIfPresent (iconFilePath oldIcon))
    else (req.icon, w)
  else
    if oldCategory ≠ req.category ∧ isLocalIcon oldIcon then
      moveIconToNewCategory w oldIcon oldCategory req.category categories
    else (req.icon, w)

/-- The handler `BookmarksHandler.UpdateBookmark`. -/
def UpdateBookmark (lib : StdLib) (env : Env) (w : World) (id : String)
    (req : UpdateBookmarkRequest) : APIResponse Bookmark × World :=
  if !req.bound then (⟨400, false, "书签名称、网址和分类不能为空", none⟩, w)
  else if !lib.urlParseOk req.url then (⟨400, false, "网址格式不正确", none⟩, w)
  else
    match w.GetCategories with
    | none => (⟨500, false, "获取分类失败", none⟩, w)
    | some categories =>
      if unknownCategory categories req.category then
        (⟨400, false, "指定的分类不存在", none⟩, w)
      else
        match w.GetBookmarks with
        | none => (⟨500, false, "获取书签失败", none⟩, w)
        | some bookmarks =>
          match findFirst (fun bookmark => bookmark.id == id) bookmarks with
          | none => (⟨404, false, "书签不存在", none⟩, w)
          | some (bookmarkIndex, oldBookmark) =>
            if bookmarks.enum.any (fun e => e.1 != bookmarkIndex &&
                (e.2.category == req.category && e.2.name == req.name)) then
              (⟨400, false, "该分类下已存在相同名称的书签", none⟩, w)
            else
              let r := UpdateBookmark.iconTransition w oldBookmark.icon oldBookmark.category
                req categories
              let icon := if r.1 = "" then "/favicon.ico" else r.1
              let bookmarks := updateAt bookmarks bookmarkIndex (fun bookmark =>
                { bookmark with name := req.name, url := req.url,
                                description := req.description, icon := icon,
                                category := req.category, tags := some (req.tags.getD []),
                                sort := req.sort, updatedAt := env.now })
              match r.2.SaveBookmarks bookmarks with
              | (false, w1) => (⟨500, false, "保存书签失败", none⟩, w1)
              | (true, w1) => (⟨200, true, "书签更新成功", bookmarks[bookmarkIndex]?⟩, w1)

/-- The handler `BookmarksHandler.DeleteBookmark`. -/
def DeleteBookmark (w : World) (id : String) : APIResponse Unit × World :=
  match w.GetBookmarks with
  | none => (⟨500, false, "获取书签失败", none⟩, w)
  | some bookmarks =>
    match findFirst (fun bookmark => bookmark.id == id) bookmarks with
    | none => (⟨404, false, "书签不存在", none⟩, w)
    | some (bookmarkIndex, bookmarkToDelete) =>
      let w1 :=
        if isLocalIcon bookmarkToDelete.icon then
          w.removeIfPresent (iconFilePath bookmarkToDelete.icon)
        else w
      let newBookmarkslist := bookmarks.eraseIdx bookmarkIndex
      match w1.SaveBookmarks newBookmarkslist with
      | (false, w2) => (⟨500, false, "删除书签失败", none⟩, w2)
      | (true, w2) => (⟨200, true, "书签删除成功", none⟩, w2)

/-- The comparison passed to `sort.Slice` in `SearchBookmarksH`. -/
def SearchBookmarksH.less (a b : Bookmark) : Bool :=
  if a.sort == b.sort then a.createdAt.Before b.createdAt else decide (a.sort < b.sort)

/-- The test of `SearchBookmarksH` on one bookmark, the keyword already lower-cased. -/
def SearchBookmarksH.isMatch (lib : StdLib) (keyword : String) (bookmark : Bookmark) : Bool :=
  let nameMatch := stringsContains (lib.toLower bookmark.name) keyword
  let descMatch := stringsContains (lib.toLower bookmark.description) keyword
  let tagsMatch := (bookmark.tags.getD []).any (fun tag =>
    stringsContains (lib.toLower tag) keyword)
  nameMatch || descMatch || tagsMatch

/-- The handler `BookmarksHandler.SearchBookmarksH`. -/
def SearchBookmarksH (lib : StdLib) (w : World) (keyword : String) :
    APIResponse (List Bookmark) :=
  let keyword := lib.toLower keyword
  match w.GetBookmarks with
  | none => ⟨500, false, "搜索书签失败", none⟩
  | some bookmarks =>
    ⟨200, true, "", some (lib.sortSlice SearchBookmarksH.less
      (bookmarks.filter (SearchBookmarksH.isMatch lib keyword)))⟩

/-! ## handlers/upload.go -/

/-- The lookup of `UploadIcon` (the loop that sets `uploadDir`). -/
def UploadIcon.uploadDir (categories : List Category) (categoryId : String) : String :=
  match findFirst (fun category => category.id == categoryId) categories with
  | some (_, category) => category.uploadDir
  | none => "common"

/-! ## The operations as the specification words them -/

/-- The operation `resolveUploadDir` as the specification words it: the upload
directory of the matching category, or `"common"` if the category id is unknown
or is the `"all"` sentinel. -/
def Spec.resolveUploadDir (categoryId : String) (categories : List Category) : String :=
  if categoryId = "all" then "common"
  else
    match categories.find? (fun category => category.id == categoryId) with
    | some category => category.uploadDir
    | none => "common"

/-! ## The invariants of the data model -/

/-- Names are pairwise distinct and upload directories are pairwise distinct. -/
def CategoriesUnique (categories : List Category) : Prop :=
  categories.Pairwise (fun a b => a.name ≠ b.name ∧ a.uploadDir ≠ b.uploadDir)

/-- The pairs of category and name are pairwise distinct. -/
def BookmarksUnique (bookmarks : List Bookmark) : Prop :=
  bookmarks.Pairwise (fun a b => (a.category, a.name) ≠ (b.category, b.name))

/-- The listing order: ascending by `sort`, equal `sort` by ascending `createdAt`. -/
def ListedInOrder (bookmarks : List Bookmark) : Prop :=
  bookmarks.Pairwise (fun a b => a.sort < b.sort ∨ (a.sort = b.sort ∧ a.createdAt ≤ b.createdAt))

/-- The part of the world that is not the directory tree. -/
def World.store (w : World) : Option (List Category) × Option (List Bookmark) × Bool × Bool :=
  (w.categories, w.bookmarks, w.categoriesWritable, w.bookmarksWritable)

/-! ## Small stores for running the handlers -/

/-- An example category with id `catA` and upload directory `dirA`. -/
def exCatA : Category :=
  { id := "catA", name := "Alpha", icon := "a.svg", uploadDir := "dirA", sort := 1,
    createdAt := 10, updatedAt := 0 }

/-- An example category with id `catB` and upload directory `dirB`. -/
def exCatB : Category :=
  { id := "catB", name := "Beta", icon := "b.svg", uploadDir := "dirB", sort := 2,
    createdAt := 20, updatedAt := 0 }

/-- An example bookmark of `catA` whose icon is a local file below `dirA`. -/
def exBookmarkA : Bookmark :=
  { id := "bookmark_1", name := "one", url := "https://one.example", description := "first",
    icon := "/uploads/dirA/x.png", category := "catA", tags := some ["t"], sort := 1,
    createdAt := 11, updatedAt := 0 }

/-- An example bookmark of `catB` with an external icon. -/
def exBookmarkB : Bookmark :=
  { id := "bookmark_2", name := "two", url := "https://two.example", description := "second",
    icon := "https://two.example/i.png", category := "catB", tags := none, sort := 1,
    createdAt := 21, updatedAt := 0 }

/-- An example tree: the uploads root, `dirA` with the file `x.png`, and `dirB`. -/
def exFS : FS :=
  [(["data"], Kind.dir), (["data", "uploads"], Kind.dir),
   (["data", "uploads", "dirA"], Kind.dir), (["data", "uploads", "dirA", "x.png"], Kind.file),
   (["data", "uploads", "dirB"], Kind.dir)]

/-- An example world: two categories, two bookmarks, both files writable. -/
def exWorld : World :=
  { categories := some [exCatA, exCatB], bookmarks := some [exBookmarkA, exBookmarkB],
    categoriesWritable := true, bookmarksWritable := true, fs := exFS, trace := [] }

/-- An example environment. -/
def exEnv : Env :=
  { unixNano := 1700000000000000000, uuid := "3f2a9c1e-0000-4000-8000-000000000000",
    now := 30 }

/-- A tree with the file `x.png` in the directory `catA` of the uploads root. -/
def exMoveFS : FS :=
  [(["data"], Kind.dir), (["data", "uploads"], Kind.dir),
   (["data", "uploads", "catA"], Kind.dir), (["data", "uploads", "catA", "x.png"], Kind.file)]

/-- The example world over the tree `exMoveFS`. -/
def exMoveWorld : World := { exWorld with fs := exMoveFS }

/-- The example world with a `bookmarks.json` that cannot be written. -/
def exReadOnlyBookmarks : World := { exWorld with bookmarksWritable := false }

/-- A bookmark request for the examples: name, category, icon and sort vary. -/
def exCreateReq (name category icon : String) (sort : Int) : CreateBookmarkRequest :=
  { name := name, url := "https://new.example", description := "", icon := icon,
    category := category, tags := none, sort := sort }

/-- An example world whose category `catA` already holds three bookmarks. -/
def exThreeWorld : World :=
  { exWorld with
    bookmarks := some [exBookmarkA, { exBookmarkA with id := "bookmark_3", name := "three" },
      exBookmarkB, { exBookmarkA with id := "bookmark_4", name := "four" }] }

/-- The example world with a `bookmarks.json` that cannot be read. -/
def exUnreadableBookmarks : World := { exWorld with bookmarks := none }

/-- The call is an `os.Rename`. -/
def OsCall.isRename : OsCall → Bool
  | .rename _ _ => true
  | _ => false

/-- An update request for the examples: icon and category vary, the rest is that
of the first example bookmark. -/
def exUpdateReq (icon category : String) : UpdateBookmarkRequest :=
  { name := "one", url := "https://one.example", description := "first", icon := icon,
    category := category, tags := none, sort := 3 }

/-- The first string occurs in the second as a contiguous part. -/
def IsSubstring (sub s : String) : Prop := ∃ pre post : String, s = pre ++ sub ++ post

/-! ## Referential integrity -/

/-- Every bookmark names the sentinel `all` or the id of a stored category. -/
def ReferentialIntegrity (categories : List Category) (bookmarks : List Bookmark) : Prop :=
  ∀ b ∈ bookmarks, b.category = "all" ∨ ∃ c ∈ categories, c.id = b.category

/-- Both collections of the world can be read and every stored bookmark names the
sentinel `all` or the id of a stored category. -/
def World.Intact (w : World) : Prop :=
  ∃ cats bs, w.categories = some cats ∧ w.bookmarks = some bs ∧ ReferentialIntegrity cats bs

/-! ## The icon block of handlers/upload.go and the uploads root -/

/-- The block of `UploadIcon` that removes the file of the icon being replaced
(upload.go, lines 109 to 116). -/
def UploadIcon.removeOldIcon (w : World) (oldIcon : String) : World :=
  if oldIcon ≠ "" ∧ hasPrefix oldIcon "/uploads/" = true then
    w.removeIfPresent (filepathJoin [GetDataPath, trimPrefix oldIcon "/"])
  else w

/-- The path is the uploads root `<dataRoot>/uploads` or lies below it. -/
def underUploads (p : Path) : Bool := (toPath GetUploadsPath).isPrefixOf p

/-- An icon reference that starts with `/uploads/` and climbs out of the uploads
root. -/
def exEscapeIcon : String := "/uploads/../users.json"

/-- The example world with the file `users.json` in the data root and a third
bookmark, of `catB`, whose icon is `exEscapeIcon`. -/
def exEscapeWorld : World :=
  { exWorld with
    bookmarks := some [exBookmarkA, exBookmarkB,
      { exBookmarkB with id := "bookmark_9", name := "nine", icon := exEscapeIcon }],
    fs := exFS ++ [(["data", "users.json"], Kind.file)] }

/-! ## Settings: models/models.go, storage/storage.go, handlers/settings.go -/

/-- Settings record (`models.Settings`). -/
structure Settings where
  siteTitle : String
  cardWidth : Int
  cardHeight : Int
  iconWidth : Int
  iconHeight : Int
  sidebarWidth : Int
  theme : String
  updatedAt : Time
deriving DecidableEq, Repr

/-- Body of an update-settings request (`models.UpdateSettingsRequest`). -/
structure UpdateSettingsRequest where
  siteTitle : String
  cardWidth : Int
  cardHeight : Int
  iconWidth : Int
  iconHeight : Int
  sidebarWidth : Int
  theme : String
deriving DecidableEq, Repr

/-- The tags `binding:"required"` of `UpdateSettingsRequest`: every field is required,
and a required field must not hold the zero value of its type. -/
def UpdateSettingsRequest.bound (req : UpdateSettingsRequest) : Bool :=
  decide (req.siteTitle ≠ "") && decide (req.cardWidth ≠ 0) && decide (req.cardHeight ≠ 0) &&
  decide (req.iconWidth ≠ 0) && decide (req.iconHeight ≠ 0) &&
  decide (req.sidebarWidth ≠ 0) && decide (req.theme ≠ "")

/-- The file `settings.json`: its parsed content, `none` when it is not there, and
whether it can be written. -/
structure SettingsStore where
  settings : Option Settings
  writable : Bool
deriving DecidableEq, Repr

/-- The method `Storage.SaveSettings`: it stamps `UpdatedAt` and writes the record;
the flag tells whether the error is nil. A write that fails leaves the file as it
was. -/
def SettingsStore.SaveSettings (env : Env) (s : SettingsStore) (settings : Settings) :
    Bool × SettingsStore :=
  if s.writable then (true, { s with settings := some { settings with updatedAt := env.now } })
  else (false, s)

/-- Go `unicode.IsSpace`: the white space of Latin-1 and the code points with the
Unicode property `White_Space`. -/
def unicodeIsSpace (c : Char) : Bool :=
  c = '\t' || c = '\n' || c.toNat = 0x0B || c.toNat = 0x0C || c = '\r' || c = ' ' ||
  c.toNat = 0x85 || c.toNat = 0xA0 || c.toNat = 0x1680 ||
  (decide (0x2000 ≤ c.toNat) && decide (c.toNat ≤ 0x200A)) ||
  c.toNat = 0x2028 || c.toNat = 0x2029 || c.toNat = 0x202F || c.toNat = 0x205F ||
  c.toNat = 0x3000

/-- Go `strings.TrimSpace`. -/
def trimSpace (s : String) : String :=
  String.mk ((s.data.dropWhile unicodeIsSpace).reverse.dropWhile unicodeIsSpace).reverse

/-- The handler `SettingsHandler.UpdateSettings`. -/
def UpdateSettings (env : Env) (s : SettingsStore) (req : UpdateSettingsRequest) :
    APIResponse Settings × SettingsStore :=
  if !req.bound then (⟨400, false, "参数不完整", none⟩, s)
  else if trimSpace req.siteTitle = "" ∨ len req.siteTitle > 50 then
    (⟨400, false, "网站标题不能为空且长度不能超过50个字符", none⟩, s)
  else if req.cardWidth < 120 ∨ req.cardWidth > 300 ∨
      req.cardHeight < 60 ∨ req.cardHeight > 150 ∨
      req.iconWidth < 24 ∨ req.iconWidth > 80 ∨
      req.iconHeight < 24 ∨ req.iconHeight > 80 ∨
      req.sidebarWidth < 50 ∨ req.sidebarWidth > 600 then
    (⟨400, false, "参数超出有效范围", none⟩, s)
  else if req.theme ≠ "auto" ∧ req.theme ≠ "light" ∧ req.theme ≠ "dark" then
    (⟨400, false, "无效的主题设置", none⟩, s)
  else
    let settings : Settings :=
      { siteTitle := trimSpace req.siteTitle, cardWidth := req.cardWidth,
        cardHeight := req.cardHeight, iconWidth := req.iconWidth,
        iconHeight := req.iconHeight, sidebarWidth := req.sidebarWidth,
        theme := req.theme, updatedAt := Time.zero }
    match s.SaveSettings env settings with
    | (false, s1) => (⟨500, false, "保存设置失败", none⟩, s1)
    | (true, s1) => (⟨200, true, "设置保存成功", some settings⟩, s1)

/-- An example settings file that is there and can be written. -/
def exSettingsStore : SettingsStore :=
  { settings := some { siteTitle := "极简网站导航", cardWidth := 180, cardHeight := 80,
                       iconWidth := 50, iconHeight := 50, sidebarWidth := 300,
                       theme := "auto", updatedAt := 5 },
    writable := true }

/-- A settings request for the examples with the given title, every other field
in its range. -/
def exSettingsReq (title : String) : UpdateSettingsRequest :=
  { siteTitle := title, cardWidth := 180, cardHeight := 80, iconWidth := 50,
    iconHeight := 50, sidebarWidth := 300, theme := "auto" }

/-- A title of seventeen characters, each of three bytes in UTF-8. -/
def exLongTitle : String := "我的极简网站导航和常用书签收藏夹页"

/-! ## Ties of the listing order -/

/-- Two bookmarks are tied in the listing order: equal `sort` and equal `createdAt`. -/
def tied (a b : Bookmark) : Bool := a.sort == b.sort && a.createdAt == b.createdAt

/-- The bookmarks tied with any given one stand in the output in the order in
which they are stored. -/
def TiesKeepOrder (stored out : List Bookmark) : Prop :=
  ∀ x : Bookmark, out.filter (tied x) = stored.filter (tied x)

/-- A bookmark for the examples on ties; only id, `sort` and `createdAt` vary. -/
def exTie (id : String) (sort : Int) (createdAt : Time) : Bookmark :=
  { id := id, name := id, url := "https://tie.example", description := "",
    icon := "/favicon.ico", category := "catA", tags := some [], sort := sort,
    createdAt := createdAt, updatedAt := 0 }

/-- Seven stored bookmarks: the first two are tied, the last one sorts first. -/
def exTieList : List Bookmark :=
  [exTie "x" 1 0, exTie "y" 1 0, exTie "m2" 1 1, exTie "m3" 1 2, exTie "m4" 1 3,
   exTie "m5" 1 4, exTie "z" 0 9]

/-- The example world with the seven bookmarks of `exTieList`. -/
def exTieWorld : World := { exWorld with bookmarks := some exTieList }

/-! ## Package `time`: the JSON form of `time.Time`

An instant is written and read in UTC: the model of `time.Time` is the instant
alone, counted in nanoseconds from the zero `Time`, January 1 of year 1, 00:00:00
UTC, and the location that Go attaches to a `Time` is not part of it. -/

/-- Go `isLeap`: the leap years of the Gregorian calendar. -/
def isLeap (year : Int) : Bool := year % 4 == 0 && (year % 100 != 0 || year % 400 == 0)

/-- The table `daysBefore` of package `time` for the month counted from 1, with the
leap day of a leap year added from March on; month 13 gives the days of the year. -/
def daysBefore (leap : Bool) (month : Nat) : Nat :=
  (match month with
    | 0 => 0 | 1 => 0 | 2 => 31 | 3 => 59 | 4 => 90 | 5 => 120 | 6 => 151 | 7 => 181
    | 8 => 212 | 9 => 243 | 10 => 273 | 11 => 304 | 12 => 334 | _ => 365) +
  (if leap && decide (month > 2) then 1 else 0)

/-- Go `daysIn`: the days of a month. -/
def daysIn (leap : Bool) (month : Nat) : Nat := daysBefore leap (month + 1) - daysBefore leap month

/-- The year within a cycle of 400 years and the day of the year, both counted
from 0, of a day of the cycle: the cycles of 100, 4 and 1 years of Go `absDate`.
The last cycle of 100 years and the last year of a cycle of 4 years have one day
more, which the subtraction of a quarter accounts for (`n -= n >> 2`). -/
def cycleOfDays (d1 : Nat) : Nat × Nat :=
  let n100 := d1 / 36524 - d1 / 36524 / 4
  let d2 := d1 - 36524 * n100
  let n4 := d2 / 1461
  let d3 := d2 % 1461
  let n1 := d3 / 365 - d3 / 365 / 4
  (100 * n100 + 4 * n4 + n1, d3 - 365 * n1)

/-- The year and the day of the year, counted from 0, of a day counted from
January 1 of year 1 (Go `absDate`): the cycles of 400 years first. -/
def yearOfDays (days : Int) : Int × Nat :=
  (1 + 400 * (days / 146097) + ((cycleOfDays (days % 146097).toNat).1 : Nat),
    (cycleOfDays (days % 146097).toNat).2)

/-- The month, counted from 1, of a day of the year counted from 0. -/
def monthOfYday (leap : Bool) (yday : Nat) : Nat :=
  if yday < daysBefore leap 2 then 1
  else if yday < daysBefore leap 3 then 2
  else if yday < daysBefore leap 4 then 3
  else if yday < daysBefore leap 5 then 4
  else if yday < daysBefore leap 6 then 5
  else if yday < daysBefore leap 7 then 6
  else if yday < daysBefore leap 8 then 7
  else if yday < daysBefore leap 9 then 8
  else if yday < daysBefore leap 10 then 9
  else if yday < daysBefore leap 11 then 10
  else if yday < daysBefore leap 12 then 11
  else 12

/-- The days from January 1 of year 1 to January 1 of the year (Go
`daysSinceEpoch`, with year 1 as the epoch). -/
def daysBeforeYear (year : Int) : Int :=
  365 * (year - 1) + (year - 1) / 4 - (year - 1) / 100 + (year - 1) / 400

/-- The fields of an instant in UTC. -/
structure Clock where
  year : Int
  month : Nat
  day : Nat
  hour : Nat
  minute : Nat
  second : Nat
  nano : Nat
deriving DecidableEq, Repr

/-- The fields of an instant (Go `Time.Date`, `Time.Clock` and
`Time.Nanosecond`). -/
def Time.clock (t : Time) : Clock :=
  let sec := t / 1000000000
  let sod := (sec % 86400).toNat
  let yd := yearOfDays (sec / 86400)
  let month := monthOfYday (isLeap yd.1) yd.2
  { year := yd.1, month := month, day := yd.2 - daysBefore (isLeap yd.1) month + 1,
    hour := sod / 3600, minute := sod % 3600 / 60, second := sod % 60,
    nano := (t % 1000000000).toNat }

/-- The method `Time.Year`. -/
def Time.Year (t : Time) : Int := (Time.clock t).year

/-- The instant of the fields: what Go `Date` computes for fields in their
ranges. -/
def Clock.instant (c : Clock) : Time :=
  ((daysBeforeYear c.year + ((daysBefore (isLeap c.year) c.month + (c.day - 1) : Nat) : Int))
      * 86400 + ((c.hour * 3600 + c.minute * 60 + c.second : Nat) : Int)) * 1000000000 +
    (c.nano : Int)

/-- The character of a decimal digit. -/
def digitChar (d : Nat) : Char := Char.ofNat (48 + d)

/-- The value of a decimal digit, if the character is one. -/
def digitVal (c : Char) : Option Nat :=
  if 48 ≤ c.toNat ∧ c.toNat ≤ 57 then some (c.toNat - 48) else none

/-- Two digits, as the layout element `01` writes them. -/
def pad2 (n : Nat) : List Char := [digitChar (n / 10 % 10), digitChar (n % 10)]

/-- Four digits, as the layout element `2006` writes them. -/
def pad4 (n : Nat) : List Char :=
  [digitChar (n / 1000 % 10), digitChar (n / 100 % 10), digitChar (n / 10 % 10), digitChar (n % 10)]

/-- The nine digits of the nanoseconds. -/
def nanoDigits (n : Nat) : List Nat :=
  [n / 100000000 % 10, n / 10000000 % 10, n / 1000000 % 10, n / 100000 % 10, n / 10000 % 10,
   n / 1000 % 10, n / 100 % 10, n / 10 % 10, n % 10]

/-- The fraction of a second as the layout element `.999999999` writes it: nothing
for zero, else the digits without the zeros at the end. -/
def formatNano (n : Nat) : List Char :=
  if n = 0 then []
  else '.' :: ((nanoDigits n).reverse.dropWhile (fun d => d == 0)).reverse.map digitChar

/-- The text of the layout `RFC3339Nano` for the fields of an instant of the
years 0 to 9999, in UTC. -/
def Clock.format (c : Clock) : List Char :=
  pad4 c.year.toNat ++ '-' :: pad2 c.month ++ '-' :: pad2 c.day ++ 'T' :: pad2 c.hour ++
    ':' :: pad2 c.minute ++ ':' :: pad2 c.second ++ formatNano c.nano ++ ['Z']

/-- The method `Time.MarshalJSON`, without the quotes: the error
`year outside of range [0,9999]` as `none`, else the text of the layout
`RFC3339Nano`. -/
def Time.MarshalJSON (t : Time) : Option String :=
  if Time.Year t < 0 ∨ 10000 ≤ Time.Year t then none
  else some (String.mk (Time.clock t).format)

/-- The number two digit characters write. -/
def num2 (a b : Char) : Option Nat :=
  match digitVal a, digitVal b with
  | some x, some y => some (10 * x + y)
  | _, _ => none

/-- The number four digit characters write. -/
def num4 (a b c d : Char) : Option Nat :=
  match digitVal a, digitVal b, digitVal c, digitVal d with
  | some w, some x, some y, some z => some (1000 * w + 100 * x + 10 * y + z)
  | _, _, _, _ => none

/-- The digits at the head of the text, and the rest. -/
def spanDigits : List Char → List Nat × List Char
  | [] => ([], [])
  | c :: cs =>
    match digitVal c with
    | some d => ((spanDigits cs).1.cons d, (spanDigits cs).2)
    | none => ([], c :: cs)

/-- The nanoseconds that the digits of a fraction write: the first nine count, a
missing digit is a zero. -/
def nanoOfDigits (ds : List Nat) : Nat :=
  ((ds ++ List.replicate 9 0).take 9).foldl (fun n d => 10 * n + d) 0

/-- The fraction of a second at the head of the rest of the text: the nanoseconds
and what follows. A period needs a digit after it. -/
def parseNano : List Char → Option (Nat × List Char)
  | '.' :: cs =>
    match spanDigits cs with
    | ([], _) => none
    | (ds, rest) => some (nanoOfDigits ds, rest)
  | cs => some (0, cs)

/-- The zone at the end of the text, as seconds east of UTC: `Z`, or a sign with
hours and minutes. -/
def parseZone : List Char → Option Int
  | ['Z'] => some 0
  | [sign, h1, h2, ':', m1, m2] =>
    match num2 h1 h2, num2 m1 m2 with
    | some h, some m =>
      if h < 24 ∧ m < 60 then
        if sign = '+' then some ((h * 3600 + m * 60 : Nat) : Int)
        else if sign = '-' then some (-((h * 3600 + m * 60 : Nat) : Int))
        else none
      else none
    | _, _ => none
  | _ => none

/-- Reading a text of the layout `RFC3339`: date, `T`, time of day, an optional
fraction of a second and the zone; every field has to be in its range. -/
def parseRFC3339 : List Char → Option Time
  | y1 :: y2 :: y3 :: y4 :: '-' :: mo1 :: mo2 :: '-' :: d1 :: d2 :: 'T' :: h1 :: h2 :: ':' ::
      mi1 :: mi2 :: ':' :: s1 :: s2 :: rest =>
    match num4 y1 y2 y3 y4, num2 mo1 mo2, num2 d1 d2, num2 h1 h2, num2 mi1 mi2, num2 s1 s2,
      parseNano rest with
    | some year, some month, some day, some hour, some minute, some second, some (nano, zone) =>
      match parseZone zone with
      | some offset =>
        if 1 ≤ month ∧ month ≤ 12 ∧ 1 ≤ day ∧ day ≤ daysIn (isLeap year) month ∧ hour < 24 ∧
            minute < 60 ∧ second < 60 then
          some (Clock.instant ⟨year, month, day, hour, minute, second, nano⟩ -
            offset * 1000000000)
        else none
      | none => none
    | _, _, _, _, _, _, _ => none
  | _ => none

/-- The method `Time.UnmarshalJSON` on the text between the quotes; `none` is its
error. -/
def Time.UnmarshalJSON (s : String) : Option Time := parseRFC3339 s.data

/-! ## Package `encoding/json` and the files of storage/storage.go -/

/-- A JSON document as `json.MarshalIndent` writes it and `json.Unmarshal` reads
it; the layout of the text is left out. -/
inductive JSON where
  | null
  | num (n : Int)
  | str (s : String)
  | arr (items : List JSON)
  | obj (members : List (String × JSON))

/-- The member of an object that `json.Unmarshal` stores for a key: the last one
of that name. -/
def JSON.member (members : List (String × JSON)) (key : String) : Option JSON :=
  List.lookup key members.reverse

/-- Decoding into a field of type `string`: a missing member and `null` leave the
zero value, any other kind of value is an error. -/
def decodeString (members : List (String × JSON)) (key : String) : Option String :=
  match JSON.member members key with
  | none => some ""
  | some JSON.null => some ""
  | some (JSON.str s) => some s
  | some _ => none

/-- Decoding into a field of type `int`. -/
def decodeInt (members : List (String × JSON)) (key : String) : Option Int :=
  match JSON.member members key with
  | none => some 0
  | some JSON.null => some 0
  | some (JSON.num n) => some n
  | some _ => none

/-- Decoding into a field of type `time.Time`, through `Time.UnmarshalJSON`: a
missing member and `null` leave the zero value, a string has to be a text of the
layout `RFC3339`, any other kind of value is an error. -/
def decodeTime (members : List (String × JSON)) (key : String) : Option Time :=
  match JSON.member members key with
  | none => some Time.zero
  | some JSON.null => some Time.zero
  | some (JSON.str s) => Time.UnmarshalJSON s
  | some _ => none

/-- Decoding an array into a slice: every element is decoded, and an element that
cannot be decoded is an error. -/
def decodeArray {α : Type} (f : JSON → Option α) : List JSON → Option (List α)
  | [] => some []
  | x :: xs =>
    match f x, decodeArray f xs with
    | some a, some as => some (a :: as)
    | _, _ => none

/-- Decoding one element of a `[]string`. -/
def decodeElement : JSON → Option String
  | JSON.str s => some s
  | JSON.null => some ""
  | _ => none

/-- Decoding into a field of type `[]string`: a missing member and `null` leave the
nil slice. -/
def decodeStrings (members : List (String × JSON)) (key : String) :
    Option (Option (List String)) :=
  match JSON.member members key with
  | none => some none
  | some JSON.null => some none
  | some (JSON.arr items) => (decodeArray decodeElement items).map some
  | some _ => none

/-- The JSON form of a field of type `time.Time`, through `Time.MarshalJSON`;
`none` is the error of the method, which `json.MarshalIndent` returns as its
own. -/
def encodeTime (t : Time) : Option JSON := (Time.MarshalJSON t).map JSON.str

/-- The JSON form of a slice: that of every element, and the error of the first
element that has none. -/
def encodeArray {α : Type} (f : α → Option JSON) : List α → Option (List JSON)
  | [] => some []
  | x :: xs =>
    match f x, encodeArray f xs with
    | some d, some ds => some (d :: ds)
    | _, _ => none

/-- The JSON form of a category, by the tags of `models.Category`; `omitempty` has
no effect on a field of a struct type, so `updatedAt` is always written. -/
def Category.toJSON (c : Category) : Option JSON :=
  match encodeTime c.createdAt, encodeTime c.updatedAt with
  | some createdAt, some updatedAt =>
    some (JSON.obj [("id", JSON.str c.id), ("name", JSON.str c.name),
      ("icon", JSON.str c.icon), ("uploadDir", JSON.str c.uploadDir),
      ("sort", JSON.num c.sort), ("createdAt", createdAt), ("updatedAt", updatedAt)])
  | _, _ => none

/-- Decoding into a `models.Category`. -/
def Category.fromJSON : JSON → Option Category
  | JSON.obj m =>
    match decodeString m "id", decodeString m "name", decodeString m "icon",
      decodeString m "uploadDir", decodeInt m "sort", decodeTime m "createdAt",
      decodeTime m "updatedAt" with
    | some id, some name, some icon, some uploadDir, some sort, some createdAt,
      some updatedAt =>
      some { id := id, name := name, icon := icon, uploadDir := uploadDir, sort := sort,
             createdAt := createdAt, updatedAt := updatedAt }
    | _, _, _, _, _, _, _ => none
  | JSON.null =>
    some { id := "", name := "", icon := "", uploadDir := "", sort := 0,
           createdAt := Time.zero, updatedAt := Time.zero }
  | _ => none

/-- The JSON form of a `[]string`: `null` for the nil slice. -/
def encodeStrings : Option (List String) → JSON
  | none => JSON.null
  | some tags => JSON.arr (tags.map JSON.str)

/-- The JSON form of a bookmark, by the tags of `models.Bookmark`. -/
def Bookmark.toJSON (b : Bookmark) : Option JSON :=
  match encodeTime b.createdAt, encodeTime b.updatedAt with
  | some createdAt, some updatedAt =>
    some (JSON.obj [("id", JSON.str b.id), ("name", JSON.str b.name), ("url", JSON.str b.url),
      ("description", JSON.str b.description), ("icon", JSON.str b.icon),
      ("category", JSON.str b.category), ("tags", encodeStrings b.tags),
      ("sort", JSON.num b.sort), ("createdAt", createdAt), ("updatedAt", updatedAt)])
  | _, _ => none

/-- Decoding into a `models.Bookmark`. -/
def Bookmark.fromJSON : JSON → Option Bookmark
  | JSON.obj m =>
    match decodeString m "id", decodeString m "name", decodeString m "url",
      decodeString m "description", decodeString m "icon", decodeString m "category",
      decodeStrings m "tags", decodeInt m "sort", decodeTime m "createdAt",
      decodeTime m "updatedAt" with
    | some id, some name, some url, some description, some icon, some category, some tags,
      some sort, some createdAt, some updatedAt =>
      some { id := id, name := name, url := url, description := description, icon := icon,
             category := category, tags := tags, sort := sort, createdAt := createdAt,
             updatedAt := updatedAt }
    | _, _, _, _, _, _, _, _, _, _ => none
  | JSON.null =>
    some { id := "", name := "", url := "", description := "", icon := "", category := "",
           tags := none, sort := 0, createdAt := Time.zero, updatedAt := Time.zero }
  | _ => none

/-- The method `Storage.SaveCategories`, as far as the content goes: the document
that a successful call leaves in `categories.json`, and `none` when
`json.MarshalIndent` returns an error, in which case the method returns it and
writes nothing. -/
def Storage.SaveCategories (categories : List Category) : Option JSON :=
  (encodeArray Category.toJSON categories).map JSON.arr

/-- The method `Storage.GetCategories` on the content of `categories.json`; `none`
is the error of `json.Unmarshal`. -/
def Storage.GetCategories : JSON → Option (List Category)
  | JSON.arr items => decodeArray Category.fromJSON items
  | JSON.null => some []
  | _ => none

/-- The method `Storage.SaveBookmarks`, as far as the content goes. -/
def Storage.SaveBookmarks (bookmarks : List Bookmark) : Option JSON :=
  (encodeArray Bookmark.toJSON bookmarks).map JSON.arr

/-- The method `Storage.GetBookmarks` on the content of `bookmarks.json`. -/
def Storage.GetBookmarks : JSON → Option (List Bookmark)
  | JSON.arr items => decodeArray Bookmark.fromJSON items
  | JSON.null => some []
  | _ => none

/-- May 17 of 2024, 08:30:00.123456789 UTC. -/
def exInstant : Time := 63851531400123456789

/-- Two categories as the handlers store them: created at some time of 2024, the
first never updated, the second updated on January 2 of 2025. -/
def exStoredCategories : List Category :=
  [{ exCatA with createdAt := exInstant },
   { exCatB with createdAt := exInstant + 1000000000, updatedAt := 63871383845000000000 }]

/-- Two bookmarks as the handlers store them, one with tags and one with the nil
slice. -/
def exStoredBookmarks : List Bookmark :=
  [{ exBookmarkA with createdAt := exInstant + 5, updatedAt := 63871383845000000000 },
   { exBookmarkB with createdAt := 63871383845000000000 }]

/-- An instant of the year 10141. -/
def exFarInstant : Time := 320000000000000000000

/-- A tree in which `dirA` of the uploads root is a regular file, so that
`os.Stat` of a path below it fails with `ENOTDIR`. -/
def exNotDirFS : FS :=
  [(["data"], Kind.dir), (["data", "uploads"], Kind.dir),
   (["data", "uploads", "dirA"], Kind.file), (["data", "uploads", "dirB"], Kind.dir)]

/-- The example world over the tree `exNotDirFS`. -/
def exNotDirWorld : World := { exWorld with fs := exNotDirFS }

/-- A file name of 256 bytes. -/
def exLongName : String := String.mk (List.replicate 256 'a')

/-! ## storage/storage.go with the two collection files in the tree -/

/-- The name of `categories.json`: `filepath.Join(s.dataPath, categoriesFile)`. -/
def categoriesPath : String := filepathJoin [GetDataPath, "categories.json"]

/-- The name of `bookmarks.json`: `filepath.Join(s.dataPath, bookmarksFile)`. -/
def bookmarksPath : String := filepathJoin [GetDataPath, "bookmarks.json"]

/-- The method `Storage.GetCategories` with the file looked up in the tree:
`ioutil.ReadFile` fails unless a regular file is at the path, and `w.categories` is
what `json.Unmarshal` makes of its content. -/
def World.readCategories (w : World) : Option (List Category) :=
  if w.fs.kind (toPath categoriesPath) = some Kind.file then w.categories else none

/-- The method `Storage.GetBookmarks` with the file looked up in the tree. -/
def World.readBookmarks (w : World) : Option (List Bookmark) :=
  if w.fs.kind (toPath bookmarksPath) = some Kind.file then w.bookmarks else none

/-- Result of `ioutil.WriteFile` on the tree: a regular file at the path is
written over, a directory at the path is an error, and with nothing at the path
the file is made when its directory is there and its name is not too long. -/
def FS.writeFile (fs : FS) (p : Path) : Option FS :=
  match fs.kind p with
  | some Kind.file => some fs
  | some Kind.dir => none
  | none =>
    if fs.kind p.dropLast = some Kind.dir ∧ pathTooLong p = false ∧
        p.any nameTooLong = false then
      some (fs ++ [(p, Kind.file)])
    else none

/-- The method `Storage.SaveBookmarks` with the file written into the tree: the
flag tells whether the error is nil. A write that fails leaves everything as it
was. -/
def World.writeBookmarks (w : World) (bookmarks : List Bookmark) : Bool × World :=
  if w.bookmarksWritable then
    match w.fs.writeFile (toPath bookmarksPath) with
    | some fs => (true, { w with bookmarks := some bookmarks, fs := fs })
    | none => (false, w)
  else (false, w)

/-- The handler `BookmarksHandler.DeleteBookmark` with `GetBookmarks` and
`SaveBookmarks` going through the tree, in which `bookmarks.json` is a file like
any other: the `os.Remove` of the handler can reach it, and the save makes it
again. -/
def DeleteBookmark.onDisk (w : World) (id : String) : APIResponse Unit × World :=
  match w.readBookmarks with
  | none => (⟨500, false, "获取书签失败", none⟩, w)
  | some bookmarks =>
    match findFirst (fun bookmark => bookmark.id == id) bookmarks with
    | none => (⟨404, false, "书签不存在", none⟩, w)
    | some (bookmarkIndex, bookmarkToDelete) =>
      let w1 :=
        if isLocalIcon bookmarkToDelete.icon then
          w.removeIfPresent (iconFilePath bookmarkToDelete.icon)
        else w
      let newBookmarkslist := bookmarks.eraseIdx bookmarkIndex
      match w1.writeBookmarks newBookmarkslist with
      | (false, w2) => (⟨500, false, "删除书签失败", none⟩, w2)
      | (true, w2) => (⟨200, true, "书签删除成功", none⟩, w2)

/-- Both collection files are in the tree and can be read, and every stored
bookmark names the sentinel `all` or the id of a stored category. -/
def World.IntactOnDisk (w : World) : Prop :=
  ∃ cats bs, w.readCategories = some cats ∧ w.readBookmarks = some bs ∧
    ReferentialIntegrity cats bs

/-- The example tree with the two collection files in the data root. -/
def exDiskFS : FS :=
  exFS ++ [(["data", "categories.json"], Kind.file), (["data", "bookmarks.json"], Kind.file)]

/-- The example world over the tree `exDiskFS`. -/
def exDiskWorld : World := { exWorld with fs := exDiskFS }

/-- The example world over `exDiskFS` with a third bookmark, of `catB`, whose icon
reference resolves to the given file of the data root. -/
def exDiskEscape (file : String) : World :=
  { exWorld with
    bookmarks := some [exBookmarkA, exBookmarkB,
      { exBookmarkB with id := "bookmark_9", name := "nine", icon := "/uploads/../" ++ file }],
    fs := exDiskFS }

/-! ## Package `sort` since Go 1.19: `sort.Slice` runs `pdqsort_func` -/

/-- The callback `data.Less(i, j)` of `lessSwap` on a slice held as a list. -/
def lessAt {α : Type} (less : α → α → Bool) (data : List α) (i j : Nat) : Bool :=
  match data[i]?, data[j]? with
  | some x, some y => less x y
  | _, _ => false

/-- The callback `data.Swap(i, j)` of `lessSwap`. -/
def swapAt {α : Type} (data : List α) (i j : Nat) : List α :=
  match data[i]?, data[j]? with
  | some x, some y => (data.set i y).set j x
  | _, _ => data

/-- The function `insertionSort_func` on `data[a:b]`. -/
def insertionSortRange {α : Type} (less : α → α → Bool) (data : List α) (a b : Nat) : List α :=
  data.take a ++ insertionSort less ((data.drop a).take (b - a)) ++ data.drop b

/-- The function `siftDown_func`; the first argument bounds the rounds of its loop. -/
def siftDown {α : Type} (less : α → α → Bool) (first hi : Nat) : Nat → List α → Nat → List α
  | 0, data, _ => data
  | n + 1, data, root =>
    let child := 2 * root + 1
    if child ≥ hi then data
    else
      let child :=
        if child + 1 < hi && lessAt less data (first + child) (first + child + 1) then child + 1
        else child
      if !lessAt less data (first + root) (first + child) then data
      else siftDown less first hi n (swapAt data (first + root) (first + child)) child

/-- The function `heapSort_func` on `data[a:b]`. -/
def heapSort {α : Type} (less : α → α → Bool) (data : List α) (a b : Nat) : List α :=
  let hi := b - a
  let built := (List.range ((hi - 1) / 2 + 1)).reverse.foldl
    (fun d i => siftDown less a hi hi d i) data
  (List.range hi).reverse.foldl
    (fun d i => siftDown less a i hi (swapAt d a (a + i)) 0) built

/-- The hint of `choosePivot_func` on how the slice is ordered. -/
inductive SortedHint where
  | unknownHint
  | increasingHint
  | decreasingHint
deriving DecidableEq, Repr

/-- The method `Next` of `xorshift`, on 64 bits, with the shifts 13, 7 and 17; only
`breakPatterns_func` draws from it. -/
def xorshiftNext (r : Nat) : Nat :=
  let r1 := r ^^^ ((r <<< 13) % 2 ^ 64)
  let r2 := r1 ^^^ (r1 >>> 7)
  r2 ^^^ ((r2 <<< 17) % 2 ^ 64)

/-- The loop of `bitsLen`: halve until nothing is left. -/
def bitsLenLoop : Nat → Nat → Nat
  | 0, _ => 0
  | f + 1, n => if n = 0 then 0 else bitsLenLoop f (n / 2) + 1

/-- Go `bits.Len`: the number of bits needed to write the number. -/
def bitsLen (n : Nat) : Nat := bitsLenLoop n n

/-- One round of the loop of `breakPatterns_func`: the state is the generator and
the slice. -/
def breakPatternsStep {α : Type} (a length idx : Nat) (st : Nat × List α) (i : Nat) :
    Nat × List α :=
  let random := xorshiftNext st.1
  let other := random &&& (2 ^ bitsLen length - 1)
  let other := if other ≥ length then other - length else other
  (random, swapAt st.2 (idx - 1 + i) (a + other))

/-- The function `breakPatterns_func` on `data[a:b]`. -/
def breakPatterns {α : Type} (data : List α) (a b : Nat) : List α :=
  let length := b - a
  if length ≥ 8 then
    ([0, 1, 2].foldl (breakPatternsStep a length (a + (length / 4) * 2 - 1)) (length, data)).2
  else data

/-- The function `order2_func`: the two indices in order, and the count of swaps. -/
def order2 {α : Type} (less : α → α → Bool) (data : List α) (a b swaps : Nat) :
    Nat × Nat × Nat :=
  if lessAt less data b a then (b, a, swaps + 1) else (a, b, swaps)

/-- The function `median_func`: the index of the median, and the count of swaps. -/
def median {α : Type} (less : α → α → Bool) (data : List α) (a b c swaps : Nat) : Nat × Nat :=
  let r1 := order2 less data a b swaps
  let r2 := order2 less data r1.2.1 c r1.2.2
  let r3 := order2 less data r1.1 r2.1 r2.2.2
  (r3.2.1, r3.2.2)

/-- The function `medianAdjacent_func`. -/
def medianAdjacent {α : Type} (less : α → α → Bool) (data : List α) (a swaps : Nat) :
    Nat × Nat :=
  median less data (a - 1) a (a + 1) swaps

/-- The function `choosePivot_func` on `data[a:b]`. -/
def choosePivot {α : Type} (less : α → α → Bool) (data : List α) (a b : Nat) :
    Nat × SortedHint :=
  let l := b - a
  let i := a + l / 4 * 1
  let j := a + l / 4 * 2
  let k := a + l / 4 * 3
  let r :=
    if l ≥ 8 then
      if l ≥ 50 then
        let ri := medianAdjacent less data i 0
        let rj := medianAdjacent less data j ri.2
        let rk := medianAdjacent less data k rj.2
        median less data ri.1 rj.1 rk.1 rk.2
      else median less data i j k 0
    else (j, 0)
  if r.2 = 0 then (r.1, SortedHint.increasingHint)
  else if r.2 = 4 * 3 then (r.1, SortedHint.decreasingHint)
  else (r.1, SortedHint.unknownHint)

/-- The loop of `reverseRange_func`. -/
def reverseLoop {α : Type} : Nat → List α → Nat → Nat → List α
  | 0, data, _, _ => data
  | n + 1, data, i, j => if i < j then reverseLoop n (swapAt data i j) (i + 1) (j - 1) else data

/-- The function `reverseRange_func` on `data[a:b]`. -/
def reverseRange {α : Type} (data : List α) (a b : Nat) : List α :=
  reverseLoop (b - a) data a (b - 1)

/-- The loop `for i < b && !less(data[i], data[i-1]) { i++ }`. -/
def scanSorted {α : Type} (less : α → α → Bool) (data : List α) (b : Nat) : Nat → Nat → Nat
  | 0, i => i
  | n + 1, i => if i < b && !lessAt less data i (i - 1) then scanSorted less data b n (i + 1) else i

/-- The loop of `partialInsertionSort_func` that shifts the smaller one to the
left: `for j := i - 1; j >= 1; j--`. -/
def shiftSmaller {α : Type} (less : α → α → Bool) : Nat → List α → Nat → List α
  | 0, data, _ => data
  | n + 1, data, j =>
    if j ≥ 1 then
      if !lessAt less data j (j - 1) then data
      else shiftSmaller less n (swapAt data j (j - 1)) (j - 1)
    else data

/-- The loop of `partialInsertionSort_func` that shifts the greater one to the
right: `for j := i + 1; j < b; j++`. -/
def shiftGreater {α : Type} (less : α → α → Bool) (b : Nat) : Nat → List α → Nat → List α
  | 0, data, _ => data
  | n + 1, data, j =>
    if j < b then
      if !lessAt less data j (j - 1) then data
      else shiftGreater less b n (swapAt data j (j - 1)) (j + 1)
    else data

/-- The function `partialInsertionSort_func` on `data[a:b]`; the first argument counts
the steps that are left of `maxSteps`. -/
def partialInsertionSort {α : Type} (less : α → α → Bool) (a b : Nat) :
    Nat → List α → Nat → List α × Bool
  | 0, data, _ => (data, false)
  | s + 1, data, i =>
    let i := scanSorted less data b (b - i) i
    if i = b then (data, true)
    else if b - a < 50 then (data, false)
    else
      let data := swapAt data i (i - 1)
      let data := if i - a ≥ 2 then shiftSmaller less i data (i - 1) else data
      let data := if b - i ≥ 2 then shiftGreater less b (b - i) data (i + 1) else data
      partialInsertionSort less a b s data i

/-- The loop `for i <= j && less(data[i], data[a]) { i++ }`. -/
def scanLess {α : Type} (less : α → α → Bool) (data : List α) (a j : Nat) : Nat → Nat → Nat
  | 0, i => i
  | n + 1, i => if i ≤ j && lessAt less data i a then scanLess less data a j n (i + 1) else i

/-- The loop `for i <= j && !less(data[j], data[a]) { j-- }`. -/
def scanNotLess {α : Type} (less : α → α → Bool) (data : List α) (a i : Nat) : Nat → Nat → Nat
  | 0, j => j
  | n + 1, j => if i ≤ j && !lessAt less data j a then scanNotLess less data a i n (j - 1) else j

/-- The closing loop of `partition_func`: the slice and the last `j`. -/
def partitionLoop {α : Type} (less : α → α → Bool) (a : Nat) :
    Nat → List α → Nat → Nat → List α × Nat
  | 0, data, _, j => (data, j)
  | n + 1, data, i, j =>
    let i := scanLess less data a j (j + 1 - i) i
    let j := scanNotLess less data a i (j + 1 - i) j
    if i > j then (data, j) else partitionLoop less a n (swapAt data i j) (i + 1) (j - 1)

/-- The function `partition_func` on `data[a:b]`: the slice, the new place of the
pivot and whether the slice was partitioned already. -/
def partition {α : Type} (less : α → α → Bool) (data : List α) (a b pivot : Nat) :
    List α × Nat × Bool :=
  let data := swapAt data a pivot
  let i := scanLess less data a (b - 1) (b - a) (a + 1)
  let j := scanNotLess less data a i (b - a) (b - 1)
  if i > j then (swapAt data j a, j, true)
  else
    let r := partitionLoop less a (b - a) (swapAt data i j) (i + 1) (j - 1)
    (swapAt r.1 r.2 a, r.2, false)

/-- The loop `for i <= j && !less(data[a], data[i]) { i++ }`. -/
def scanNotGreater {α : Type} (less : α → α → Bool) (data : List α) (a j : Nat) :
    Nat → Nat → Nat
  | 0, i => i
  | n + 1, i =>
    if i ≤ j && !lessAt less data a i then scanNotGreater less data a j n (i + 1) else i

/-- The loop `for i <= j && less(data[a], data[j]) { j-- }`. -/
def scanGreater {α : Type} (less : α → α → Bool) (data : List α) (a i : Nat) : Nat → Nat → Nat
  | 0, j => j
  | n + 1, j => if i ≤ j && lessAt less data a j then scanGreater less data a i n (j - 1) else j

/-- The loop of `partitionEqual_func`: the slice and the last `i`. -/
def partitionEqualLoop {α : Type} (less : α → α → Bool) (a : Nat) :
    Nat → List α → Nat → Nat → List α × Nat
  | 0, data, i, _ => (data, i)
  | n + 1, data, i, j =>
    let i := scanNotGreater less data a j (j + 1 - i) i
    let j := scanGreater less data a i (j + 1 - i) j
    if i > j then (data, i) else partitionEqualLoop less a n (swapAt data i j) (i + 1) (j - 1)

/-- The function `partitionEqual_func` on `data[a:b]`. -/
def partitionEqual {α : Type} (less : α → α → Bool) (data : List α) (a b pivot : Nat) :
    List α × Nat :=
  partitionEqualLoop less a (b - a + 1) (swapAt data a pivot) (a + 1) (b - 1)

/-- The function `pdqsort_func` on `data[a:b]`. The first argument bounds the rounds
of its loop and the depth of its calls, `none` tells that the bound was too
small; the two flags are `wasBalanced` and `wasPartitioned`. -/
def pdqsort {α : Type} (less : α → α → Bool) :
    Nat → List α → Nat → Nat → Nat → Bool → Bool → Option (List α)
  | 0, _, _, _, _, _, _ => none
  | n + 1, data, a, b, limit, wasBalanced, wasPartitioned =>
    let length := b - a
    if length ≤ 12 then some (insertionSortRange less data a b)
    else if limit = 0 then some (heapSort less data a b)
    else
      let data := if !wasBalanced then breakPatterns data a b else data
      let limit := if !wasBalanced then limit - 1 else limit
      let ph := choosePivot less data a b
      let data := if ph.2 = SortedHint.decreasingHint then reverseRange data a b else data
      let pivot := if ph.2 = SortedHint.decreasingHint then (b - 1) - (ph.1 - a) else ph.1
      let hint := if ph.2 = SortedHint.decreasingHint then SortedHint.increasingHint else ph.2
      let pis :=
        if wasBalanced && wasPartitioned && decide (hint = SortedHint.increasingHint) then
          partialInsertionSort less a b 5 data (a + 1)
        else (data, false)
      if pis.2 then some pis.1
      else if decide (a > 0) && !lessAt less pis.1 (a - 1) pivot then
        let r := partitionEqual less pis.1 a b pivot
        pdqsort less n r.1 r.2 b limit wasBalanced wasPartitioned
      else
        let r := partition less pis.1 a b pivot
        if r.2.1 - a < b - r.2.1 then
          match pdqsort less n r.1 a r.2.1 limit true true with
          | none => none
          | some sorted =>
            pdqsort less n sorted (r.2.1 + 1) b limit (decide (r.2.1 - a ≥ length / 8)) r.2.2
        else
          match pdqsort less n r.1 (r.2.1 + 1) b limit true true with
          | none => none
          | some sorted =>
            pdqsort less n sorted a r.2.1 limit (decide (b - r.2.1 ≥ length / 8)) r.2.2

/-- Go `sort.Slice` since Go 1.19: `pdqsort_func(lessSwap{less, swap}, 0, length,
bits.Len(length))`. Every round of the loop and every call works on a shorter
part of the slice, and `length + 1` rounds are given to it; were that bound
reached, the slice would come back as it was. -/
def sortSlice {α : Type} (less : α → α → Bool) (l : List α) : List α :=
  (pdqsort less (l.length + 1) l 0 l.length (bitsLen l.length) true true).getD l

/-- The standard library for the examples with the `sort.Slice` of Go since 1.19. -/
def goLib : StdLib :=
  { sortSlice := fun less l => sortSlice less l
    toLower := asciiLower
    urlParseOk := fun _ => true }

/-- Thirteen stored bookmarks: the first and the seventh are tied, and the last two
stand in the wrong order. -/
def exTie13List : List Bookmark :=
  [exTie "x" 6 0, exTie "b1" 1 0, exTie "b2" 2 0, exTie "b3" 3 0, exTie "b4" 4 0,
   exTie "b5" 5 0, exTie "y" 6 0, exTie "b7" 7 0, exTie "b8" 8 0, exTie "b9" 9 0,
   exTie "b10" 10 0, exTie "b12" 12 0, exTie "b11" 11 0]

/-- The example world with the thirteen bookmarks of `exTie13List`. -/
def exTie13World : World := { exWorld with bookmarks := some exTie13List }

/-! # Theorems -/

/-! ## Lemmas on the shared loops -/

theorem findFirst_none {α : Type} (p : α → Bool) (l : List α) :
    findFirst p l = none ↔ ∀ x ∈ l, p x = false := by
  induction l with
  | nil => simp [findFirst]
  | cons x xs ih =>
    by_cases hx : p x = true
    · simp [findFirst, hx]
    · simp [findFirst, hx, ih]

theorem findFirst_some {α : Type} (p : α → Bool) (l : List α) (i : Nat) (x : α)
    (h : findFirst p l = some (i, x)) :
    l[i]? = some x ∧ p x = true ∧ ∀ j y, j < i → l[j]? = some y → p y = false := by
  induction l generalizing i with
  | nil => simp [findFirst] at h
  | cons a as ih =>
    by_cases ha : p a = true
    · simp [findFirst, ha] at h
      obtain ⟨rfl, rfl⟩ := h
      simp [ha]
    · simp only [findFirst, ha, Bool.false_eq_true, if_false, Option.map_eq_some'] at h
      obtain ⟨⟨k, y⟩, hk, hy⟩ := h
      simp only [Prod.mk.injEq] at hy
      obtain ⟨rfl, rfl⟩ := hy
      obtain ⟨h1, h2, h3⟩ := ih k hk
      refine ⟨by simpa using h1, h2, ?_⟩
      intro j z hj hz
      cases j with
      | zero =>
        simp only [List.getElem?_cons_zero, Option.some.injEq] at hz
        subst hz
        simpa using ha
      | succ j =>
        simp only [List.getElem?_cons_succ] at hz
        exact h3 j z (by omega) hz

theorem findFirst_isSome {α : Type} (p : α → Bool) (l : List α) :
    (∃ r, findFirst p l = some r) ↔ ∃ x ∈ l, p x = true := by
  constructor
  · rintro ⟨⟨i, x⟩, h⟩
    obtain ⟨h1, h2, _⟩ := findFirst_some p l i x h
    exact ⟨x, List.mem_iff_getElem?.mpr ⟨i, h1⟩, h2⟩
  · rintro ⟨x, hx, hp⟩
    cases hf : findFirst p l with
    | none =>
      rw [findFirst_none] at hf
      simp [hf x hx] at hp
    | some r => exact ⟨r, rfl⟩

theorem findFirst_eq_find {α : Type} (p : α → Bool) (l : List α) :
    (findFirst p l).map Prod.snd = l.find? p := by
  induction l with
  | nil => rfl
  | cons a as ih =>
    by_cases ha : p a = true
    · simp [findFirst, ha]
    · simp only [findFirst, ha, Bool.false_eq_true, if_false, List.find?, Option.map_map]
      simpa [Function.comp_def] using ih

theorem updateAt_length {α : Type} (l : List α) (i : Nat) (f : α → α) :
    (updateAt l i f).length = l.length := by
  induction l generalizing i with
  | nil => rfl
  | cons a as ih =>
    cases i with
    | zero => rfl
    | succ i => simp [updateAt, ih]

theorem updateAt_getElem?_eq {α : Type} (l : List α) (i : Nat) (f : α → α) :
    (updateAt l i f)[i]? = (l[i]?).map f := by
  induction l generalizing i with
  | nil => rfl
  | cons a as ih =>
    cases i with
    | zero => simp [updateAt]
    | succ i => simpa [updateAt] using ih i

theorem updateAt_getElem?_ne {α : Type} (l : List α) (i j : Nat) (f : α → α) (h : j ≠ i) :
    (updateAt l i f)[j]? = l[j]? := by
  induction l generalizing i j with
  | nil => rfl
  | cons a as ih =>
    cases i with
    | zero =>
      cases j with
      | zero => exact absurd rfl h
      | succ j => simp [updateAt]
    | succ i =>
      cases j with
      | zero => simp [updateAt]
      | succ j => simpa [updateAt] using ih i j (by omega)

theorem mem_updateAt {α : Type} (l : List α) (i : Nat) (f : α → α) (c : α)
    (h : c ∈ updateAt l i f) : c ∈ l ∨ ∃ y, l[i]? = some y ∧ c = f y := by
  induction l generalizing i with
  | nil => simp [updateAt] at h
  | cons a as ih =>
    cases i with
    | zero =>
      simp only [updateAt, List.mem_cons] at h
      rcases h with h | h
      · exact Or.inr ⟨a, by simp, h⟩
      · exact Or.inl (List.mem_cons_of_mem _ h)
    | succ i =>
      simp only [updateAt, List.mem_cons] at h
      rcases h with h | h
      · exact Or.inl (by simp [h])
      · rcases ih i h with h | ⟨y, hy, rfl⟩
        · exact Or.inl (List.mem_cons_of_mem _ h)
        · exact Or.inr ⟨y, by simpa using hy, rfl⟩

theorem pairwise_updateAt {α : Type} {R : α → α → Prop} (hsymm : ∀ a b, R a b → R b a)
    (l : List α) (i : Nat) (f : α → α) (hp : l.Pairwise R)
    (h : ∀ j c x, l[j]? = some c → l[i]? = some x → j ≠ i → R c (f x)) :
    (updateAt l i f).Pairwise R := by
  induction l generalizing i with
  | nil => simp [updateAt]
  | cons a as ih =>
    rw [List.pairwise_cons] at hp
    cases i with
    | zero =>
      simp only [updateAt, List.pairwise_cons]
      refine ⟨?_, hp.2⟩
      intro c hc
      obtain ⟨n, hn⟩ := List.getElem?_of_mem hc
      exact hsymm _ _ (h (n + 1) c a (by simpa using hn) (by simp) (by omega))
    | succ i =>
      simp only [updateAt, List.pairwise_cons]
      refine ⟨?_, ih i hp.2 ?_⟩
      · intro c hc
        rcases mem_updateAt as i f c hc with hc | ⟨y, hy, rfl⟩
        · exact hp.1 c hc
        · exact h 0 a y (by simp) (by simpa using hy) (by omega)
      · intro j c x hj hx hne
        exact h (j + 1) c x (by simpa using hj) (by simpa using hx) (by omega)

theorem enum_any_iff {α : Type} (l : List α) (q : Nat → α → Bool) :
    l.enum.any (fun e => q e.1 e.2) = true ↔ ∃ j c, l[j]? = some c ∧ q j c = true := by
  simp only [List.any_eq_true, Prod.exists, List.mk_mem_enum_iff_getElem?]

/-! ## The calls of package `os` leave the two collections alone -/

@[simp] theorem store_osStat (w : World) (name : String) : (w.osStat name).2.store = w.store := rfl

@[simp] theorem store_osRemove (w : World) (name : String) : (w.osRemove name).store = w.store := rfl

@[simp] theorem store_osMkdirAll (w : World) (name : String) :
    (w.osMkdirAll name).store = w.store := rfl

@[simp] theorem store_osRemoveAll (w : World) (name : String) :
    (w.osRemoveAll name).store = w.store := rfl

@[simp] theorem store_osRename (w : World) (old new : String) :
    (w.osRename old new).2.store = w.store := by
  unfold World.osRename
  split <;> rfl

@[simp] theorem store_ensureDir (w : World) (name : String) :
    (w.ensureDir name).store = w.store := by
  simp only [World.ensureDir]
  split <;> simp

@[simp] theorem store_removeIfPresent (w : World) (name : String) :
    (w.removeIfPresent name).store = w.store := by
  simp only [World.removeIfPresent]
  split <;> simp

theorem categories_of_store {w w' : World} (h : w'.store = w.store) :
    w'.categories = w.categories := congrArg Prod.fst h

theorem bookmarks_of_store {w w' : World} (h : w'.store = w.store) :
    w'.bookmarks = w.bookmarks := congrArg (fun s => s.2.1) h

theorem bookmarksWritable_of_store {w w' : World} (h : w'.store = w.store) :
    w'.bookmarksWritable = w.bookmarksWritable := congrArg (fun s => s.2.2.2) h

theorem categoriesWritable_of_store {w w' : World} (h : w'.store = w.store) :
    w'.categoriesWritable = w.categoriesWritable := congrArg (fun s => s.2.2.1) h

/-! ## Categories -/

theorem any_name_iff (cats : List Category) (n : String) :
    cats.any (fun category => category.name == n) = true ↔ ∃ c ∈ cats, c.name = n := by
  simp [List.any_eq_true]

theorem any_uploadDir_iff (cats : List Category) (d : String) :
    cats.any (fun category => category.uploadDir == d) = true ↔ ∃ c ∈ cats, c.uploadDir = d := by
  simp [List.any_eq_true]

/-- What `CreateCategory` does once the request is bound, the collection is read
and no name or upload directory collides. -/
theorem CreateCategory_pass (env : Env) (w : World) (req : CreateCategoryRequest)
    (cats : List Category) (hb : req.bound = true) (hw : w.categories = some cats)
    (hn : ∀ c ∈ cats, c.name ≠ req.name) (hd : ∀ c ∈ cats, c.uploadDir ≠ req.uploadDir) :
    ∃ c : Category, c.name = req.name ∧ c.icon = req.icon ∧ c.uploadDir = req.uploadDir ∧
      c.id = env.newID "cat_" ∧ c.createdAt = env.now ∧
      ((w.categoriesWritable = true ∧ (CreateCategory env w req).1 = ⟨200, true, "分类创建成功", some c⟩ ∧
          (CreateCategory env w req).2.categories = some (cats ++ [c])) ∨
       (w.categoriesWritable = false ∧ (CreateCategory env w req).1 = ⟨500, false, "保存分类失败", none⟩ ∧
          (CreateCategory env w req).2 = w)) := by
  have h1 : cats.any (fun category => category.name == req.name) = false := by
    rw [Bool.eq_false_iff, Ne, any_name_iff]
    rintro ⟨c, hc, hcn⟩
    exact hn c hc hcn
  have h2 : cats.any (fun category => category.uploadDir == req.uploadDir) = false := by
    rw [Bool.eq_false_iff, Ne, any_uploadDir_iff]
    rintro ⟨c, hc, hcn⟩
    exact hd c hc hcn
  refine ⟨{ id := env.newID "cat_", name := req.name, icon := req.icon,
              uploadDir := req.uploadDir,
              sort := if req.sort = 0 then (cats.length : Int) else req.sort,
              createdAt := env.now, updatedAt := Time.zero }, rfl, rfl, rfl, rfl, rfl, ?_⟩
  cases hwr : w.categoriesWritable with
  | true =>
    left
    refine ⟨rfl, ?_, ?_⟩
    · simp [CreateCategory, hb, World.GetCategories, hw, h1, h2, World.SaveCategories, hwr]
    · simp only [CreateCategory, hb, World.GetCategories, hw, h1, h2, World.SaveCategories, hwr,
        Bool.not_true, Bool.false_eq_true, if_false, if_true]
      rw [categories_of_store (store_ensureDir _ _)]
  | false =>
    right
    refine ⟨rfl, ?_, ?_⟩ <;>
      simp [CreateCategory, hb, World.GetCategories, hw, h1, h2, World.SaveCategories, hwr]

/-- C1: category uniqueness is an invariant. In a readable category collection
whose names are pairwise distinct and whose upload directories are pairwise
distinct, every `CreateCategory` and every `UpdateCategory` that reports success
leaves a stored collection with the same two properties. -/
theorem category_uniqueness_invariant (env : Env) (w : World) (cats : List Category)
    (hw : w.categories = some cats) (hu : CategoriesUnique cats) :
    (∀ req : CreateCategoryRequest, (CreateCategory env w req).1.success = true →
      ∃ cats', (CreateCategory env w req).2.categories = some cats' ∧ CategoriesUnique cats') ∧
    (∀ (id : String) (req : UpdateCategoryRequest),
      (UpdateCategory env w id req).1.success = true →
      ∃ cats', (UpdateCategory env w id req).2.categories = some cats' ∧
        CategoriesUnique cats') := by
  constructor
  · intro req hs
    by_cases hb : req.bound = true
    swap
    · simp [CreateCategory, hb] at hs
    by_cases hn : cats.any (fun category => category.name == req.name) = true
    · simp [CreateCategory, hb, World.GetCategories, hw, hn] at hs
    by_cases hd : cats.any (fun category => category.uploadDir == req.uploadDir) = true
    · simp [CreateCategory, hb, World.GetCategories, hw, hn, hd] at hs
    rw [any_name_iff] at hn
    rw [any_uploadDir_iff] at hd
    have hn' : ∀ c ∈ cats, c.name ≠ req.name := fun c hc h => hn ⟨c, hc, h⟩
    have hd' : ∀ c ∈ cats, c.uploadDir ≠ req.uploadDir := fun c hc h => hd ⟨c, hc, h⟩
    obtain ⟨c, h1, _, h3, _, _, h | h⟩ := CreateCategory_pass env w req cats hb hw hn' hd'
    · refine ⟨cats ++ [c], h.2.2, ?_⟩
      unfold CategoriesUnique
      rw [List.pairwise_append]
      refine ⟨hu, List.pairwise_singleton _ _, ?_⟩
      intro a ha b hb'
      rw [List.mem_singleton] at hb'
      subst hb'
      exact ⟨by rw [h1]; exact hn' a ha, by rw [h3]; exact hd' a ha⟩
    · rw [h.2.1] at hs
      simp at hs
  · intro id req hs
    by_cases hb : req.bound = true
    swap
    · simp [UpdateCategory, hb] at hs
    cases hf : findFirst (fun category => category.id == id) cats with
    | none => simp [UpdateCategory, hb, World.GetCategories, hw, hf] at hs
    | some r =>
      obtain ⟨i, c0⟩ := r
      by_cases hn : cats.enum.any (fun e => e.1 != i && e.2.name == req.name) = true
      · simp [UpdateCategory, hb, World.GetCategories, hw, hf, hn] at hs
      by_cases hd : cats.enum.any (fun e => e.1 != i && e.2.uploadDir == req.uploadDir) = true
      · simp [UpdateCategory, hb, World.GetCategories, hw, hf, hn, hd] at hs
      cases hwr : w.categoriesWritable with
      | false => simp [UpdateCategory, hb, World.GetCategories, hw, hf, hn, hd,
          World.SaveCategories, hwr] at hs
      | true =>
        refine ⟨updateAt cats i (fun category =>
            { category with name := req.name, icon := req.icon, uploadDir := req.uploadDir,
                            sort := req.sort, updatedAt := env.now }), ?_, ?_⟩
        · simp only [UpdateCategory, hb, World.GetCategories, hw, hf, hn, hd,
            World.SaveCategories, hwr, Bool.not_true, Bool.false_eq_true, if_false, if_true]
          rw [categories_of_store (store_ensureDir _ _)]
        · rw [enum_any_iff cats (fun j c => j != i && c.name == req.name)] at hn
          rw [enum_any_iff cats (fun j c => j != i && c.uploadDir == req.uploadDir)] at hd
          apply pairwise_updateAt (fun a b h => ⟨fun e => h.1 e.symm, fun e => h.2 e.symm⟩)
            cats i _ hu
          intro j c x hj _ hne
          constructor
          · intro e
            exact hn ⟨j, c, hj, by simp [hne, e]⟩
          · intro e
            exact hd ⟨j, c, hj, by simp [hne, e]⟩

/-- Witness of C1 on the example world: creating a category `Gamma` with the
directory `dirC` succeeds and leaves the names and directories distinct. -/
theorem category_uniqueness_invariant_witness :
    exWorld.categories = some [exCatA, exCatB] ∧ CategoriesUnique [exCatA, exCatB] ∧
    (CreateCategory exEnv exWorld ⟨"Gamma", "g.svg", "dirC", 0⟩).1.success = true ∧
    ∃ cats', (CreateCategory exEnv exWorld ⟨"Gamma", "g.svg", "dirC", 0⟩).2.categories =
      some cats' ∧ CategoriesUnique cats' :=
  have hu : CategoriesUnique [exCatA, exCatB] := by
    simp [CategoriesUnique, exCatA, exCatB]
  ⟨rfl, hu, by decide,
    (category_uniqueness_invariant exEnv exWorld [exCatA, exCatB] rfl hu).1
      ⟨"Gamma", "g.svg", "dirC", 0⟩ (by decide)⟩

/-- C8: deleting the sentinel `"all"` is refused (status 400 with the message that
the "all" category cannot be deleted) whatever the state is, and the category
collection, the bookmark collection, the directory tree and the trace of `os`
calls are exactly as before: the test comes first. -/
theorem DeleteCategory_all_refused (w : World) :
    DeleteCategory w "all" = (⟨400, false, "不能删除\"全部\"分类", none⟩, w) := by
  simp [DeleteCategory]

/-- C9 as stated fails: with a bound request that collides with nothing, on a
readable collection whose file cannot be written, `CreateCategory` answers with
the internal error and appends nothing. -/
theorem CreateCategory_append_counterexample :
    (⟨"Gamma", "g.svg", "dirC", 0⟩ : CreateCategoryRequest).bound = true ∧
    ({ exWorld with categoriesWritable := false } : World).categories =
      some [exCatA, exCatB] ∧
    (∀ c ∈ [exCatA, exCatB], c.name ≠ "Gamma" ∧ c.uploadDir ≠ "dirC") ∧
    (CreateCategory exEnv { exWorld with categoriesWritable := false }
      ⟨"Gamma", "g.svg", "dirC", 0⟩).1 = ⟨500, false, "保存分类失败", none⟩ ∧
    ¬ ∃ c, (CreateCategory exEnv { exWorld with categoriesWritable := false }
      ⟨"Gamma", "g.svg", "dirC", 0⟩).2.categories = some ([exCatA, exCatB] ++ [c]) := by
  refine ⟨by decide, rfl, by decide, by decide, ?_⟩
  rintro ⟨c, h⟩
  have h' : (CreateCategory exEnv { exWorld with categoriesWritable := false }
      ⟨"Gamma", "g.svg", "dirC", 0⟩).2.categories = some [exCatA, exCatB] := by decide
  rw [h'] at h
  simp at h

/-- C9, amended: for a bound request and a readable collection, `CreateCategory`
answers with the duplicate-name error exactly when a stored category has the same
name; otherwise with the duplicate-directory error exactly when a stored category
has the same upload directory; otherwise, when the collection can be written, it
reports success and the stored collection is the previous one followed by one
new category with the name, icon and upload directory of the request. -/
theorem CreateCategory_validation (env : Env) (w : World) (req : CreateCategoryRequest)
    (cats : List Category) (hb : req.bound = true) (hw : w.categories = some cats) :
    ((CreateCategory env w req).1 = ⟨400, false, "分类名称已存在", none⟩ ↔
      ∃ c ∈ cats, c.name = req.name) ∧
    ((¬ ∃ c ∈ cats, c.name = req.name) →
      ((CreateCategory env w req).1 = ⟨400, false, "上传目录已存在", none⟩ ↔
        ∃ c ∈ cats, c.uploadDir = req.uploadDir)) ∧
    ((¬ ∃ c ∈ cats, c.name = req.name) → (¬ ∃ c ∈ cats, c.uploadDir = req.uploadDir) →
      w.categoriesWritable = true →
      ∃ c : Category, (CreateCategory env w req).1.success = true ∧
        (CreateCategory env w req).2.categories = some (cats ++ [c]) ∧
        c.name = req.name ∧ c.icon = req.icon ∧ c.uploadDir = req.uploadDir) := by
  by_cases hn : ∃ c ∈ cats, c.name = req.name
  · have hn' := (any_name_iff cats req.name).mpr hn
    have h1 : (CreateCategory env w req).1 = ⟨400, false, "分类名称已存在", none⟩ := by
      simp [CreateCategory, hb, World.GetCategories, hw, hn']
    exact ⟨⟨fun _ => hn, fun _ => h1⟩, fun h => absurd hn h, fun h => absurd hn h⟩
  · have hn' : cats.any (fun category => category.name == req.name) = false := by
      rw [Bool.eq_false_iff, Ne, any_name_iff]
      exact hn
    by_cases hd : ∃ c ∈ cats, c.uploadDir = req.uploadDir
    · have hd' := (any_uploadDir_iff cats req.uploadDir).mpr hd
      have h1 : (CreateCategory env w req).1 = ⟨400, false, "上传目录已存在", none⟩ := by
        simp [CreateCategory, hb, World.GetCategories, hw, hn', hd']
      refine ⟨⟨fun h => ?_, fun h => absurd h hn⟩, fun _ => ⟨fun _ => hd, fun _ => h1⟩,
        fun _ h => absurd hd h⟩
      rw [h1] at h
      simp at h
    · obtain ⟨c, h1, h2, h3, _, _, h⟩ := CreateCategory_pass env w req cats hb hw
        (fun c hc e => hn ⟨c, hc, e⟩) (fun c hc e => hd ⟨c, hc, e⟩)
      refine ⟨⟨fun hr => ?_, fun h => absurd h hn⟩, fun _ => ⟨fun hr => ?_, fun h => absurd h hd⟩,
        fun _ _ hwr => ?_⟩
      · rcases h with h | h <;> · rw [h.2.1] at hr; simp at hr
      · rcases h with h | h <;> · rw [h.2.1] at hr; simp at hr
      · rcases h with h | h
        · exact ⟨c, by rw [h.2.1], h.2.2, h1, h2, h3⟩
        · rw [h.1] at hwr
          simp at hwr

/-- Witness of C9, amended, on the example world: `Gamma` with `dirC` collides with
nothing and is appended. -/
theorem CreateCategory_validation_witness :
    (⟨"Gamma", "g.svg", "dirC", 0⟩ : CreateCategoryRequest).bound = true ∧
    exWorld.categories = some [exCatA, exCatB] ∧
    ∃ c : Category, (CreateCategory exEnv exWorld ⟨"Gamma", "g.svg", "dirC", 0⟩).1.success = true ∧
      (CreateCategory exEnv exWorld ⟨"Gamma", "g.svg", "dirC", 0⟩).2.categories =
        some ([exCatA, exCatB] ++ [c]) ∧
      c.name = "Gamma" ∧ c.icon = "g.svg" ∧ c.uploadDir = "dirC" :=
  ⟨by decide, rfl,
    (CreateCategory_validation exEnv exWorld ⟨"Gamma", "g.svg", "dirC", 0⟩ [exCatA, exCatB]
      (by decide) rfl).2.2 (by decide) (by decide) rfl⟩

theorem findFirst_of_first {α : Type} (p : α → Bool) (l : List α) (i : Nat) (x : α)
    (hx : l[i]? = some x) (hp : p x = true)
    (hfirst : ∀ j y, j < i → l[j]? = some y → p y = false) : findFirst p l = some (i, x) := by
  cases hf : findFirst p l with
  | none =>
    rw [findFirst_none] at hf
    have := hf x (List.getElem?_mem hx)
    simp [hp] at this
  | some r =>
    obtain ⟨k, y⟩ := r
    obtain ⟨h1, h2, h3⟩ := findFirst_some p l k y hf
    have hki : k = i := by
      rcases Nat.lt_trichotomy k i with h | h | h
      · have := hfirst k y h h1
        simp [h2] at this
      · exact h
      · have := h3 i x h hx
        simp [hp] at this
    subst hki
    rw [h1] at hx
    simp only [Option.some.injEq] at hx
    rw [hx]

/-- C10: for a bound request and a readable collection, `UpdateCategory` answers
not-found exactly when no stored category has the id. When the target exists (the
first category with the id, at index `i`), the request is refused as a duplicate
exactly when a category at another index has the name or the upload directory of
the request; so a request that keeps the target's own name and upload directory,
which no other category carries, is not refused and succeeds once the collection
is written. On success the stored collection has the same length, differs from
the previous one at index `i` only, and the record there is the old one with
name, icon, upload directory, sort and update time replaced (id and creation
time kept). -/
theorem UpdateCategory_contract (env : Env) (w : World) (id : String)
    (req : UpdateCategoryRequest) (cats : List Category)
    (hb : req.bound = true) (hw : w.categories = some cats) :
    ((UpdateCategory env w id req).1 = ⟨404, false, "分类不存在", none⟩ ↔
      ∀ c ∈ cats, c.id ≠ id) ∧
    (∀ (i : Nat) (c0 : Category), cats[i]? = some c0 → c0.id = id →
      (∀ j c, j < i → cats[j]? = some c → c.id ≠ id) →
      (((UpdateCategory env w id req).1.status = 400 ↔
          ∃ j c, cats[j]? = some c ∧ j ≠ i ∧
            (c.name = req.name ∨ c.uploadDir = req.uploadDir)) ∧
       (req.name = c0.name → req.uploadDir = c0.uploadDir →
          (∀ j c, cats[j]? = some c → j ≠ i →
            c.name ≠ c0.name ∧ c.uploadDir ≠ c0.uploadDir) →
          (UpdateCategory env w id req).1.status ≠ 400 ∧
          (UpdateCategory env w id req).1.status ≠ 404 ∧
          (w.categoriesWritable = true → (UpdateCategory env w id req).1.success = true)) ∧
       ((UpdateCategory env w id req).1.success = true →
          ∃ cats', (UpdateCategory env w id req).2.categories = some cats' ∧
            cats'.length = cats.length ∧
            (∀ j, j ≠ i → cats'[j]? = cats[j]?) ∧
            cats'[i]? = some { c0 with name := req.name, icon := req.icon,
                                       uploadDir := req.uploadDir, sort := req.sort,
                                       updatedAt := env.now }))) := by
  constructor
  · cases hf : findFirst (fun category => category.id == id) cats with
    | none =>
      have h1 : (UpdateCategory env w id req).1 = ⟨404, false, "分类不存在", none⟩ := by
        simp [UpdateCategory, hb, World.GetCategories, hw, hf]
      rw [findFirst_none] at hf
      exact ⟨fun _ c hc e => by simpa [e] using hf c hc, fun _ => h1⟩
    | some r =>
      obtain ⟨i, c0⟩ := r
      obtain ⟨h1, h2, _⟩ := findFirst_some _ cats i c0 hf
      constructor
      · intro h
        exfalso
        simp only [UpdateCategory, hb, World.GetCategories, hw, hf, World.SaveCategories,
          Bool.not_true, Bool.false_eq_true, if_false] at h
        split at h
        · simp at h
        · split at h
          · simp at h
          · split at h <;> simp at h
      · intro h
        exact absurd (by simpa using h2) (h c0 (List.getElem?_mem h1))
  · intro i c0 hi hid hfirst
    have hf : findFirst (fun category => category.id == id) cats = some (i, c0) :=
      findFirst_of_first _ cats i c0 hi (by simp [hid])
        (fun j y hj hy => by simpa using hfirst j y hj hy)
    have hdup : (cats.enum.any (fun e => e.1 != i && e.2.name == req.name) = true ∨
        cats.enum.any (fun e => e.1 != i && e.2.uploadDir == req.uploadDir) = true) ↔
        ∃ j c, cats[j]? = some c ∧ j ≠ i ∧
          (c.name = req.name ∨ c.uploadDir = req.uploadDir) := by
      rw [enum_any_iff cats (fun j c => j != i && c.name == req.name),
        enum_any_iff cats (fun j c => j != i && c.uploadDir == req.uploadDir)]
      constructor
      · rintro (⟨j, c, hj, hq⟩ | ⟨j, c, hj, hq⟩)
        · simp only [Bool.and_eq_true, bne_iff_ne, ne_eq, beq_iff_eq] at hq
          exact ⟨j, c, hj, hq.1, Or.inl hq.2⟩
        · simp only [Bool.and_eq_true, bne_iff_ne, ne_eq, beq_iff_eq] at hq
          exact ⟨j, c, hj, hq.1, Or.inr hq.2⟩
      · rintro ⟨j, c, hj, hne, h | h⟩
        · exact Or.inl ⟨j, c, hj, by simp [hne, h]⟩
        · exact Or.inr ⟨j, c, hj, by simp [hne, h]⟩
    by_cases hn : cats.enum.any (fun e => e.1 != i && e.2.name == req.name) = true
    · have h400 : (UpdateCategory env w id req).1 = ⟨400, false, "分类名称已存在", none⟩ := by
        simp [UpdateCategory, hb, World.GetCategories, hw, hf, hn]
      have hex := hdup.mp (Or.inl hn)
      refine ⟨⟨fun _ => hex, fun _ => by rw [h400]⟩, ?_, ?_⟩
      · intro e1 e2 hother
        obtain ⟨j, c, hj, hne, h | h⟩ := hex
        · exact absurd (h.trans e1) (hother j c hj hne).1
        · exact absurd (h.trans e2) (hother j c hj hne).2
      · intro hs
        rw [h400] at hs
        simp at hs
    by_cases hd : cats.enum.any (fun e => e.1 != i && e.2.uploadDir == req.uploadDir) = true
    · have h400 : (UpdateCategory env w id req).1 = ⟨400, false, "上传目录已存在", none⟩ := by
        simp [UpdateCategory, hb, World.GetCategories, hw, hf, hn, hd]
      have hex := hdup.mp (Or.inr hd)
      refine ⟨⟨fun _ => hex, fun _ => by rw [h400]⟩, ?_, ?_⟩
      · intro e1 e2 hother
        obtain ⟨j, c, hj, hne, h | h⟩ := hex
        · exact absurd (h.trans e1) (hother j c hj hne).1
        · exact absurd (h.trans e2) (hother j c hj hne).2
      · intro hs
        rw [h400] at hs
        simp at hs
    have hnex : ¬ ∃ j c, cats[j]? = some c ∧ j ≠ i ∧
        (c.name = req.name ∨ c.uploadDir = req.uploadDir) := by
      intro h
      rcases hdup.mpr h with h | h
      · exact hn h
      · exact hd h
    cases hwr : w.categoriesWritable with
    | false =>
      have h500 : (UpdateCategory env w id req).1 = ⟨500, false, "保存分类失败", none⟩ := by
        simp [UpdateCategory, hb, World.GetCategories, hw, hf, hn, hd, World.SaveCategories, hwr]
      refine ⟨⟨fun h => ?_, fun h => absurd h hnex⟩, fun _ _ _ => ⟨?_, ?_, ?_⟩, fun hs => ?_⟩
      · rw [h500] at h
        simp at h
      · rw [h500]
        simp
      · rw [h500]
        simp
      · intro h
        simp at h
      · rw [h500] at hs
        simp at hs
    | true =>
      have hst : (UpdateCategory env w id req).1.status = 200 ∧
          (UpdateCategory env w id req).1.success = true := by
        simp [UpdateCategory, hb, World.GetCategories, hw, hf, hn, hd, World.SaveCategories, hwr]
      have hcat : (UpdateCategory env w id req).2.categories =
          some (updateAt cats i (fun category =>
            { category with name := req.name, icon := req.icon, uploadDir := req.uploadDir,
                            sort := req.sort, updatedAt := env.now })) := by
        simp only [UpdateCategory, hb, World.GetCategories, hw, hf, hn, hd,
          World.SaveCategories, hwr, Bool.not_true, Bool.false_eq_true, if_false, if_true]
        rw [categories_of_store (store_ensureDir _ _)]
      refine ⟨⟨fun h => ?_, fun h => absurd h hnex⟩, fun _ _ _ => ⟨?_, ?_, fun _ => hst.2⟩,
        fun _ => ⟨_, hcat, updateAt_length _ _ _, fun j hj => updateAt_getElem?_ne _ _ _ _ hj, ?_⟩⟩
      · rw [hst.1] at h
        simp at h
      · rw [hst.1]
        simp
      · rw [hst.1]
        simp
      · rw [updateAt_getElem?_eq, hi]
        rfl

/-- Witness of C10 on the example world: `catB` is the second category, and an
update that keeps its name and directory is accepted. -/
theorem UpdateCategory_contract_witness :
    (⟨"Beta", "new.svg", "dirB", 7⟩ : UpdateCategoryRequest).bound = true ∧
    exWorld.categories = some [exCatA, exCatB] ∧
    (UpdateCategory exEnv exWorld "catB" ⟨"Beta", "new.svg", "dirB", 7⟩).1.status ≠ 400 ∧
    (UpdateCategory exEnv exWorld "catB" ⟨"Beta", "new.svg", "dirB", 7⟩).1.status ≠ 404 ∧
    (exWorld.categoriesWritable = true →
      (UpdateCategory exEnv exWorld "catB" ⟨"Beta", "new.svg", "dirB", 7⟩).1.success = true) :=
  ⟨by decide, rfl,
    ((UpdateCategory_contract exEnv exWorld "catB" ⟨"Beta", "new.svg", "dirB", 7⟩
      [exCatA, exCatB] (by decide) rfl).2 1 exCatB rfl rfl
      (by
        intro j c hj hc
        have hj0 : j = 0 := by omega
        subst hj0
        simp only [List.getElem?_cons_zero, Option.some.injEq] at hc
        subst hc
        decide)).2.1 rfl rfl
      (by
        intro j c hc hne
        match j, hc, hne with
        | 0, hc, _ =>
          simp only [List.getElem?_cons_zero, Option.some.injEq] at hc
          subst hc
          decide
        | 1, _, hne => exact absurd rfl hne
        | (n + 2), hc, _ => simp at hc)⟩

/-! ## Bookmarks -/

@[simp] theorem store_moveIcon (w : World) (oldIconPath oldCategoryId newCategoryId : String)
    (categories : List Category) :
    (moveIconToNewCategory w oldIconPath oldCategoryId newCategoryId categories).2.store =
      w.store := by
  simp only [moveIconToNewCategory]
  split
  · rfl
  · split
    · split
      · simp
      · split <;> simp
    · rfl

@[simp] theorem store_iconTransition (w : World) (oldIcon oldCategory : String)
    (req : UpdateBookmarkRequest) (categories : List Category) :
    (UpdateBookmark.iconTransition w oldIcon oldCategory req categories).2.store = w.store := by
  simp only [UpdateBookmark.iconTransition]
  repeat' split
  all_goals simp

theorem any_key_iff (bs : List Bookmark) (cat n : String) :
    bs.any (fun bookmark => bookmark.category == cat && bookmark.name == n) = true ↔
      ∃ b ∈ bs, b.category = cat ∧ b.name = n := by
  simp [List.any_eq_true]

/-- C2: bookmark uniqueness is an invariant. In a readable bookmark collection
whose pairs of category and name are pairwise distinct, every `CreateBookmark`
and every `UpdateBookmark` that reports success leaves a stored collection whose
pairs are pairwise distinct. -/
theorem bookmark_uniqueness_invariant (lib : StdLib) (env : Env) (w : World)
    (bs : List Bookmark) (hw : w.bookmarks = some bs) (hu : BookmarksUnique bs) :
    (∀ req : CreateBookmarkRequest, (CreateBookmark lib env w req).1.success = true →
      ∃ bs', (CreateBookmark lib env w req).2.bookmarks = some bs' ∧ BookmarksUnique bs') ∧
    (∀ (id : String) (req : UpdateBookmarkRequest),
      (UpdateBookmark lib env w id req).1.success = true →
      ∃ bs', (UpdateBookmark lib env w id req).2.bookmarks = some bs' ∧
        BookmarksUnique bs') := by
  constructor
  · intro req hs
    by_cases hb : req.bound = true
    swap
    · simp [CreateBookmark, hb] at hs
    by_cases hurl : lib.urlParseOk req.url = true
    swap
    · simp [CreateBookmark, hb, hurl] at hs
    cases hc : w.categories with
    | none => simp [CreateBookmark, hb, hurl, World.GetCategories, hc] at hs
    | some cats =>
      by_cases hk : unknownCategory cats req.category = true
      · simp [CreateBookmark, hb, hurl, World.GetCategories, hc, hk] at hs
      by_cases hd : bs.any (fun bookmark =>
          bookmark.category == req.category && bookmark.name == req.name) = true
      · simp [CreateBookmark, hb, hurl, World.GetCategories, hc, hk, World.GetBookmarks, hw,
          hd] at hs
      cases hwr : w.bookmarksWritable with
      | false =>
        simp [CreateBookmark, hb, hurl, World.GetCategories, hc, hk, World.GetBookmarks, hw,
          hd, World.SaveBookmarks, hwr] at hs
      | true =>
        refine ⟨_, by
          simp only [CreateBookmark, hb, hurl, World.GetCategories, hc, hk, World.GetBookmarks,
            hw, hd, World.SaveBookmarks, hwr, Bool.not_true, Bool.false_eq_true, if_false,
            if_true]
          rfl, ?_⟩
        unfold BookmarksUnique
        rw [List.pairwise_append]
        refine ⟨hu, List.pairwise_singleton _ _, ?_⟩
        intro a ha b hb'
        rw [List.mem_singleton] at hb'
        subst hb'
        intro e
        simp only [Prod.mk.injEq] at e
        rw [any_key_iff] at hd
        exact hd ⟨a, ha, e.1, e.2⟩
  · intro id req hs
    by_cases hb : req.bound = true
    swap
    · simp [UpdateBookmark, hb] at hs
    by_cases hurl : lib.urlParseOk req.url = true
    swap
    · simp [UpdateBookmark, hb, hurl] at hs
    cases hc : w.categories with
    | none => simp [UpdateBookmark, hb, hurl, World.GetCategories, hc] at hs
    | some cats =>
      by_cases hk : unknownCategory cats req.category = true
      · simp [UpdateBookmark, hb, hurl, World.GetCategories, hc, hk] at hs
      cases hf : findFirst (fun bookmark => bookmark.id == id) bs with
      | none =>
        simp [UpdateBookmark, hb, hurl, World.GetCategories, hc, hk, World.GetBookmarks, hw,
          hf] at hs
      | some r =>
        obtain ⟨i, b0⟩ := r
        by_cases hd : bs.enum.any (fun e => e.1 != i &&
            (e.2.category == req.category && e.2.name == req.name)) = true
        · simp [UpdateBookmark, hb, hurl, World.GetCategories, hc, hk, World.GetBookmarks, hw,
            hf, hd] at hs
        have hwr' : (UpdateBookmark.iconTransition w b0.icon b0.category req cats).2.bookmarksWritable
            = w.bookmarksWritable := bookmarksWritable_of_store (store_iconTransition _ _ _ _ _)
        cases hwr : w.bookmarksWritable with
        | false =>
          rw [hwr] at hwr'
          simp [UpdateBookmark, hb, hurl, World.GetCategories, hc, hk, World.GetBookmarks, hw,
            hf, hd, World.SaveBookmarks, hwr'] at hs
        | true =>
          rw [hwr] at hwr'
          refine ⟨_, by
            simp only [UpdateBookmark, hb, hurl, World.GetCategories, hc, hk,
              World.GetBookmarks, hw, hf, hd, World.SaveBookmarks, hwr', Bool.not_true,
              Bool.false_eq_true, if_false, if_true]
            rfl, ?_⟩
          rw [enum_any_iff bs (fun j c => j != i &&
            (c.category == req.category && c.name == req.name))] at hd
          apply pairwise_updateAt (fun a b h e => h e.symm) bs i _ hu
          intro j c x hj _ hne e
          simp only [Prod.mk.injEq] at e
          exact hd ⟨j, c, hj, by simp [hne, e.1, e.2]⟩

/-- Witness of C2 on the example world: moving the first bookmark to `catB`
succeeds and leaves the pairs distinct. -/
theorem bookmark_uniqueness_invariant_witness :
    exWorld.bookmarks = some [exBookmarkA, exBookmarkB] ∧
    BookmarksUnique [exBookmarkA, exBookmarkB] ∧
    ∃ bs', (UpdateBookmark smallLib exEnv exWorld "bookmark_1"
        ⟨"one", "https://one.example", "first", "/uploads/dirA/x.png", "catB", none, 3⟩).2.bookmarks
        = some bs' ∧ BookmarksUnique bs' :=
  have hu : BookmarksUnique [exBookmarkA, exBookmarkB] := by
    simp [BookmarksUnique, exBookmarkA, exBookmarkB]
  ⟨rfl, hu,
    (bookmark_uniqueness_invariant smallLib exEnv exWorld [exBookmarkA, exBookmarkB] rfl hu).2
      "bookmark_1" ⟨"one", "https://one.example", "first", "/uploads/dirA/x.png", "catB", none, 3⟩
      (by decide)⟩

/-! ## Strings of the form `/uploads/<dir>/<file>` -/

theorem splitSlashChars_ne_nil (cs : List Char) : splitSlashChars cs ≠ [] := by
  cases cs with
  | nil => simp [splitSlashChars]
  | cons c cs =>
    simp only [splitSlashChars]
    split
    · simp
    · split <;> simp

theorem splitSlashChars_no_slash (cs : List Char) (h : '/' ∉ cs) : splitSlashChars cs = [cs] := by
  induction cs with
  | nil => rfl
  | cons c cs ih =>
    simp only [List.mem_cons, not_or] at h
    have hc : c ≠ '/' := fun e => h.1 e.symm
    simp [splitSlashChars, ih h.2, hc]

theorem splitSlashChars_two (d f : List Char) (hd : '/' ∉ d) (hf : '/' ∉ f) :
    splitSlashChars (d ++ '/' :: f) = [d, f] := by
  induction d with
  | nil => simp [splitSlashChars, splitSlashChars_no_slash f hf]
  | cons c cs ih =>
    simp only [List.mem_cons, not_or] at hd
    have hc : c ≠ '/' := fun e => hd.1 e.symm
    simp [splitSlashChars, ih hd.2, hc]

theorem uploads_data (dir file : String) :
    ("/uploads/" ++ dir ++ "/" ++ file).data = "/uploads/".data ++ (dir.data ++ '/' :: file.data) := by
  simp [String.data_append]

theorem hasPrefix_uploads (dir file : String) :
    hasPrefix ("/uploads/" ++ dir ++ "/" ++ file) "/uploads/" = true := by
  unfold hasPrefix
  rw [uploads_data, List.isPrefixOf_iff_prefix]
  exact List.prefix_append _ _

theorem split_uploads (dir file : String) (hd : '/' ∉ dir.data) (hf : '/' ∉ file.data) :
    splitSlash (trimPrefix ("/uploads/" ++ dir ++ "/" ++ file) "/uploads/") = [dir, file] := by
  unfold trimPrefix
  rw [hasPrefix_uploads, if_pos rfl]
  unfold splitSlash
  simp only [uploads_data, List.drop_left, splitSlashChars_two _ _ hd hf, List.map_cons,
    List.map_nil]

/-- C6: an icon reference that does not start with `/uploads/`, or whose rest after
that prefix has fewer than two segments between slashes, comes back unchanged
from `moveIconToNewCategory`, and the world is exactly as before (no call of
package `os` is made), whatever the category ids and the category list are. -/
theorem moveIcon_malformed (w : World) (oldIconPath oldCategoryId newCategoryId : String)
    (categories : List Category)
    (h : hasPrefix oldIconPath "/uploads/" = false ∨
      (splitSlash (trimPrefix oldIconPath "/uploads/")).length < 2) :
    moveIconToNewCategory w oldIconPath oldCategoryId newCategoryId categories =
      (oldIconPath, w) := by
  by_cases hp : hasPrefix oldIconPath "/uploads/" = true
  · rcases h with h | h
    · rw [hp] at h
      simp at h
    · simp only [moveIconToNewCategory, hp, Bool.not_true, Bool.false_eq_true, if_false]
      split
      · rename_i heq
        rw [heq] at h
        simp only [List.length_cons] at h
        omega
      · rfl
  · simp [moveIconToNewCategory, hp]

/-- Witness of C6: an external icon and a local reference without a file segment. -/
theorem moveIcon_malformed_witness :
    (hasPrefix "https://cdn.example/i.png" "/uploads/" = false ∨
      (splitSlash (trimPrefix "https://cdn.example/i.png" "/uploads/")).length < 2) ∧
    (hasPrefix "/uploads/x.png" "/uploads/" = false ∨
      (splitSlash (trimPrefix "/uploads/x.png" "/uploads/")).length < 2) ∧
    moveIconToNewCategory exWorld "https://cdn.example/i.png" "catA" "catB" [exCatA, exCatB] =
      ("https://cdn.example/i.png", exWorld) ∧
    moveIconToNewCategory exWorld "/uploads/x.png" "catA" "catB" [exCatA, exCatB] =
      ("/uploads/x.png", exWorld) :=
  ⟨Or.inl (by decide), Or.inr (by decide),
    moveIcon_malformed exWorld "https://cdn.example/i.png" "catA" "catB" [exCatA, exCatB]
      (Or.inl (by decide)),
    moveIcon_malformed exWorld "/uploads/x.png" "catA" "catB" [exCatA, exCatB]
      (Or.inr (by decide))⟩

/-- C7 as stated fails: in a category list that holds a category with the id
`"all"`, both lookups resolve `"all"` to the upload directory of that category
and not to `"common"`. -/
theorem resolveUploadDir_all_counterexample :
    moveIconToNewCategory.newUploadDir [{ exCatA with id := "all" }] "all" = "dirA" ∧
    UploadIcon.uploadDir [{ exCatA with id := "all" }] "all" = "dirA" ∧
    Spec.resolveUploadDir "all" [{ exCatA with id := "all" }] = "common" ∧
    ¬ (∀ (categoryId : String) (categories : List Category),
        moveIconToNewCategory.newUploadDir categories categoryId =
          Spec.resolveUploadDir categoryId categories) := by
  refine ⟨by decide, by decide, by decide, ?_⟩
  intro h
  exact absurd (h "all" [{ exCatA with id := "all" }]) (by decide)

/-- C7, amended: when no category of the list has the id `"all"`, the lookup of
`moveIconToNewCategory` is the resolution the specification words: the upload
directory of the first category with the given id, `"common"` when no category
has the id, and so `"common"` for `"all"`. The lookup of `UploadIcon` is the same
function of the id and the list, on every list. -/
theorem resolveUploadDir_refines (categoryId : String) (categories : List Category)
    (hall : ∀ c ∈ categories, c.id ≠ "all") :
    moveIconToNewCategory.newUploadDir categories categoryId =
      Spec.resolveUploadDir categoryId categories ∧
    UploadIcon.uploadDir categories categoryId =
      moveIconToNewCategory.newUploadDir categories categoryId ∧
    ((∀ c ∈ categories, c.id ≠ categoryId) →
      moveIconToNewCategory.newUploadDir categories categoryId = "common") ∧
    (∀ (i : Nat) (c : Category), categories[i]? = some c → c.id = categoryId →
      (∀ j d, j < i → categories[j]? = some d → d.id ≠ categoryId) →
      moveIconToNewCategory.newUploadDir categories categoryId = c.uploadDir) := by
  have hnone : (∀ c ∈ categories, c.id ≠ categoryId) →
      moveIconToNewCategory.newUploadDir categories categoryId = "common" := by
    intro h
    have hf : findFirst (fun category => category.id == categoryId) categories = none := by
      rw [findFirst_none]
      intro c hc
      simpa using h c hc
    simp [moveIconToNewCategory.newUploadDir, hf]
  refine ⟨?_, rfl, hnone, ?_⟩
  · unfold Spec.resolveUploadDir
    by_cases ha : categoryId = "all"
    · rw [if_pos ha]
      exact hnone (fun c hc => by rw [ha]; exact hall c hc)
    · rw [if_neg ha, ← findFirst_eq_find]
      unfold moveIconToNewCategory.newUploadDir
      cases findFirst (fun category => category.id == categoryId) categories with
      | none => rfl
      | some r => rfl
  · intro i c hi hid hfirst
    have hf : findFirst (fun category => category.id == categoryId) categories = some (i, c) :=
      findFirst_of_first _ categories i c hi (by simp [hid])
        (fun j y hj hy => by simpa using hfirst j y hj hy)
    simp [moveIconToNewCategory.newUploadDir, hf]

/-- Witness of C7, amended, on the two example categories. -/
theorem resolveUploadDir_refines_witness :
    (∀ c ∈ [exCatA, exCatB], c.id ≠ "all") ∧
    moveIconToNewCategory.newUploadDir [exCatA, exCatB] "all" =
      Spec.resolveUploadDir "all" [exCatA, exCatB] ∧
    moveIconToNewCategory.newUploadDir [exCatA, exCatB] "catB" = "dirB" :=
  ⟨by decide, (resolveUploadDir_refines "all" [exCatA, exCatB] (by decide)).1,
    (resolveUploadDir_refines "catB" [exCatA, exCatB] (by decide)).2.2.2 1 exCatB rfl rfl
      (by
        intro j d hj hd
        have hj0 : j = 0 := by omega
        subst hj0
        simp only [List.getElem?_cons_zero, Option.some.injEq] at hd
        subst hd
        decide)⟩

/-! ## The directory tree -/

theorem lookup_erase (fs : FS) (p q : Path) :
    List.lookup p (fs.erase q) = if p = q then none else List.lookup p fs := by
  induction fs with
  | nil => simp [FS.erase]
  | cons e es ih =>
    obtain ⟨k, v⟩ := e
    unfold FS.erase at ih ⊢
    by_cases hk : k = q
    · subst hk
      simp only [List.filter_cons, ne_eq, not_true_eq_false, decide_False, Bool.false_eq_true,
        if_false, ih, List.lookup_cons]
      by_cases hp : p = k
      · simp [hp]
      · have hb : (p == k) = false := by simpa using hp
        simp [hp, hb]
    · simp only [List.filter_cons, ne_eq, hk, not_false_eq_true, decide_True, if_true,
        List.lookup_cons, ih]
      by_cases hp : p = q
      · subst hp
        have : (p == k) = false := by simpa using fun e => hk e.symm
        simp [this]
      · simp [hp]

theorem kind_mkdirAll (fs fs' : FS) (p q : Path) (k : Kind) (h : fs.mkdirAll p = some fs')
    (hk : fs.kind q = some k) : fs'.kind q = some k := by
  unfold FS.mkdirAll at h
  split at h
  · simp at h
  · split at h
    · simp at h
    · simp only [Option.some.injEq] at h
      subst h
      unfold FS.kind at hk ⊢
      by_cases hq : q = []
      · simpa [hq] using hk
      · simp only [hq, if_false] at hk ⊢
        rw [List.lookup_append, hk]
        rfl

theorem kind_ensureDir (w : World) (name : String) (q : Path) (k : Kind)
    (hk : w.fs.kind q = some k) : (w.ensureDir name).fs.kind q = some k := by
  simp only [World.ensureDir, World.osStat]
  split
  · simp only [World.osMkdirAll]
    cases hm : w.fs.mkdirAll (toPath name) with
    | none => simpa using hk
    | some fs' => simpa using kind_mkdirAll w.fs fs' _ q k hm hk
  · exact hk

theorem kind_rename_file (fs fs' : FS) (old new : Path) (hk : fs.kind old = some Kind.file)
    (h : fs.rename old new = some fs') :
    fs'.kind new = some Kind.file ∧ (new ≠ old → fs'.kind old = none) := by
  have hold : old ≠ [] := by
    intro e
    simp [FS.kind, e] at hk
  simp only [FS.rename, hk] at h
  split at h
  · simp at h
  · split at h
    · simp at h
    · rename_i hnd
      split at h
      · simp at h
      · simp only [Option.some.injEq] at h
        subst h
        have hnew : new ≠ [] := by
          intro e
          simp [FS.kind, e] at hnd
        constructor
        · simp [FS.kind, hnew]
        · intro hne
          have hb : (old == new) = false := by simpa using fun e => hne e.symm
          simp only [FS.kind, hold, if_false, List.lookup_cons, hb]
          rw [lookup_erase, lookup_erase]
          simp [fun e => hne (Eq.symm e)]

theorem osStat_fst (w : World) (name : String) :
    (w.osStat name).1 = w.fs.stat (toPath name) := rfl

/-- When `Stat` answers anything but that the source does not exist and the
rename fails, `moveIconToNewCategory` returns the reference it was given. -/
theorem moveIcon_rename_failed (w : World) (dir file oldCategoryId newCategoryId : String)
    (categories : List Category) (hd : '/' ∉ dir.data) (hf : '/' ∉ file.data)
    (hst : (w.fs.stat (toPath (filepathJoin [GetDataPath, "uploads", dir, file]))).isNotExist =
      false)
    (hmv : (((w.osStat (filepathJoin [GetDataPath, "uploads", dir, file])).2.ensureDir
          (filepathJoin [GetUploadsPath,
            moveIconToNewCategory.newUploadDir categories newCategoryId])).osRename
        (filepathJoin [GetDataPath, "uploads", dir, file])
        (filepathJoin [filepathJoin [GetUploadsPath,
          moveIconToNewCategory.newUploadDir categories newCategoryId], file])).1 = false) :
    (moveIconToNewCategory w ("/uploads/" ++ dir ++ "/" ++ file) oldCategoryId newCategoryId
      categories).1 = "/uploads/" ++ dir ++ "/" ++ file := by
  simp only [moveIconToNewCategory, hasPrefix_uploads, split_uploads dir file hd hf,
    Bool.not_true, Bool.false_eq_true, if_false]
  rw [osStat_fst]
  simp [hst, hmv]

theorem stat_found (fs : FS) (p : Path) (k : Kind) (h : fs.stat p = StatResult.found k) :
    fs.kind p = some k := by
  unfold FS.stat at h
  split at h
  · simp only [StatResult.found.injEq] at h
    subst h
    assumption
  · split at h
    · simp at h
    · split at h <;> simp at h

theorem stat_absent (fs : FS) (p : Path) (h : fs.kind p = none) :
    (fs.stat p).isOk = false := by
  unfold FS.stat
  rw [h]
  dsimp only
  split
  · rfl
  · split <;> rfl

/-- C5 as stated fails: when the directory of the icon already is the upload
directory of the new category, the source file is present and the rename
succeeds, but the file is still at `uploads/<dir>/<file>` afterwards. -/
theorem moveIcon_same_directory_counterexample :
    moveIconToNewCategory.newUploadDir [exCatA, exCatB] "catA" = "dirA" ∧
    exWorld.fs.stat (toPath (filepathJoin [GetDataPath, "uploads", "dirA", "x.png"])) =
      StatResult.found Kind.file ∧
    (((exWorld.osStat (filepathJoin [GetDataPath, "uploads", "dirA", "x.png"])).2.ensureDir
        (filepathJoin [GetUploadsPath, "dirA"])).osRename
      (filepathJoin [GetDataPath, "uploads", "dirA", "x.png"])
      (filepathJoin [filepathJoin [GetUploadsPath, "dirA"], "x.png"])).1 = true ∧
    (moveIconToNewCategory exWorld "/uploads/dirA/x.png" "catB" "catA" [exCatA, exCatB]).1 =
      "/uploads/dirA/x.png" ∧
    (moveIconToNewCategory exWorld "/uploads/dirA/x.png" "catB" "catA"
      [exCatA, exCatB]).2.fs.kind (toPath (filepathJoin [GetDataPath, "uploads", "dirA", "x.png"]))
      = some Kind.file := by
  decide

/-- C5, amended: for an icon reference `/uploads/<dir>/<file>` whose `dir` and
`file` hold no slash, with `U` the upload directory resolved for the new category:
when `os.Stat` reports that the source does not exist, `moveIconToNewCategory`
returns `/uploads/<U>/<file>`, the tree and the collections are as before and the
only `os` call is the `Stat` of the source; when the source is a file and the
rename succeeds, it returns `/uploads/<U>/<file>`, a file is at the target path
afterwards, and nothing is at the source path any more unless source and target
are the same path; when `Stat` answers anything but that the source does not
exist and the rename fails, it returns the old reference. -/
theorem moveIcon_relocates (w : World) (dir file oldCategoryId newCategoryId : String)
    (categories : List Category) (hd : '/' ∉ dir.data) (hf : '/' ∉ file.data) :
    (w.fs.stat (toPath (filepathJoin [GetDataPath, "uploads", dir, file])) =
        StatResult.notExist →
      moveIconToNewCategory w ("/uploads/" ++ dir ++ "/" ++ file) oldCategoryId newCategoryId
          categories =
        ("/uploads/" ++ moveIconToNewCategory.newUploadDir categories newCategoryId ++ "/" ++ file,
          { w with trace := w.trace ++
              [OsCall.stat (filepathJoin [GetDataPath, "uploads", dir, file])] })) ∧
    (w.fs.stat (toPath (filepathJoin [GetDataPath, "uploads", dir, file])) =
        StatResult.found Kind.file →
      (((w.osStat (filepathJoin [GetDataPath, "uploads", dir, file])).2.ensureDir
          (filepathJoin [GetUploadsPath,
            moveIconToNewCategory.newUploadDir categories newCategoryId])).osRename
        (filepathJoin [GetDataPath, "uploads", dir, file])
        (filepathJoin [filepathJoin [GetUploadsPath,
          moveIconToNewCategory.newUploadDir categories newCategoryId], file])).1 = true →
      (moveIconToNewCategory w ("/uploads/" ++ dir ++ "/" ++ file) oldCategoryId newCategoryId
          categories).1 =
        "/uploads/" ++ moveIconToNewCategory.newUploadDir categories newCategoryId ++ "/" ++ file ∧
      (moveIconToNewCategory w ("/uploads/" ++ dir ++ "/" ++ file) oldCategoryId newCategoryId
          categories).2.fs.kind
        (toPath (filepathJoin [filepathJoin [GetUploadsPath,
          moveIconToNewCategory.newUploadDir categories newCategoryId], file])) =
        some Kind.file ∧
      (toPath (filepathJoin [filepathJoin [GetUploadsPath,
          moveIconToNewCategory.newUploadDir categories newCategoryId], file]) ≠
        toPath (filepathJoin [GetDataPath, "uploads", dir, file]) →
        (moveIconToNewCategory w ("/uploads/" ++ dir ++ "/" ++ file) oldCategoryId newCategoryId
          categories).2.fs.kind (toPath (filepathJoin [GetDataPath, "uploads", dir, file])) =
          none)) ∧
    ((w.fs.stat (toPath (filepathJoin [GetDataPath, "uploads", dir, file]))).isNotExist = false →
      (((w.osStat (filepathJoin [GetDataPath, "uploads", dir, file])).2.ensureDir
          (filepathJoin [GetUploadsPath,
            moveIconToNewCategory.newUploadDir categories newCategoryId])).osRename
        (filepathJoin [GetDataPath, "uploads", dir, file])
        (filepathJoin [filepathJoin [GetUploadsPath,
          moveIconToNewCategory.newUploadDir categories newCategoryId], file])).1 = false →
      (moveIconToNewCategory w ("/uploads/" ++ dir ++ "/" ++ file) oldCategoryId newCategoryId
          categories).1 = "/uploads/" ++ dir ++ "/" ++ file) := by
  refine ⟨?_, ?_, ?_⟩
  · intro hst
    simp only [moveIconToNewCategory, hasPrefix_uploads, split_uploads dir file hd hf,
      Bool.not_true, Bool.false_eq_true, if_false]
    simp [World.osStat, hst, StatResult.isNotExist]
  rotate_left
  · intro hst hmv
    exact moveIcon_rename_failed w dir file oldCategoryId newCategoryId categories hd hf hst hmv
  · intro hst hmv
    have hk := stat_found _ _ _ hst
    simp only [moveIconToNewCategory, hasPrefix_uploads, split_uploads dir file hd hf,
      Bool.not_true, Bool.false_eq_true, if_false]
    have hne : (w.osStat (filepathJoin [GetDataPath, "uploads", dir, file])).1.isNotExist
        = false := by
      simp [World.osStat, hst, StatResult.isNotExist]
    simp only [hne, Bool.false_eq_true, if_false, hmv, Bool.not_true, true_and]
    have hk2 : ((w.osStat (filepathJoin [GetDataPath, "uploads", dir, file])).2.ensureDir
        (filepathJoin [GetUploadsPath,
          moveIconToNewCategory.newUploadDir categories newCategoryId])).fs.kind
        (toPath (filepathJoin [GetDataPath, "uploads", dir, file])) = some Kind.file :=
      kind_ensureDir _ _ _ _ hk
    revert hmv hk2
    generalize ((w.osStat (filepathJoin [GetDataPath, "uploads", dir, file])).2.ensureDir
        (filepathJoin [GetUploadsPath,
          moveIconToNewCategory.newUploadDir categories newCategoryId])) = w2
    intro hmv hk2
    unfold World.osRename at hmv ⊢
    cases hr : w2.fs.rename (toPath (filepathJoin [GetDataPath, "uploads", dir, file]))
        (toPath (filepathJoin [filepathJoin [GetUploadsPath,
          moveIconToNewCategory.newUploadDir categories newCategoryId], file])) with
    | none =>
      rw [hr] at hmv
      simp at hmv
    | some fs' => exact kind_rename_file _ _ _ _ hk2 hr

/-- Witness of C5, amended, with the values of the claim: `/uploads/catA/x.png`
moves from `catA` to `catB`, whose upload directory is `dirB`; on a tree without
the source file the same reference comes back; on a tree in which `dirA` is a
file the `Stat` of `/uploads/dirA/x.png` fails with `ENOTDIR`, the rename fails
and the old reference comes back. -/
theorem moveIcon_relocates_witness :
    ('/' ∉ "catA".data ∧ '/' ∉ "x.png".data) ∧
    exMoveWorld.fs.stat (toPath (filepathJoin [GetDataPath, "uploads", "catA", "x.png"])) =
      StatResult.found Kind.file ∧
    (moveIconToNewCategory exMoveWorld ("/uploads/" ++ "catA" ++ "/" ++ "x.png") "catA" "catB"
      [exCatB]).1 = "/uploads/" ++ moveIconToNewCategory.newUploadDir [exCatB] "catB" ++ "/" ++ "x.png" ∧
    "/uploads/" ++ moveIconToNewCategory.newUploadDir [exCatB] "catB" ++ "/" ++ "x.png" =
      "/uploads/dirB/x.png" ∧
    exWorld.fs.stat (toPath (filepathJoin [GetDataPath, "uploads", "catA", "x.png"])) =
      StatResult.notExist ∧
    moveIconToNewCategory exWorld ("/uploads/" ++ "catA" ++ "/" ++ "x.png") "catA" "catB"
        [exCatB] =
      ("/uploads/" ++ moveIconToNewCategory.newUploadDir [exCatB] "catB" ++ "/" ++ "x.png",
        { exWorld with trace := exWorld.trace ++
            [OsCall.stat (filepathJoin [GetDataPath, "uploads", "catA", "x.png"])] }) ∧
    exNotDirWorld.fs.kind (toPath (filepathJoin [GetDataPath, "uploads", "dirA", "x.png"])) =
      none ∧
    exNotDirWorld.fs.stat (toPath (filepathJoin [GetDataPath, "uploads", "dirA", "x.png"])) =
      StatResult.otherError ∧
    (moveIconToNewCategory exNotDirWorld ("/uploads/" ++ "dirA" ++ "/" ++ "x.png") "catA" "catB"
      [exCatA, exCatB]).1 = "/uploads/" ++ "dirA" ++ "/" ++ "x.png" :=
  ⟨⟨by decide, by decide⟩, by decide,
    ((moveIcon_relocates exMoveWorld "catA" "x.png" "catA" "catB" [exCatB]
      (by decide) (by decide)).2.1 (by decide) (by decide)).1,
    by decide,
    by decide,
    (moveIcon_relocates exWorld "catA" "x.png" "catA" "catB" [exCatB]
      (by decide) (by decide)).1 (by decide),
    by decide, by decide,
    (moveIcon_relocates exNotDirWorld "dirA" "x.png" "catA" "catB" [exCatA, exCatB]
      (by decide) (by decide)).2.2 (by decide) (by decide)⟩

set_option maxRecDepth 100000 in
/-- A name of 256 bytes is too long: on the example tree the `Stat` of
`data/uploads/dirA/<name>` fails, and not with `ENOENT`, and
`moveIconToNewCategory` returns the old reference. -/
theorem moveIcon_long_name :
    exWorld.fs.kind (toPath (filepathJoin [GetDataPath, "uploads", "dirA", exLongName])) = none ∧
    exWorld.fs.stat (toPath (filepathJoin [GetDataPath, "uploads", "dirA", exLongName])) =
      StatResult.otherError ∧
    (moveIconToNewCategory exWorld ("/uploads/dirA/" ++ exLongName) "catA" "catB"
      [exCatA, exCatB]).1 = "/uploads/dirA/" ++ exLongName := by
  decide

/-! ## Listing order -/

theorem less_iff (a b : Bookmark) :
    GetBookmarks.less a b = true ↔
      a.sort < b.sort ∨ (a.sort = b.sort ∧ a.createdAt < b.createdAt) := by
  unfold GetBookmarks.less Time.Before
  by_cases h : a.sort = b.sort
  · rw [if_pos (by simpa using h), decide_eq_true_eq]
    constructor
    · exact fun h' => Or.inr ⟨h, h'⟩
    · rintro (h' | h')
      · rw [h] at h'
        exact absurd h' (lt_irrefl _)
      · exact h'.2
  · rw [if_neg (by simpa using h), decide_eq_true_eq]
    constructor
    · exact Or.inl
    · rintro (h' | h')
      · exact h'
      · exact absurd h'.1 h

theorem less_false_iff (a b : Bookmark) :
    GetBookmarks.less a b = false ↔
      ¬ (a.sort < b.sort ∨ (a.sort = b.sort ∧ a.createdAt < b.createdAt)) := by
  rw [← less_iff, Bool.not_eq_true]

theorem lex_trans (s1 s2 s3 c1 c2 c3 : Int) (h1 : s1 < s2 ∨ (s1 = s2 ∧ c1 < c2))
    (h2 : s2 < s3 ∨ (s2 = s3 ∧ c2 < c3)) : s1 < s3 ∨ (s1 = s3 ∧ c1 < c3) := by
  omega

theorem lex_incomp (s1 s2 s3 c1 c2 c3 : Int) (h1 : ¬ (s1 < s2 ∨ (s1 = s2 ∧ c1 < c2)))
    (h2 : ¬ (s2 < s1 ∨ (s2 = s1 ∧ c2 < c1))) (h3 : ¬ (s2 < s3 ∨ (s2 = s3 ∧ c2 < c3)))
    (h4 : ¬ (s3 < s2 ∨ (s3 = s2 ∧ c3 < c2))) :
    ¬ (s1 < s3 ∨ (s1 = s3 ∧ c1 < c3)) ∧ ¬ (s3 < s1 ∨ (s3 = s1 ∧ c3 < c1)) := by
  omega

theorem lex_total (s1 s2 c1 c2 : Int) (h : ¬ (s2 < s1 ∨ (s2 = s1 ∧ c2 < c1))) :
    s1 < s2 ∨ (s1 = s2 ∧ c1 ≤ c2) := by
  omega

theorem less_strictWeak : StrictWeak GetBookmarks.less := by
  refine ⟨?_, ?_, ?_⟩
  · intro a
    rw [less_false_iff]
    rintro (h | ⟨_, h⟩) <;> exact lt_irrefl _ h
  · intro a b c h1 h2
    rw [less_iff] at h1 h2 ⊢
    exact lex_trans _ _ _ _ _ _ h1 h2
  · intro a b c h1 h2 h3 h4
    rw [less_false_iff] at h1 h2 h3 h4
    rw [less_false_iff, less_false_iff]
    exact lex_incomp _ _ _ _ _ _ h1 h2 h3 h4

theorem listed_of_sorted (out : List Bookmark)
    (h : out.Pairwise (fun a b => GetBookmarks.less b a = false)) : ListedInOrder out := by
  unfold ListedInOrder
  refine h.imp ?_
  intro a b hab
  rw [less_false_iff] at hab
  exact lex_total _ _ _ _ hab

theorem StrictWeak.asymm {α : Type} {less : α → α → Bool} (h : StrictWeak less) (a b : α)
    (hab : less a b = true) : less b a = false := by
  cases hba : less b a with
  | false => rfl
  | true =>
    have := h.trans a b a hab hba
    rw [h.irrefl a] at this
    exact absurd this (by simp)

theorem insertBack_perm {α : Type} (less : α → α → Bool) (x : α) (l : List α) :
    (insertBack less x l).Perm (x :: l) := by
  induction l with
  | nil => exact List.Perm.refl _
  | cons y ys ih =>
    unfold insertBack
    split
    · exact ((List.Perm.cons y ih).trans (List.Perm.swap x y ys))
    · exact List.Perm.refl _

theorem insertBack_sorted {α : Type} (less : α → α → Bool) (h : StrictWeak less) (x : α)
    (l : List α) (hl : l.Pairwise (fun a b => less a b = false)) :
    (insertBack less x l).Pairwise (fun a b => less a b = false) := by
  induction l with
  | nil => simp [insertBack]
  | cons y ys ih =>
    rw [List.pairwise_cons] at hl
    unfold insertBack
    split
    · rename_i hxy
      rw [List.pairwise_cons]
      refine ⟨?_, ih hl.2⟩
      intro z hz
      rcases List.mem_cons.mp ((List.Perm.mem_iff (insertBack_perm less x ys)).mp hz) with hz | hz
      · rw [hz]
        exact h.asymm x y hxy
      · exact hl.1 z hz
    · rename_i hxy
      have hxy' : less x y = false := by simpa using hxy
      rw [List.pairwise_cons]
      refine ⟨?_, List.pairwise_cons.mpr hl⟩
      intro z hz
      rcases List.mem_cons.mp hz with hz | hz
      · rw [hz]
        exact hxy'
      · have hyz := hl.1 z hz
        cases hxz : less x z with
        | false => rfl
        | true =>
          exfalso
          cases hzy : less z y with
          | true =>
            have := h.trans x z y hxz hzy
            rw [hxy'] at this
            exact absurd this (by simp)
          | false =>
            cases hyx : less y x with
            | true =>
              have := h.trans y x z hyx hxz
              rw [hyz] at this
              exact absurd this (by simp)
            | false =>
              have := (h.incomp x y z hxy' hyx hyz hzy).1
              rw [hxz] at this
              exact absurd this (by simp)

theorem insertionSort_fold_perm {α : Type} (less : α → α → Bool) (l acc : List α) :
    (l.foldl (fun acc x => insertBack less x acc) acc).Perm (l ++ acc) := by
  induction l generalizing acc with
  | nil => exact List.Perm.refl _
  | cons x xs ih =>
    simp only [List.foldl_cons, List.cons_append]
    refine (ih (insertBack less x acc)).trans ?_
    refine (List.Perm.append_left xs (insertBack_perm less x acc)).trans ?_
    exact List.perm_middle

theorem insertionSort_fold_sorted {α : Type} (less : α → α → Bool) (h : StrictWeak less)
    (l acc : List α) (hacc : acc.Pairwise (fun a b => less a b = false)) :
    (l.foldl (fun acc x => insertBack less x acc) acc).Pairwise (fun a b => less a b = false) := by
  induction l generalizing acc with
  | nil => exact hacc
  | cons x xs ih => exact ih _ (insertBack_sorted less h x acc hacc)

/-- Insertion sort meets the contract of `sort.Slice`. -/
theorem smallLib_sortContract : smallLib.SortContract := by
  constructor
  · intro α less l
    show (insertionSort less l).Perm l
    unfold insertionSort
    refine (List.reverse_perm _).trans ?_
    simpa using insertionSort_fold_perm less l []
  · intro α less l h
    show (insertionSort less l).Pairwise _
    unfold insertionSort
    rw [List.pairwise_reverse]
    exact insertionSort_fold_sorted less h l [] List.Pairwise.nil

/-- C4: under the contract of `sort.Slice`, for every readable bookmark
collection, in whatever order it is stored, `GetBookmarks`,
`GetBookmarksByCategory` and `SearchBookmarksH` each answer with a permutation of
the bookmarks they select (all of them; all of them for `"all"` and those of the
category otherwise; those that match the lower-cased keyword), ordered ascending
by `sort` and, for equal `sort`, by ascending `createdAt`; the three comparisons
are the same function. -/
theorem listing_sorted_permutation (lib : StdLib) (hc : lib.SortContract) (w : World)
    (bs : List Bookmark) (hw : w.bookmarks = some bs) (categoryId keyword : String) :
    (∃ out, GetBookmarks lib w = ⟨200, true, "", some out⟩ ∧ out.Perm bs ∧ ListedInOrder out) ∧
    (∃ out, GetBookmarksByCategory lib w categoryId = ⟨200, true, "", some out⟩ ∧
      (categoryId = "all" → out.Perm bs) ∧
      (categoryId ≠ "all" → out.Perm (bs.filter (fun b => b.category = categoryId))) ∧
      ListedInOrder out) ∧
    (∃ out, SearchBookmarksH lib w keyword = ⟨200, true, "", some out⟩ ∧
      out.Perm (bs.filter (SearchBookmarksH.isMatch lib (lib.toLower keyword))) ∧
      ListedInOrder out) ∧
    GetBookmarksByCategory.less = GetBookmarks.less ∧
    SearchBookmarksH.less = GetBookmarks.less := by
  refine ⟨⟨lib.sortSlice GetBookmarks.less bs,
      by simp only [GetBookmarks, World.GetBookmarks, hw], hc.perm _ _,
      listed_of_sorted _ (hc.sorted _ _ less_strictWeak)⟩,
    ⟨lib.sortSlice GetBookmarksByCategory.less (GetBookmarksByCategory.filtered categoryId bs),
      by simp only [GetBookmarksByCategory, World.GetBookmarks, hw], ?_, ?_,
      listed_of_sorted _ (hc.sorted GetBookmarks.less _ less_strictWeak)⟩,
    ⟨lib.sortSlice SearchBookmarksH.less
        (bs.filter (SearchBookmarksH.isMatch lib (lib.toLower keyword))),
      by simp only [SearchBookmarksH, World.GetBookmarks, hw], hc.perm _ _,
      listed_of_sorted _ (hc.sorted GetBookmarks.less _ less_strictWeak)⟩, rfl, rfl⟩
  · intro h
    have := hc.perm GetBookmarksByCategory.less (GetBookmarksByCategory.filtered categoryId bs)
    simpa [GetBookmarksByCategory.filtered, h] using this
  · intro h
    have := hc.perm GetBookmarksByCategory.less (GetBookmarksByCategory.filtered categoryId bs)
    simpa [GetBookmarksByCategory.filtered, h] using this

/-- Witness of C4: insertion sort meets the contract, and the listing of the
example world is ordered. -/
theorem listing_sorted_permutation_witness :
    smallLib.SortContract ∧ exWorld.bookmarks = some [exBookmarkA, exBookmarkB] ∧
    ∃ out, GetBookmarks smallLib exWorld = ⟨200, true, "", some out⟩ ∧
      out.Perm [exBookmarkA, exBookmarkB] ∧ ListedInOrder out :=
  ⟨smallLib_sortContract, rfl,
    (listing_sorted_permutation smallLib smallLib_sortContract exWorld
      [exBookmarkA, exBookmarkB] rfl "catA" "one").1⟩

/-! ## Cascade delete -/

theorem cascade_fold (id : String) (bs : List Bookmark)
    (st : List Bookmark × List Bookmark × World) :
    (bs.foldl (cascadeStep id) st).1 = st.1 ++ bs.filter (fun b => b.category = id) ∧
    (bs.foldl (cascadeStep id) st).2.1 = st.2.1 ++ bs.filter (fun b => b.category ≠ id) ∧
    (bs.foldl (cascadeStep id) st).2.2.store = st.2.2.store := by
  induction bs generalizing st with
  | nil => simp
  | cons b bs ih =>
    simp only [List.foldl_cons]
    obtain ⟨h1, h2, h3⟩ := ih (cascadeStep id st b)
    rw [h1, h2, h3]
    by_cases hb : b.category = id
    · simp only [cascadeStep, hb, if_true, List.filter_cons, decide_True, ne_eq,
        not_true_eq_false, decide_False, Bool.false_eq_true, if_false, List.append_assoc,
        List.singleton_append, true_and]
      split <;> simp
    · simp [cascadeStep, hb, List.filter_cons]

theorem lookup_filter_key (fs : FS) (P : Path → Bool) (q : Path) :
    List.lookup q (fs.filter (fun e => P e.1)) = if P q = true then List.lookup q fs else none := by
  induction fs with
  | nil => simp
  | cons e es ih =>
    obtain ⟨k, v⟩ := e
    by_cases hq : q = k
    · subst hq
      by_cases hP : P q = true
      · simp [List.filter_cons, hP, List.lookup_cons]
      · simp [List.filter_cons, hP, ih]
    · have hb : (q == k) = false := by simpa using hq
      by_cases hP : P k = true
      · simp [List.filter_cons, hP, List.lookup_cons, hb, ih]
      · simp [List.filter_cons, hP, List.lookup_cons, hb, ih]

/-- Filtering the tree by a test on the paths creates no file. -/
theorem kind_filter_file (fs : FS) (P : Path → Bool) (q : Path)
    (h : FS.kind (fs.filter (fun e => P e.1)) q = some Kind.file) : fs.kind q = some Kind.file := by
  unfold FS.kind at h ⊢
  by_cases hq : q = []
  · simp [hq] at h
  · simp only [hq, if_false] at h ⊢
    rw [lookup_filter_key] at h
    split at h
    · exact h
    · simp at h

theorem kind_osRemove_file (w : World) (name : String) (q : Path)
    (h : (w.osRemove name).fs.kind q = some Kind.file) : w.fs.kind q = some Kind.file := by
  simp only [World.osRemove] at h
  cases hr : w.fs.remove (toPath name) with
  | none => simpa [hr] using h
  | some fs' =>
    rw [hr] at h
    simp only [Option.getD_some] at h
    have hfs : fs' = w.fs.filter (fun e => decide (e.1 ≠ toPath name)) := by
      unfold FS.remove at hr
      split at hr
      · simp at hr
      · split at hr
        · simpa [FS.erase] using hr.symm
        · split at hr
          · simp at hr
          · simpa [FS.erase] using hr.symm
        · simp at hr
    rw [hfs] at h
    exact kind_filter_file w.fs (fun p => decide (p ≠ toPath name)) q h

theorem kind_removeIfPresent_file (w : World) (name : String) (q : Path)
    (h : (w.removeIfPresent name).fs.kind q = some Kind.file) : w.fs.kind q = some Kind.file := by
  simp only [World.removeIfPresent] at h
  split at h
  · exact kind_osRemove_file _ name q h
  · exact h

/-- After the idiom `Stat` then `Remove`, no file is at the path. -/
theorem removeIfPresent_gone (w : World) (name : String) :
    (w.removeIfPresent name).fs.kind (toPath name) ≠ some Kind.file := by
  intro h
  have h0 := kind_removeIfPresent_file w name _ h
  have hne : toPath name ≠ [] := by
    intro e
    simp [FS.kind, e] at h0
  simp only [World.removeIfPresent, World.osStat, FS.stat, h0, StatResult.isOk, if_true,
    World.osRemove, FS.remove, hne, if_false, Option.getD_some] at h
  simp [FS.kind, hne, lookup_erase] at h

theorem kind_removeUploadDir_file (w : World) (c : Category) (q : Path)
    (h : (removeUploadDir w c).fs.kind q = some Kind.file) : w.fs.kind q = some Kind.file := by
  simp only [removeUploadDir] at h
  split at h
  · split at h
    · simp only [World.osRemoveAll, World.osStat, FS.removeAll] at h
      split at h
      · simpa using h
      · simp only [Option.getD_some, FS.eraseTree] at h
        exact kind_filter_file w.fs (fun p => !(toPath _).isPrefixOf p) q h
    · exact h
  · exact h

theorem kind_cascadeStep_file (id : String) (st : List Bookmark × List Bookmark × World)
    (b : Bookmark) (q : Path) (h : (cascadeStep id st b).2.2.fs.kind q = some Kind.file) :
    st.2.2.fs.kind q = some Kind.file := by
  unfold cascadeStep at h
  split at h
  · simp only at h
    split at h
    · exact kind_removeIfPresent_file _ _ q h
    · exact h
  · exact h

theorem kind_cascade_fold_file (id : String) (bs : List Bookmark)
    (st : List Bookmark × List Bookmark × World) (q : Path)
    (h : (bs.foldl (cascadeStep id) st).2.2.fs.kind q = some Kind.file) :
    st.2.2.fs.kind q = some Kind.file := by
  induction bs generalizing st with
  | nil => exact h
  | cons b bs ih =>
    simp only [List.foldl_cons] at h
    exact kind_cascadeStep_file id st b q (ih _ h)

theorem cascade_fold_gone (id : String) (bs : List Bookmark)
    (st : List Bookmark × List Bookmark × World) (b : Bookmark) (hb : b ∈ bs)
    (hc : b.category = id) (hl : isLocalIcon b.icon = true) :
    (bs.foldl (cascadeStep id) st).2.2.fs.kind (toPath (iconFilePath b.icon)) ≠
      some Kind.file := by
  induction bs generalizing st with
  | nil => simp at hb
  | cons a as ih =>
    simp only [List.foldl_cons]
    rcases List.mem_cons.mp hb with hb | hb
    · subst hb
      intro h
      have h1 := kind_cascade_fold_file id as _ _ h
      simp only [cascadeStep, hc, if_true, hl] at h1
      exact removeIfPresent_gone _ _ h1
    · exact ih _ hb

/-- The cascade of `DeleteCategory` when `bookmarks.json` can be written: on
success the stored bookmarks are the previous ones without those of the
category, in their previous order, and no file is left at the path of the local
icon of a removed bookmark. -/
theorem DeleteCategory_cascade (w : World) (id : String) (bs : List Bookmark)
    (hb : w.bookmarks = some bs) (hwr : w.bookmarksWritable = true)
    (hs : (DeleteCategory w id).1.success = true) :
    (DeleteCategory w id).2.bookmarks = some (bs.filter (fun b => b.category ≠ id)) ∧
    ∀ b ∈ bs, b.category = id → isLocalIcon b.icon = true →
      (DeleteCategory w id).2.fs.kind (toPath (iconFilePath b.icon)) ≠ some Kind.file := by
  by_cases hall : id = "all"
  · simp [DeleteCategory, hall] at hs
  cases hc : w.categories with
  | none => simp [DeleteCategory, hall, World.GetCategories, hc] at hs
  | some cats =>
    cases hf : findFirst (fun category => category.id == id) cats with
    | none => simp [DeleteCategory, hall, World.GetCategories, hc, hf] at hs
    | some r =>
      obtain ⟨i, c0⟩ := r
      obtain ⟨h1, h2, h3⟩ := cascade_fold id bs ([], [], w)
      have hcb : (cascadeBookmarks w id).bookmarks = some (bs.filter (fun b => b.category ≠ id)) ∧
          ∀ b ∈ bs, b.category = id → isLocalIcon b.icon = true →
            (cascadeBookmarks w id).fs.kind (toPath (iconFilePath b.icon)) ≠ some Kind.file := by
        simp only [cascadeBookmarks, World.GetBookmarks, hb]
        split
        · have hwr2 : (bs.foldl (cascadeStep id) ([], [], w)).2.2.bookmarksWritable = true := by
            rw [bookmarksWritable_of_store h3]
            exact hwr
          simp only [World.SaveBookmarks, hwr2, if_true]
          refine ⟨by simpa using congrArg some h2, ?_⟩
          intro b hbm hcat hl
          exact cascade_fold_gone id bs _ b hbm hcat hl
        · rename_i hlen
          have hnil : bs.filter (fun b => b.category = id) = [] := by
            rw [h1] at hlen
            simpa using hlen
          refine ⟨?_, fun b hbm hcat hl => cascade_fold_gone id bs _ b hbm hcat hl⟩
          rw [bookmarks_of_store h3]
          simp only [hb, Option.some.injEq]
          symm
          rw [List.filter_eq_self]
          intro b hbm
          have := List.filter_eq_nil_iff.mp hnil b hbm
          simpa using this
      have hstore : (removeUploadDir (cascadeBookmarks w id) c0).store =
          (cascadeBookmarks w id).store := by
        simp only [removeUploadDir]
        split
        · split <;> simp
        · rfl
      have hfinal : (DeleteCategory w id).2.bookmarks =
            (removeUploadDir (cascadeBookmarks w id) c0).bookmarks ∧
          (DeleteCategory w id).2.fs = (removeUploadDir (cascadeBookmarks w id) c0).fs := by
        cases hcw : (removeUploadDir (cascadeBookmarks w id) c0).categoriesWritable <;>
          simp [DeleteCategory, hall, World.GetCategories, hc, hf, World.SaveCategories, hcw]
      refine ⟨?_, ?_⟩
      · rw [hfinal.1, bookmarks_of_store hstore]
        exact hcb.1
      · intro b hbm hcat hl h
        rw [hfinal.2] at h
        exact hcb.2 b hbm hcat hl (kind_removeUploadDir_file _ c0 _ h)

/-- C3, the code at the failing input: `bookmarks.json` holds a bookmark of `catA`
and cannot be written while `categories.json` can. `DeleteCategory` drops the
error of `SaveBookmarks`, removes the category, answers with success, and the
bookmark of the deleted category is still stored. -/
theorem DeleteCategory_cascade_unsaved :
    exReadOnlyBookmarks.categories = some [exCatA, exCatB] ∧
    exReadOnlyBookmarks.bookmarks = some [exBookmarkA, exBookmarkB] ∧
    exBookmarkA.category = "catA" ∧
    (DeleteCategory exReadOnlyBookmarks "catA").1 = ⟨200, true, "分类删除成功", none⟩ ∧
    (DeleteCategory exReadOnlyBookmarks "catA").2.categories = some [exCatB] ∧
    (DeleteCategory exReadOnlyBookmarks "catA").2.bookmarks =
      some [exBookmarkA, exBookmarkB] := by
  decide

/-! ## Creating a bookmark -/

theorem unknownCategory_iff (cats : List Category) (category : String) :
    unknownCategory cats category = true ↔
      category ≠ "all" ∧ ∀ c ∈ cats, c.id ≠ category := by
  simp [unknownCategory, List.any_eq_true]

/-- What `CreateBookmark` does once every validation has passed: it saves the
collection with one bookmark appended, or answers with the save error. -/
theorem CreateBookmark_pass (lib : StdLib) (env : Env) (w : World)
    (req : CreateBookmarkRequest) (cats : List Category) (bs : List Bookmark)
    (hb : req.bound = true) (hurl : lib.urlParseOk req.url = true)
    (hc : w.categories = some cats) (hk : unknownCategory cats req.category = false)
    (hw : w.bookmarks = some bs)
    (hd : bs.any (fun bookmark =>
      bookmark.category == req.category && bookmark.name == req.name) = false) :
    ∃ nb : Bookmark,
      nb = { id := env.newID "bookmark_", name := req.name, url := req.url,
             description := req.description,
             icon := if req.icon = "" then "/favicon.ico" else req.icon,
             category := req.category, tags := some (req.tags.getD []),
             sort := if req.sort = 0 then
                 (bs.countP (fun bookmark => bookmark.category == req.category) : Int) + 1
               else req.sort,
             createdAt := env.now, updatedAt := Time.zero } ∧
      ((w.bookmarksWritable = true ∧
          CreateBookmark lib env w req =
            (⟨200, true, "书签创建成功", some nb⟩, { w with bookmarks := some (bs ++ [nb]) })) ∨
       (w.bookmarksWritable = false ∧
          CreateBookmark lib env w req = (⟨500, false, "保存书签失败", none⟩, w))) := by
  refine ⟨_, rfl, ?_⟩
  cases hwr : w.bookmarksWritable with
  | true =>
    left
    refine ⟨rfl, ?_⟩
    simp [CreateBookmark, hb, hurl, World.GetCategories, hc, hk, World.GetBookmarks, hw, hd,
      World.SaveBookmarks, hwr]
  | false =>
    right
    refine ⟨rfl, ?_⟩
    simp [CreateBookmark, hb, hurl, World.GetCategories, hc, hk, World.GetBookmarks, hw, hd,
      World.SaveBookmarks, hwr]

/-- A `CreateBookmark` that reports success has passed every validation, read both
collections and written the bookmarks. -/
theorem CreateBookmark_success_inv (lib : StdLib) (env : Env) (w : World)
    (req : CreateBookmarkRequest) (hs : (CreateBookmark lib env w req).1.success = true) :
    ∃ cats bs, req.bound = true ∧ lib.urlParseOk req.url = true ∧
      w.categories = some cats ∧ unknownCategory cats req.category = false ∧
      w.bookmarks = some bs ∧
      bs.any (fun bookmark =>
        bookmark.category == req.category && bookmark.name == req.name) = false ∧
      w.bookmarksWritable = true := by
  by_cases hb : req.bound = true
  swap
  · simp [CreateBookmark, hb] at hs
  by_cases hurl : lib.urlParseOk req.url = true
  swap
  · simp [CreateBookmark, hb, hurl] at hs
  cases hc : w.categories with
  | none => simp [CreateBookmark, hb, hurl, World.GetCategories, hc] at hs
  | some cats =>
    by_cases hk : unknownCategory cats req.category = true
    · simp [CreateBookmark, hb, hurl, World.GetCategories, hc, hk] at hs
    cases hw : w.bookmarks with
    | none => simp [CreateBookmark, hb, hurl, World.GetCategories, hc, hk, World.GetBookmarks,
        hw] at hs
    | some bs =>
      by_cases hd : bs.any (fun bookmark =>
          bookmark.category == req.category && bookmark.name == req.name) = true
      · simp [CreateBookmark, hb, hurl, World.GetCategories, hc, hk, World.GetBookmarks, hw,
          hd] at hs
      cases hwr : w.bookmarksWritable with
      | false =>
        simp [CreateBookmark, hb, hurl, World.GetCategories, hc, hk, World.GetBookmarks, hw,
          hd, World.SaveBookmarks, hwr] at hs
      | true =>
        exact ⟨cats, bs, hb, hurl, rfl, by simpa using hk, rfl, by simpa using hd, rfl⟩

/-- C11 as stated fails: a bound request with a parseable URL, a known category
and a fresh name, on a store whose `bookmarks.json` cannot be written, is
answered with the internal save error and nothing is appended. -/
theorem CreateBookmark_append_counterexample :
    (exCreateReq "fresh" "catA" "" 0).bound = true ∧
    smallLib.urlParseOk (exCreateReq "fresh" "catA" "" 0).url = true ∧
    exReadOnlyBookmarks.categories = some [exCatA, exCatB] ∧
    exReadOnlyBookmarks.bookmarks = some [exBookmarkA, exBookmarkB] ∧
    (∃ c ∈ [exCatA, exCatB], c.id = "catA") ∧
    (¬ ∃ b ∈ [exBookmarkA, exBookmarkB], b.category = "catA" ∧ b.name = "fresh") ∧
    (CreateBookmark smallLib exEnv exReadOnlyBookmarks (exCreateReq "fresh" "catA" "" 0)).1 =
      ⟨500, false, "保存书签失败", none⟩ ∧
    ¬ ∃ b, (CreateBookmark smallLib exEnv exReadOnlyBookmarks
      (exCreateReq "fresh" "catA" "" 0)).2.bookmarks = some ([exBookmarkA, exBookmarkB] ++ [b]) := by
  refine ⟨by decide, rfl, rfl, rfl, by decide, by decide, by decide, ?_⟩
  rintro ⟨b, h⟩
  have h' : (CreateBookmark smallLib exEnv exReadOnlyBookmarks
      (exCreateReq "fresh" "catA" "" 0)).2.bookmarks = some [exBookmarkA, exBookmarkB] := by
    decide
  rw [h'] at h
  simp at h

/-- C11, amended: for a bound request with a parseable URL and readable
collections, `CreateBookmark` answers with the unknown-category error exactly
when the category is not `"all"` and no stored category has that id; otherwise
with the duplicate-name error exactly when a stored bookmark has the same
category and the same name; otherwise, when the collection can be written, it
reports success and the stored collection is the previous one followed by one
bookmark. -/
theorem CreateBookmark_validation (lib : StdLib) (env : Env) (w : World)
    (req : CreateBookmarkRequest) (cats : List Category) (bs : List Bookmark)
    (hb : req.bound = true) (hurl : lib.urlParseOk req.url = true)
    (hc : w.categories = some cats) (hw : w.bookmarks = some bs) :
    ((CreateBookmark lib env w req).1 = ⟨400, false, "指定的分类不存在", none⟩ ↔
      (req.category ≠ "all" ∧ ∀ c ∈ cats, c.id ≠ req.category)) ∧
    (¬ (req.category ≠ "all" ∧ ∀ c ∈ cats, c.id ≠ req.category) →
      ((CreateBookmark lib env w req).1 = ⟨400, false, "该分类下已存在相同名称的书签", none⟩ ↔
        ∃ b ∈ bs, b.category = req.category ∧ b.name = req.name)) ∧
    (¬ (req.category ≠ "all" ∧ ∀ c ∈ cats, c.id ≠ req.category) →
      (¬ ∃ b ∈ bs, b.category = req.category ∧ b.name = req.name) →
      w.bookmarksWritable = true →
      ∃ b : Bookmark, (CreateBookmark lib env w req).1.success = true ∧
        (CreateBookmark lib env w req).2.bookmarks = some (bs ++ [b])) := by
  by_cases hk : req.category ≠ "all" ∧ ∀ c ∈ cats, c.id ≠ req.category
  · have hk' := (unknownCategory_iff cats req.category).mpr hk
    have h1 : (CreateBookmark lib env w req).1 = ⟨400, false, "指定的分类不存在", none⟩ := by
      simp [CreateBookmark, hb, hurl, World.GetCategories, hc, hk']
    exact ⟨⟨fun _ => hk, fun _ => h1⟩, fun h => absurd hk h, fun h => absurd hk h⟩
  · have hk' : unknownCategory cats req.category = false := by
      rw [Bool.eq_false_iff, Ne, unknownCategory_iff]
      exact hk
    by_cases hd : ∃ b ∈ bs, b.category = req.category ∧ b.name = req.name
    · have hd' := (any_key_iff bs req.category req.name).mpr hd
      have h1 : (CreateBookmark lib env w req).1 =
          ⟨400, false, "该分类下已存在相同名称的书签", none⟩ := by
        simp [CreateBookmark, hb, hurl, World.GetCategories, hc, hk', World.GetBookmarks, hw,
          hd']
      refine ⟨⟨fun h => ?_, fun h => absurd h hk⟩, fun _ => ⟨fun _ => hd, fun _ => h1⟩,
        fun _ h => absurd hd h⟩
      rw [h1] at h
      simp at h
    · have hd' : bs.any (fun bookmark =>
          bookmark.category == req.category && bookmark.name == req.name) = false := by
        rw [Bool.eq_false_iff, Ne, any_key_iff]
        exact hd
      obtain ⟨nb, _, h⟩ := CreateBookmark_pass lib env w req cats bs hb hurl hc hk' hw hd'
      refine ⟨⟨fun hr => ?_, fun h => absurd h hk⟩, fun _ => ⟨fun hr => ?_, fun h => absurd h hd⟩,
        fun _ _ hwr => ?_⟩
      · rcases h with h | h <;> · rw [h.2] at hr; simp at hr
      · rcases h with h | h <;> · rw [h.2] at hr; simp at hr
      · rcases h with h | h
        · exact ⟨nb, by rw [h.2], by rw [h.2]⟩
        · rw [h.1] at hwr
          simp at hwr

/-- Witness of C11, amended, on the example world: a fresh name in `catA` is
appended. -/
theorem CreateBookmark_validation_witness :
    (exCreateReq "fresh" "catA" "" 0).bound = true ∧
    exWorld.categories = some [exCatA, exCatB] ∧
    exWorld.bookmarks = some [exBookmarkA, exBookmarkB] ∧
    ∃ b : Bookmark,
      (CreateBookmark smallLib exEnv exWorld (exCreateReq "fresh" "catA" "" 0)).1.success = true ∧
      (CreateBookmark smallLib exEnv exWorld (exCreateReq "fresh" "catA" "" 0)).2.bookmarks =
        some ([exBookmarkA, exBookmarkB] ++ [b]) :=
  ⟨by decide, rfl, rfl,
    (CreateBookmark_validation smallLib exEnv exWorld (exCreateReq "fresh" "catA" "" 0)
      [exCatA, exCatB] [exBookmarkA, exBookmarkB] (by decide) rfl rfl rfl).2.2
      (by decide) (by decide) rfl⟩

/-- C12: when `CreateBookmark` reports success, the stored collection is the
previous one followed by one bookmark whose `sort` is, for a request with
`sort = 0`, the number of previously stored bookmarks of the request's category
plus one, and otherwise the `sort` of the request. -/
theorem CreateBookmark_default_sort (lib : StdLib) (env : Env) (w : World)
    (req : CreateBookmarkRequest) (bs : List Bookmark) (hw : w.bookmarks = some bs)
    (hs : (CreateBookmark lib env w req).1.success = true) :
    ∃ b : Bookmark, (CreateBookmark lib env w req).2.bookmarks = some (bs ++ [b]) ∧
      (CreateBookmark lib env w req).1.data = some b ∧
      (req.sort = 0 →
        b.sort = ((bs.filter (fun x => x.category = req.category)).length : Int) + 1) ∧
      (req.sort ≠ 0 → b.sort = req.sort) := by
  obtain ⟨cats, bs', hb, hurl, hc, hk, hw', hd, hwr⟩ := CreateBookmark_success_inv lib env w req hs
  rw [hw] at hw'
  simp only [Option.some.injEq] at hw'
  subst hw'
  obtain ⟨nb, hnb, h | h⟩ := CreateBookmark_pass lib env w req cats bs hb hurl hc hk hw hd
  · refine ⟨nb, by rw [h.2], by rw [h.2], ?_, ?_⟩
    · intro h0
      rw [hnb]
      simp only [h0, if_true]
      rw [List.countP_eq_length_filter]
      have hfe : (fun bookmark : Bookmark => bookmark.category == req.category) =
          (fun x => decide (x.category = req.category)) := by
        funext x
        by_cases hx : x.category = req.category <;> simp [hx]
      rw [hfe]
    · intro h0
      rw [hnb]
      simp [h0]
  · rw [h.1] at hwr
    simp at hwr

/-- Witness of C12 with the values of the claim: `sort = 0` in a category that
already holds three bookmarks stores `sort = 4`. -/
theorem CreateBookmark_default_sort_witness :
    exThreeWorld.bookmarks = some [exBookmarkA, { exBookmarkA with id := "bookmark_3", name := "three" },
      exBookmarkB, { exBookmarkA with id := "bookmark_4", name := "four" }] ∧
    (CreateBookmark smallLib exEnv exThreeWorld (exCreateReq "fresh" "catA" "" 0)).1.success = true ∧
    (exCreateReq "fresh" "catA" "" 0).sort = 0 ∧
    ([exBookmarkA, { exBookmarkA with id := "bookmark_3", name := "three" },
      exBookmarkB, { exBookmarkA with id := "bookmark_4", name := "four" }].filter
        (fun x => x.category = (exCreateReq "fresh" "catA" "" 0).category)).length = 3 ∧
    (∃ b : Bookmark,
      (CreateBookmark smallLib exEnv exThreeWorld (exCreateReq "fresh" "catA" "" 0)).2.bookmarks =
        some ([exBookmarkA, { exBookmarkA with id := "bookmark_3", name := "three" },
          exBookmarkB, { exBookmarkA with id := "bookmark_4", name := "four" }] ++ [b]) ∧
      (CreateBookmark smallLib exEnv exThreeWorld (exCreateReq "fresh" "catA" "" 0)).1.data =
        some b ∧
      ((exCreateReq "fresh" "catA" "" 0).sort = 0 →
        b.sort = (([exBookmarkA, { exBookmarkA with id := "bookmark_3", name := "three" },
          exBookmarkB, { exBookmarkA with id := "bookmark_4", name := "four" }].filter
            (fun x => x.category = (exCreateReq "fresh" "catA" "" 0).category)).length : Int) + 1) ∧
      ((exCreateReq "fresh" "catA" "" 0).sort ≠ 0 →
        b.sort = (exCreateReq "fresh" "catA" "" 0).sort)) ∧
    ((CreateBookmark smallLib exEnv exThreeWorld (exCreateReq "fresh" "catA" "" 0)).1.data.map
      (fun b => b.sort)) = some 4 :=
  ⟨rfl, by decide, rfl, by decide,
    CreateBookmark_default_sort smallLib exEnv exThreeWorld (exCreateReq "fresh" "catA" "" 0) _
      rfl (by decide),
    by decide⟩

/-! ## Updating a bookmark -/

/-- A `UpdateBookmark` that reports success has passed every validation, read
both collections, run the icon block once on the bookmark found and written the
collection with that bookmark replaced. -/
theorem UpdateBookmark_success_inv (lib : StdLib) (env : Env) (w : World) (id : String)
    (req : UpdateBookmarkRequest) (hs : (UpdateBookmark lib env w id req).1.success = true) :
    ∃ cats bs i b0, req.bound = true ∧ lib.urlParseOk req.url = true ∧
      w.categories = some cats ∧ unknownCategory cats req.category = false ∧
      w.bookmarks = some bs ∧
      findFirst (fun bookmark => bookmark.id == id) bs = some (i, b0) ∧
      w.bookmarksWritable = true ∧
      (UpdateBookmark lib env w id req).2 =
        { (UpdateBookmark.iconTransition w b0.icon b0.category req cats).2 with
          bookmarks := some (updateAt bs i (fun bookmark =>
            { bookmark with
              name := req.name, url := req.url, description := req.description,
              icon := if (UpdateBookmark.iconTransition w b0.icon b0.category req cats).1 = ""
                then "/favicon.ico"
                else (UpdateBookmark.iconTransition w b0.icon b0.category req cats).1,
              category := req.category, tags := some (req.tags.getD []),
              sort := req.sort, updatedAt := env.now })) } := by
  by_cases hb : req.bound = true
  swap
  · simp [UpdateBookmark, hb] at hs
  by_cases hurl : lib.urlParseOk req.url = true
  swap
  · simp [UpdateBookmark, hb, hurl] at hs
  cases hc : w.categories with
  | none => simp [UpdateBookmark, hb, hurl, World.GetCategories, hc] at hs
  | some cats =>
    by_cases hk : unknownCategory cats req.category = true
    · simp [UpdateBookmark, hb, hurl, World.GetCategories, hc, hk] at hs
    cases hw : w.bookmarks with
    | none =>
      simp [UpdateBookmark, hb, hurl, World.GetCategories, hc, hk, World.GetBookmarks, hw] at hs
    | some bs =>
      cases hf : findFirst (fun bookmark => bookmark.id == id) bs with
      | none =>
        simp [UpdateBookmark, hb, hurl, World.GetCategories, hc, hk, World.GetBookmarks, hw,
          hf] at hs
      | some r =>
        obtain ⟨i, b0⟩ := r
        by_cases hd : bs.enum.any (fun e => e.1 != i &&
            (e.2.category == req.category && e.2.name == req.name)) = true
        · simp [UpdateBookmark, hb, hurl, World.GetCategories, hc, hk, World.GetBookmarks, hw,
            hf, hd] at hs
        have hwr' : (UpdateBookmark.iconTransition w b0.icon b0.category req cats).2.bookmarksWritable
            = w.bookmarksWritable := bookmarksWritable_of_store (store_iconTransition _ _ _ _ _)
        cases hwr : w.bookmarksWritable with
        | false =>
          rw [hwr] at hwr'
          simp [UpdateBookmark, hb, hurl, World.GetCategories, hc, hk, World.GetBookmarks, hw,
            hf, hd, World.SaveBookmarks, hwr'] at hs
        | true =>
          rw [hwr] at hwr'
          refine ⟨cats, bs, i, b0, hb, hurl, rfl, by simpa using hk, rfl, hf, rfl, ?_⟩
          simp only [UpdateBookmark, hb, hurl, World.GetCategories, hc, hk,
            World.GetBookmarks, hw, hf, hd, World.SaveBookmarks, hwr', Bool.not_true,
            Bool.false_eq_true, if_false, if_true]

theorem isLocalIcon_empty : isLocalIcon "" = false := by decide

theorem isLocalIcon_of_uploads (icon : String) (h : hasPrefix icon "/uploads/" = true) :
    isLocalIcon icon = true := by
  have hne : icon ≠ "" := by
    intro e
    rw [e] at h
    exact absurd h (by decide)
  simp [isLocalIcon, hne, h]

theorem isLocalIcon_of_other (icon : String) (h : hasPrefix icon "/uploads/" = false) :
    isLocalIcon icon = false := by
  simp [isLocalIcon, h]

/-- With an empty request icon the icon block yields the empty string. -/
theorem iconTransition_empty (w : World) (oldIcon oldCategory : String)
    (req : UpdateBookmarkRequest) (categories : List Category) (h : req.icon = "") :
    (UpdateBookmark.iconTransition w oldIcon oldCategory req categories).1 = "" := by
  unfold UpdateBookmark.iconTransition
  by_cases h1 : oldIcon = req.icon
  · simp [h1, h, isLocalIcon_empty]
  · have h3 : isLocalIcon req.icon = false := by
      rw [h]
      exact isLocalIcon_empty
    simp only [ne_eq, h1, not_false_eq_true, if_true, h3, Bool.false_eq_true, if_false]
    split <;> exact h

/-- The record `UpdateBookmark` writes at the index of the bookmark it found, and
the tree and trace it leaves, when it reports success. -/
theorem UpdateBookmark_written (lib : StdLib) (env : Env) (w : World) (id : String)
    (req : UpdateBookmarkRequest) (cats : List Category) (bs : List Bookmark) (i : Nat)
    (b0 : Bookmark) (hc : w.categories = some cats) (hw : w.bookmarks = some bs)
    (hi : bs[i]? = some b0) (hid : b0.id = id)
    (hfirst : ∀ j b, j < i → bs[j]? = some b → b.id ≠ id)
    (hs : (UpdateBookmark lib env w id req).1.success = true) :
    ∃ bs' : List Bookmark, (UpdateBookmark lib env w id req).2.bookmarks = some bs' ∧
      bs'.length = bs.length ∧ (∀ j, j ≠ i → bs'[j]? = bs[j]?) ∧
      bs'[i]? = some { b0 with
        name := req.name, url := req.url, description := req.description,
        icon := if (UpdateBookmark.iconTransition w b0.icon b0.category req cats).1 = ""
          then "/favicon.ico"
          else (UpdateBookmark.iconTransition w b0.icon b0.category req cats).1,
        category := req.category, tags := some (req.tags.getD []),
        sort := req.sort, updatedAt := env.now } ∧
      (UpdateBookmark lib env w id req).2.fs =
        (UpdateBookmark.iconTransition w b0.icon b0.category req cats).2.fs ∧
      (UpdateBookmark lib env w id req).2.trace =
        (UpdateBookmark.iconTransition w b0.icon b0.category req cats).2.trace := by
  obtain ⟨cats', bs1, i1, b1, _, _, hc', _, hw', hf', _, hfin⟩ :=
    UpdateBookmark_success_inv lib env w id req hs
  rw [hc] at hc'
  rw [hw] at hw'
  simp only [Option.some.injEq] at hc' hw'
  subst hc' hw'
  have hf : findFirst (fun bookmark => bookmark.id == id) bs = some (i, b0) :=
    findFirst_of_first _ bs i b0 hi (by simp [hid])
      (fun j y hj hy => by simpa using hfirst j y hj hy)
  rw [hf] at hf'
  simp only [Option.some.injEq, Prod.mk.injEq] at hf'
  obtain ⟨rfl, rfl⟩ := hf'
  rw [hfin]
  refine ⟨_, rfl, updateAt_length _ _ _, fun j hj => updateAt_getElem?_ne _ _ _ _ hj, ?_,
    rfl, rfl⟩
  rw [updateAt_getElem?_eq, hi]
  rfl

/-- C13: the record that a successful `CreateBookmark` appends, and the record
that a successful `UpdateBookmark` writes at the index of the bookmark it
updates, has a tags list that is not nil (empty when the request has none,
otherwise the tags of the request in order) and an icon that is not empty:
`/favicon.ico` when the request icon (for an update: the icon the icon block
yields) is empty, that icon otherwise. -/
theorem stored_tags_and_icon (lib : StdLib) (env : Env) (w : World) (bs : List Bookmark)
    (hw : w.bookmarks = some bs) :
    (∀ req : CreateBookmarkRequest, (CreateBookmark lib env w req).1.success = true →
      ∃ b : Bookmark, (CreateBookmark lib env w req).2.bookmarks = some (bs ++ [b]) ∧
        (req.tags = none → b.tags = some []) ∧ (∀ l, req.tags = some l → b.tags = some l) ∧
        b.icon ≠ "" ∧ (req.icon = "" → b.icon = "/favicon.ico") ∧
        (req.icon ≠ "" → b.icon = req.icon)) ∧
    (∀ (id : String) (req : UpdateBookmarkRequest) (cats : List Category) (i : Nat)
      (b0 : Bookmark), w.categories = some cats → bs[i]? = some b0 → b0.id = id →
      (∀ j b, j < i → bs[j]? = some b → b.id ≠ id) →
      (UpdateBookmark lib env w id req).1.success = true →
      ∃ (bs' : List Bookmark) (b : Bookmark),
        (UpdateBookmark lib env w id req).2.bookmarks = some bs' ∧ bs'[i]? = some b ∧
        (req.tags = none → b.tags = some []) ∧ (∀ l, req.tags = some l → b.tags = some l) ∧
        b.icon ≠ "" ∧ (req.icon = "" → b.icon = "/favicon.ico") ∧
        ((UpdateBookmark.iconTransition w b0.icon b0.category req cats).1 = "" →
          b.icon = "/favicon.ico") ∧
        ((UpdateBookmark.iconTransition w b0.icon b0.category req cats).1 ≠ "" →
          b.icon = (UpdateBookmark.iconTransition w b0.icon b0.category req cats).1)) := by
  constructor
  · intro req hs
    obtain ⟨cats, bs', hb, hurl, hc, hk, hw', hd, hwr⟩ :=
      CreateBookmark_success_inv lib env w req hs
    rw [hw] at hw'
    simp only [Option.some.injEq] at hw'
    subst hw'
    obtain ⟨nb, hnb, h | h⟩ := CreateBookmark_pass lib env w req cats bs hb hurl hc hk hw hd
    · refine ⟨nb, by rw [h.2], ?_, ?_, ?_, ?_, ?_⟩
      · intro ht
        rw [hnb, ht]
        rfl
      · intro l ht
        rw [hnb, ht]
        rfl
      · rw [hnb]
        by_cases hi : req.icon = ""
        · simp only [hi, if_true]
          decide
        · simp [hi]
      · intro hi
        rw [hnb]
        simp [hi]
      · intro hi
        rw [hnb]
        simp [hi]
    · rw [h.1] at hwr
      simp at hwr
  · intro id req cats i b0 hc hi hid hfirst hs
    obtain ⟨bs', hfin, _, _, hrec, _, _⟩ :=
      UpdateBookmark_written lib env w id req cats bs i b0 hc hw hi hid hfirst hs
    refine ⟨bs', _, hfin, hrec, ?_, ?_, ?_, ?_, ?_, ?_⟩
    · intro ht
      simp [ht]
    · intro l ht
      simp [ht]
    · by_cases he : (UpdateBookmark.iconTransition w b0.icon b0.category req cats).1 = ""
      · simp only [he, if_true]
        decide
      · simp [he]
    · intro he
      simp [iconTransition_empty w b0.icon b0.category req cats he]
    · intro he
      simp [he]
    · intro he
      simp [he]

/-- Witness of C13 on the example world: a create request without tags and
without icon stores the empty tags list and `/favicon.ico`. -/
theorem stored_tags_and_icon_witness :
    exWorld.bookmarks = some [exBookmarkA, exBookmarkB] ∧
    (CreateBookmark smallLib exEnv exWorld (exCreateReq "fresh" "catA" "" 0)).1.success = true ∧
    ∃ b : Bookmark,
      (CreateBookmark smallLib exEnv exWorld (exCreateReq "fresh" "catA" "" 0)).2.bookmarks =
        some ([exBookmarkA, exBookmarkB] ++ [b]) ∧
      ((exCreateReq "fresh" "catA" "" 0).tags = none → b.tags = some []) ∧
      (∀ l, (exCreateReq "fresh" "catA" "" 0).tags = some l → b.tags = some l) ∧
      b.icon ≠ "" ∧ ((exCreateReq "fresh" "catA" "" 0).icon = "" → b.icon = "/favicon.ico") ∧
      ((exCreateReq "fresh" "catA" "" 0).icon ≠ "" →
        b.icon = (exCreateReq "fresh" "catA" "" 0).icon) :=
  ⟨rfl, by decide,
    (stored_tags_and_icon smallLib exEnv exWorld [exBookmarkA, exBookmarkB] rfl).1
      (exCreateReq "fresh" "catA" "" 0) (by decide)⟩

theorem uploads_ref_ne_empty (a b : String) : "/uploads/" ++ a ++ "/" ++ b ≠ "" := by
  intro e
  have h := congrArg String.length e
  simp only [String.length_append] at h
  have h9 : "/uploads/".length = 9 := by decide
  have h0 : "".length = 0 := by decide
  rw [h9, h0] at h
  omega

theorem trace_osRename (w : World) (old new : String) :
    (w.osRename old new).2.trace = w.trace ++ [OsCall.rename old new] := by
  unfold World.osRename
  split <;> rfl

theorem renames_ensureDir (w : World) (name : String) :
    (w.ensureDir name).trace.countP OsCall.isRename = w.trace.countP OsCall.isRename := by
  simp only [World.ensureDir]
  split <;> simp [World.osStat, World.osMkdirAll, List.countP_append, OsCall.isRename]

/-- The reference `moveIconToNewCategory` returns for `/uploads/<dir>/<file>` when
`Stat` reports that the source does not exist or the rename succeeds, and the
number of `os.Rename` calls it makes. -/
theorem moveIcon_local (w : World) (icon dir file oldCategoryId newCategoryId : String)
    (categories : List Category) (hicon : icon = "/uploads/" ++ dir ++ "/" ++ file)
    (hd : '/' ∉ dir.data) (hf : '/' ∉ file.data) :
    ((w.fs.stat (toPath (filepathJoin [GetDataPath, "uploads", dir, file])) =
        StatResult.notExist ∨
      (((w.osStat (filepathJoin [GetDataPath, "uploads", dir, file])).2.ensureDir
          (filepathJoin [GetUploadsPath,
            moveIconToNewCategory.newUploadDir categories newCategoryId])).osRename
        (filepathJoin [GetDataPath, "uploads", dir, file])
        (filepathJoin [filepathJoin [GetUploadsPath,
          moveIconToNewCategory.newUploadDir categories newCategoryId], file])).1 = true) →
      (moveIconToNewCategory w icon oldCategoryId newCategoryId categories).1 =
        "/uploads/" ++ moveIconToNewCategory.newUploadDir categories newCategoryId ++ "/" ++ file) ∧
    (moveIconToNewCategory w icon oldCategoryId newCategoryId categories).1 ≠ "" ∧
    (moveIconToNewCategory w icon oldCategoryId newCategoryId categories).2.trace.countP
        OsCall.isRename =
      w.trace.countP OsCall.isRename +
        (if (w.fs.stat (toPath (filepathJoin [GetDataPath, "uploads", dir, file]))).isNotExist
          then 0 else 1) := by
  subst hicon
  simp only [moveIconToNewCategory, hasPrefix_uploads, split_uploads dir file hd hf,
    Bool.not_true, Bool.false_eq_true, if_false]
  rw [osStat_fst]
  by_cases hne : (w.fs.stat (toPath (filepathJoin [GetDataPath, "uploads", dir, file]))).isNotExist
      = true
  · simp only [hne, if_true]
    refine ⟨?_, uploads_ref_ne_empty _ _, ?_⟩
    · first
        | exact fun _ => rfl
        | exact fun _ => trivial
    · simp [World.osStat, List.countP_append, OsCall.isRename]
  · simp only [hne, Bool.false_eq_true, if_false]
    refine ⟨?_, ?_, ?_⟩
    · rintro (h | h)
      · rw [h] at hne
        exact absurd rfl hne
      · simp [h]
    · split
      · exact uploads_ref_ne_empty _ _
      · exact uploads_ref_ne_empty _ _
    · split
      · simp only []
        rw [trace_osRename, List.countP_append, renames_ensureDir]
        simp [World.osStat, List.countP_append, OsCall.isRename]
      · simp only []
        rw [trace_osRename, List.countP_append, renames_ensureDir]
        simp [World.osStat, List.countP_append, OsCall.isRename]

/-- C14 as stated fails: `dirA` is a regular file, so the file of the stored icon
`/uploads/dirA/x.png` is absent and its `Stat` fails with `ENOTDIR`. The request
keeps the icon and moves the bookmark from `catA` to `catB`; the update succeeds,
the rename fails and the stored icon stays `/uploads/dirA/x.png`. -/
theorem UpdateBookmark_icon_kept_counterexample :
    (UpdateBookmark smallLib exEnv exNotDirWorld "bookmark_1"
      (exUpdateReq "/uploads/dirA/x.png" "catB")).1.success = true ∧
    exNotDirWorld.bookmarks = some [exBookmarkA, exBookmarkB] ∧
    exBookmarkA.id = "bookmark_1" ∧
    (exUpdateReq "/uploads/dirA/x.png" "catB").icon = exBookmarkA.icon ∧
    (exUpdateReq "/uploads/dirA/x.png" "catB").category ≠ exBookmarkA.category ∧
    moveIconToNewCategory.newUploadDir [exCatA, exCatB] "catB" = "dirB" ∧
    exNotDirWorld.fs.kind (toPath (filepathJoin [GetDataPath, "uploads", "dirA", "x.png"])) =
      none ∧
    exNotDirWorld.fs.stat (toPath (filepathJoin [GetDataPath, "uploads", "dirA", "x.png"])) =
      StatResult.otherError ∧
    ((UpdateBookmark smallLib exEnv exNotDirWorld "bookmark_1"
      (exUpdateReq "/uploads/dirA/x.png" "catB")).2.bookmarks.bind (fun bs => bs[0]?)).map
        (fun b => b.icon) = some "/uploads/dirA/x.png" := by
  decide

/-- C14, amended: a successful `UpdateBookmark` whose request keeps the stored icon,
a local reference `/uploads/<dir>/<file>`. When the request category differs from
the stored one, the icon block is one application of `moveIconToNewCategory` to
the stored icon (its tree and trace are those the handler leaves, with one
`os.Rename` unless `os.Stat` reports that the source does not exist); when
`Stat` reports that the source does not exist or the rename succeeds, the stored
icon is `/uploads/<U>/<file>` with `U` the upload directory resolved for the new
category, and when `Stat` answers anything else and the rename fails the stored
icon stays as it was. When the category is unchanged too, the tree and the trace
of `os` calls are as before and the stored icon is as it was. -/
theorem UpdateBookmark_icon_kept (lib : StdLib) (env : Env) (w : World) (id : String)
    (req : UpdateBookmarkRequest) (cats : List Category) (bs : List Bookmark) (i : Nat)
    (b0 : Bookmark) (dir file : String)
    (hc : w.categories = some cats) (hw : w.bookmarks = some bs)
    (hi : bs[i]? = some b0) (hid : b0.id = id)
    (hfirst : ∀ j b, j < i → bs[j]? = some b → b.id ≠ id)
    (hicon : b0.icon = "/uploads/" ++ dir ++ "/" ++ file)
    (hd : '/' ∉ dir.data) (hf : '/' ∉ file.data) (hkeep : req.icon = b0.icon)
    (hs : (UpdateBookmark lib env w id req).1.success = true) :
    (req.category ≠ b0.category →
      UpdateBookmark.iconTransition w b0.icon b0.category req cats =
        moveIconToNewCategory w b0.icon b0.category req.category cats ∧
      (UpdateBookmark lib env w id req).2.fs =
        (moveIconToNewCategory w b0.icon b0.category req.category cats).2.fs ∧
      (UpdateBookmark lib env w id req).2.trace =
        (moveIconToNewCategory w b0.icon b0.category req.category cats).2.trace ∧
      (UpdateBookmark lib env w id req).2.trace.countP OsCall.isRename =
        w.trace.countP OsCall.isRename +
          (if (w.fs.stat (toPath (filepathJoin [GetDataPath, "uploads", dir, file]))).isNotExist
            then 0 else 1) ∧
      ((w.fs.stat (toPath (filepathJoin [GetDataPath, "uploads", dir, file])) =
          StatResult.notExist ∨
        (((w.osStat (filepathJoin [GetDataPath, "uploads", dir, file])).2.ensureDir
            (filepathJoin [GetUploadsPath,
              moveIconToNewCategory.newUploadDir cats req.category])).osRename
          (filepathJoin [GetDataPath, "uploads", dir, file])
          (filepathJoin [filepathJoin [GetUploadsPath,
            moveIconToNewCategory.newUploadDir cats req.category], file])).1 = true) →
        ∃ (bs' : List Bookmark) (b : Bookmark),
          (UpdateBookmark lib env w id req).2.bookmarks = some bs' ∧ bs'[i]? = some b ∧
          b.icon = "/uploads/" ++ moveIconToNewCategory.newUploadDir cats req.category ++
            "/" ++ file) ∧
      ((w.fs.stat (toPath (filepathJoin [GetDataPath, "uploads", dir, file]))).isNotExist =
          false →
        (((w.osStat (filepathJoin [GetDataPath, "uploads", dir, file])).2.ensureDir
            (filepathJoin [GetUploadsPath,
              moveIconToNewCategory.newUploadDir cats req.category])).osRename
          (filepathJoin [GetDataPath, "uploads", dir, file])
          (filepathJoin [filepathJoin [GetUploadsPath,
            moveIconToNewCategory.newUploadDir cats req.category], file])).1 = false →
        ∃ (bs' : List Bookmark) (b : Bookmark),
          (UpdateBookmark lib env w id req).2.bookmarks = some bs' ∧ bs'[i]? = some b ∧
          b.icon = b0.icon)) ∧
    (req.category = b0.category →
      (UpdateBookmark lib env w id req).2.fs = w.fs ∧
      (UpdateBookmark lib env w id req).2.trace = w.trace ∧
      ∃ (bs' : List Bookmark) (b : Bookmark),
        (UpdateBookmark lib env w id req).2.bookmarks = some bs' ∧ bs'[i]? = some b ∧
        b.icon = b0.icon) := by
  obtain ⟨bs', hfin, _, _, hrec, hfs, htr⟩ :=
    UpdateBookmark_written lib env w id req cats bs i b0 hc hw hi hid hfirst hs
  have hloc : isLocalIcon b0.icon = true :=
    isLocalIcon_of_uploads _ (by rw [hicon]; exact hasPrefix_uploads dir file)
  have hne0 : b0.icon ≠ "" := by
    rw [hicon]
    exact uploads_ref_ne_empty _ _
  constructor
  · intro hcat
    have hit : UpdateBookmark.iconTransition w b0.icon b0.category req cats =
        moveIconToNewCategory w b0.icon b0.category req.category cats := by
      have hcat' : ¬ b0.category = req.category := fun e => hcat e.symm
      simp [UpdateBookmark.iconTransition, hkeep, hcat', hloc]
    obtain ⟨hres, hnonempty, hcount⟩ :=
      moveIcon_local w b0.icon dir file b0.category req.category cats hicon hd hf
    refine ⟨hit, by rw [hfs, hit], by rw [htr, hit], by rw [htr, hit]; exact hcount, ?_, ?_⟩
    · intro hcond
      refine ⟨bs', _, hfin, hrec, ?_⟩
      simp only [hit, hnonempty, if_false]
      exact hres hcond
    · intro hst hmv
      refine ⟨bs', _, hfin, hrec, ?_⟩
      simp only [hit, hnonempty, if_false]
      rw [hicon]
      exact moveIcon_rename_failed w dir file b0.category req.category cats hd hf hst hmv
  · intro hcat
    have hit : UpdateBookmark.iconTransition w b0.icon b0.category req cats = (req.icon, w) := by
      simp [UpdateBookmark.iconTransition, hkeep, hcat]
    refine ⟨by rw [hfs, hit], by rw [htr, hit], bs', _, hfin, hrec, ?_⟩
    simp only [hit, hkeep, hne0, if_false]

/-- Witness of C14 on the example world: the first bookmark keeps its icon
`/uploads/dirA/x.png` and moves from `catA` to `catB`; the file is present, the
rename succeeds, one `os.Rename` is made and the stored icon is
`/uploads/dirB/x.png`. -/
theorem UpdateBookmark_icon_kept_witness :
    (UpdateBookmark smallLib exEnv exWorld "bookmark_1"
      (exUpdateReq "/uploads/dirA/x.png" "catB")).1.success = true ∧
    (exUpdateReq "/uploads/dirA/x.png" "catB").category ≠ exBookmarkA.category ∧
    (UpdateBookmark smallLib exEnv exWorld "bookmark_1"
      (exUpdateReq "/uploads/dirA/x.png" "catB")).2.trace.countP OsCall.isRename =
        exWorld.trace.countP OsCall.isRename +
          (if (exWorld.fs.stat
            (toPath (filepathJoin [GetDataPath, "uploads", "dirA", "x.png"]))).isNotExist
            then 0 else 1) ∧
    (∃ (bs' : List Bookmark) (b : Bookmark),
      (UpdateBookmark smallLib exEnv exWorld "bookmark_1"
        (exUpdateReq "/uploads/dirA/x.png" "catB")).2.bookmarks = some bs' ∧
      bs'[0]? = some b ∧
      b.icon = "/uploads/" ++ moveIconToNewCategory.newUploadDir [exCatA, exCatB]
        (exUpdateReq "/uploads/dirA/x.png" "catB").category ++ "/" ++ "x.png") ∧
    "/uploads/" ++ moveIconToNewCategory.newUploadDir [exCatA, exCatB] "catB" ++ "/" ++ "x.png" =
      "/uploads/dirB/x.png" :=
  have h := (UpdateBookmark_icon_kept smallLib exEnv exWorld "bookmark_1"
    (exUpdateReq "/uploads/dirA/x.png" "catB") [exCatA, exCatB] [exBookmarkA, exBookmarkB] 0
    exBookmarkA "dirA" "x.png" rfl rfl rfl rfl
    (fun j b hj _ => absurd hj (Nat.not_lt_zero j)) (by decide) (by decide) (by decide)
    (by decide) (by decide)).1 (by decide)
  ⟨by decide, by decide, h.2.2.2.1, h.2.2.2.2.1 (Or.inr (by decide)), by decide⟩

theorem kind_erase (fs : FS) (p q : Path) (hq : q ≠ p) : FS.kind (fs.erase p) q = fs.kind q := by
  unfold FS.kind
  by_cases h0 : q = []
  · simp [h0]
  · simp only [h0, if_false]
    rw [lookup_erase]
    simp [hq]

theorem kind_erase_self (fs : FS) (p : Path) (hp : p ≠ []) : FS.kind (fs.erase p) p = none := by
  unfold FS.kind
  simp only [hp, if_false]
  rw [lookup_erase]
  simp

/-- What the idiom `Stat` then `Remove` does to the tree and to the trace. -/
theorem removeIfPresent_effect (w : World) (name : String) :
    (w.fs.kind (toPath name) = some Kind.file →
      (w.removeIfPresent name).fs = w.fs.erase (toPath name) ∧
      (w.removeIfPresent name).fs.kind (toPath name) = none) ∧
    (w.fs.kind (toPath name) = none → (w.removeIfPresent name).fs = w.fs) ∧
    (∀ q, q ≠ toPath name → (w.removeIfPresent name).fs.kind q = w.fs.kind q) ∧
    (w.removeIfPresent name).trace =
      w.trace ++ OsCall.stat name ::
        (if (w.fs.stat (toPath name)).isOk then [OsCall.remove name] else []) := by
  refine ⟨?_, ?_, ?_, ?_⟩
  · intro hk
    have hne : toPath name ≠ [] := by
      intro e
      simp [FS.kind, e] at hk
    have hfs : (w.removeIfPresent name).fs = w.fs.erase (toPath name) := by
      simp [World.removeIfPresent, World.osStat, FS.stat, hk, StatResult.isOk, World.osRemove,
        FS.remove, hne]
    exact ⟨hfs, by rw [hfs]; exact kind_erase_self _ _ hne⟩
  · intro hk
    simp [World.removeIfPresent, World.osStat, stat_absent w.fs (toPath name) hk]
  · intro q hq
    simp only [World.removeIfPresent, World.osStat]
    split
    · simp only [World.osRemove]
      cases hr : w.fs.remove (toPath name) with
      | none => rfl
      | some fs' =>
        have hfs : fs' = w.fs.erase (toPath name) := by
          unfold FS.remove at hr
          split at hr
          · simp at hr
          · split at hr
            · simpa using hr.symm
            · split at hr
              · simp at hr
              · simpa using hr.symm
            · simp at hr
        simp only [Option.getD_some, hfs]
        exact kind_erase _ _ _ hq
    · rfl
  · simp only [World.removeIfPresent, World.osStat]
    split
    · rename_i h
      simp [World.osRemove, h]
    · rename_i h
      simp [h]

/-- C16: atomicity on rejection. Whenever `CreateCategory`, `UpdateCategory`,
`DeleteCategory`, `CreateBookmark`, `UpdateBookmark` or `DeleteBookmark` answers
with status 400 (validation, or the refusal to delete `"all"`) or 404 (not
found), the world it leaves is the world it started from: both collections,
the directory tree and the trace of `os` calls are untouched. -/
theorem rejection_leaves_world (lib : StdLib) (env : Env) (w : World) :
    (∀ req : CreateCategoryRequest,
      ((CreateCategory env w req).1.status = 400 ∨ (CreateCategory env w req).1.status = 404) →
      (CreateCategory env w req).2 = w) ∧
    (∀ (id : String) (req : UpdateCategoryRequest),
      ((UpdateCategory env w id req).1.status = 400 ∨
        (UpdateCategory env w id req).1.status = 404) →
      (UpdateCategory env w id req).2 = w) ∧
    (∀ id : String,
      ((DeleteCategory w id).1.status = 400 ∨ (DeleteCategory w id).1.status = 404) →
      (DeleteCategory w id).2 = w) ∧
    (∀ req : CreateBookmarkRequest,
      ((CreateBookmark lib env w req).1.status = 400 ∨
        (CreateBookmark lib env w req).1.status = 404) →
      (CreateBookmark lib env w req).2 = w) ∧
    (∀ (id : String) (req : UpdateBookmarkRequest),
      ((UpdateBookmark lib env w id req).1.status = 400 ∨
        (UpdateBookmark lib env w id req).1.status = 404) →
      (UpdateBookmark lib env w id req).2 = w) ∧
    (∀ id : String,
      ((DeleteBookmark w id).1.status = 400 ∨ (DeleteBookmark w id).1.status = 404) →
      (DeleteBookmark w id).2 = w) := by
  refine ⟨?_, ?_, ?_, ?_, ?_, ?_⟩
  · intro req
    unfold CreateCategory
    repeat' split
    all_goals first
      | (simp; done)
      | (simp only [World.SaveCategories, World.SaveBookmarks]
         split <;> simp)
  · intro id req
    unfold UpdateCategory
    repeat' split
    all_goals first
      | (simp; done)
      | (simp only [World.SaveCategories, World.SaveBookmarks]
         split <;> simp)
  · intro id
    unfold DeleteCategory
    repeat' split
    all_goals first
      | (simp; done)
      | (simp only [World.SaveCategories, World.SaveBookmarks]
         split <;> simp)
  · intro req
    unfold CreateBookmark
    repeat' split
    all_goals first
      | (simp; done)
      | (simp only [World.SaveCategories, World.SaveBookmarks]
         split <;> simp)
  · intro id req
    unfold UpdateBookmark
    repeat' split
    all_goals first
      | (simp; done)
      | (simp only [World.SaveCategories, World.SaveBookmarks]
         split <;> simp)
  · intro id
    unfold DeleteBookmark
    repeat' split
    all_goals first
      | (simp; done)
      | (simp only [World.SaveCategories, World.SaveBookmarks]
         split <;> simp)

/-- Witness of C16: the refusal to delete `"all"` and a duplicate category name
both leave the example world as it was. -/
theorem rejection_leaves_world_witness :
    ((DeleteCategory exWorld "all").1.status = 400 ∨
      (DeleteCategory exWorld "all").1.status = 404) ∧
    (DeleteCategory exWorld "all").2 = exWorld ∧
    ((CreateCategory exEnv exWorld ⟨"Alpha", "x.svg", "dirZ", 0⟩).1.status = 400 ∨
      (CreateCategory exEnv exWorld ⟨"Alpha", "x.svg", "dirZ", 0⟩).1.status = 404) ∧
    (CreateCategory exEnv exWorld ⟨"Alpha", "x.svg", "dirZ", 0⟩).2 = exWorld :=
  ⟨Or.inl (by decide),
    (rejection_leaves_world smallLib exEnv exWorld).2.2.1 "all" (Or.inl (by decide)),
    Or.inl (by decide),
    (rejection_leaves_world smallLib exEnv exWorld).1 ⟨"Alpha", "x.svg", "dirZ", 0⟩
      (Or.inl (by decide))⟩

theorem stringsContains_iff (s sub : String) :
    stringsContains s sub = true ↔ IsSubstring sub s := by
  unfold stringsContains IsSubstring
  rw [List.any_eq_true]
  constructor
  · rintro ⟨t, ht, hp⟩
    rw [List.mem_tails] at ht
    rw [List.isPrefixOf_iff_prefix] at hp
    obtain ⟨a, ha⟩ := ht
    obtain ⟨c, hc⟩ := hp
    refine ⟨String.mk a, String.mk c, ?_⟩
    apply String.ext
    simp only [String.data_append]
    rw [← ha, ← hc]
    simp
  · rintro ⟨pre, post, h⟩
    refine ⟨sub.data ++ post.data, ?_, ?_⟩
    · rw [List.mem_tails]
      refine ⟨pre.data, ?_⟩
      rw [h]
      simp [String.data_append]
    · rw [List.isPrefixOf_iff_prefix]
      exact List.prefix_append _ _

theorem stringsContains_empty (s : String) : stringsContains s "" = true := by
  rw [stringsContains_iff]
  exact ⟨"", s, by simp⟩

theorem isMatch_iff (lib : StdLib) (kw : String) (b : Bookmark) :
    SearchBookmarksH.isMatch lib kw b = true ↔
      (IsSubstring kw (lib.toLower b.name) ∨ IsSubstring kw (lib.toLower b.description) ∨
        ∃ t ∈ b.tags.getD [], IsSubstring kw (lib.toLower t)) := by
  simp only [SearchBookmarksH.isMatch, Bool.or_eq_true, List.any_eq_true, stringsContains_iff,
    or_assoc]

/-- C19: under the contract of `sort.Slice`, on a readable collection,
`SearchBookmarksH` returns a bookmark exactly when it is stored and the
lower-cased keyword occurs in its lower-cased name, or in its lower-cased
description, or in one of its lower-cased tags; and with the empty keyword
(which `strings.ToLower` leaves empty) the answer is a permutation of the
whole collection, bookmarks without tags included. -/
theorem search_matches (lib : StdLib) (hc : lib.SortContract) (hl : lib.toLower "" = "")
    (w : World) (bs : List Bookmark) (hw : w.bookmarks = some bs) (keyword : String) :
    ∃ out, SearchBookmarksH lib w keyword = ⟨200, true, "", some out⟩ ∧
      (∀ b, b ∈ out ↔ (b ∈ bs ∧
        (IsSubstring (lib.toLower keyword) (lib.toLower b.name) ∨
          IsSubstring (lib.toLower keyword) (lib.toLower b.description) ∨
          ∃ t ∈ b.tags.getD [], IsSubstring (lib.toLower keyword) (lib.toLower t)))) ∧
      (keyword = "" → out.Perm bs) := by
  refine ⟨lib.sortSlice SearchBookmarksH.less
      (bs.filter (SearchBookmarksH.isMatch lib (lib.toLower keyword))),
    by simp only [SearchBookmarksH, World.GetBookmarks, hw], ?_, ?_⟩
  · intro b
    rw [(hc.perm _ _).mem_iff, List.mem_filter, isMatch_iff]
  · intro hk
    refine (hc.perm _ _).trans ?_
    have hall : bs.filter (SearchBookmarksH.isMatch lib (lib.toLower keyword)) = bs := by
      rw [List.filter_eq_self]
      intro b _
      rw [hk, hl]
      simp [SearchBookmarksH.isMatch, stringsContains_empty]
    rw [hall]

/-- Witness of C19 on the example world: insertion sort meets the contract, ASCII
lower-casing keeps the empty string, and the keyword `ONE` finds the first
bookmark. -/
theorem search_matches_witness :
    smallLib.SortContract ∧ smallLib.toLower "" = "" ∧
    exWorld.bookmarks = some [exBookmarkA, exBookmarkB] ∧
    SearchBookmarksH smallLib exWorld "ONE" = ⟨200, true, "", some [exBookmarkA]⟩ ∧
    ∃ out, SearchBookmarksH smallLib exWorld "" = ⟨200, true, "", some out⟩ ∧
      (∀ b, b ∈ out ↔ (b ∈ [exBookmarkA, exBookmarkB] ∧
        (IsSubstring (smallLib.toLower "") (smallLib.toLower b.name) ∨
          IsSubstring (smallLib.toLower "") (smallLib.toLower b.description) ∨
          ∃ t ∈ b.tags.getD [], IsSubstring (smallLib.toLower "") (smallLib.toLower t)))) ∧
      ("" = "" → out.Perm [exBookmarkA, exBookmarkB]) :=
  ⟨smallLib_sortContract, by decide, rfl, by decide,
    search_matches smallLib smallLib_sortContract (by decide) exWorld
      [exBookmarkA, exBookmarkB] rfl ""⟩

/-- C20: under the contract of `sort.Slice`, on a readable collection,
`GetBookmarksByCategory` with an id other than `"all"` answers with the stored
bookmarks whose category is that id, each as often as it is stored and no
other; with the sentinel `"all"` its answer is the answer of `GetBookmarks`,
which holds every stored bookmark whatever its category. -/
theorem byCategory_refines (lib : StdLib) (hc : lib.SortContract) (w : World)
    (bs : List Bookmark) (hw : w.bookmarks = some bs) (categoryId : String) :
    (categoryId ≠ "all" →
      ∃ out, GetBookmarksByCategory lib w categoryId = ⟨200, true, "", some out⟩ ∧
        out.Perm (bs.filter (fun b => b.category = categoryId)) ∧
        (∀ b, b ∈ out ↔ (b ∈ bs ∧ b.category = categoryId))) ∧
    GetBookmarksByCategory lib w "all" = GetBookmarks lib w ∧
    (∃ out, GetBookmarks lib w = ⟨200, true, "", some out⟩ ∧ out.Perm bs) := by
  refine ⟨fun hne => ?_, ?_, ?_⟩
  · have hp : (lib.sortSlice GetBookmarksByCategory.less
        (GetBookmarksByCategory.filtered categoryId bs)).Perm
        (bs.filter (fun b => b.category = categoryId)) := by
      have := hc.perm GetBookmarksByCategory.less (GetBookmarksByCategory.filtered categoryId bs)
      simpa [GetBookmarksByCategory.filtered, hne] using this
    refine ⟨_, by simp only [GetBookmarksByCategory, World.GetBookmarks, hw], hp, ?_⟩
    intro b
    rw [hp.mem_iff, List.mem_filter]
    simp
  · simp only [GetBookmarksByCategory, GetBookmarks, GetBookmarksByCategory.filtered, if_true]
    rfl
  · exact ⟨lib.sortSlice GetBookmarks.less bs,
      by simp only [GetBookmarks, World.GetBookmarks, hw], hc.perm _ _⟩

/-- Witness of C20 on the example world with insertion sort. -/
theorem byCategory_refines_witness :
    smallLib.SortContract ∧ exWorld.bookmarks = some [exBookmarkA, exBookmarkB] ∧
    "catB" ≠ "all" ∧
    GetBookmarksByCategory smallLib exWorld "catB" = ⟨200, true, "", some [exBookmarkB]⟩ ∧
    GetBookmarksByCategory smallLib exWorld "all" = GetBookmarks smallLib exWorld ∧
    ∃ out, GetBookmarksByCategory smallLib exWorld "catB" = ⟨200, true, "", some out⟩ ∧
      out.Perm ([exBookmarkA, exBookmarkB].filter (fun b => b.category = "catB")) ∧
      (∀ b, b ∈ out ↔ (b ∈ [exBookmarkA, exBookmarkB] ∧ b.category = "catB")) :=
  ⟨smallLib_sortContract, rfl, by decide, by decide,
    (byCategory_refines smallLib smallLib_sortContract exWorld [exBookmarkA, exBookmarkB] rfl
      "all").2.1,
    (byCategory_refines smallLib smallLib_sortContract exWorld [exBookmarkA, exBookmarkB] rfl
      "catB").1 (by decide)⟩

/-! ## Referential integrity -/

theorem updateAt_map_eq {α β : Type} (g : α → β) (f : α → α) (hg : ∀ x, g (f x) = g x)
    (l : List α) (i : Nat) : (updateAt l i f).map g = l.map g := by
  induction l generalizing i with
  | nil => rfl
  | cons a as ih =>
    cases i with
    | zero => simp [updateAt, hg]
    | succ i => simp [updateAt, ih]

theorem CreateBookmark_categories (lib : StdLib) (env : Env) (w : World)
    (req : CreateBookmarkRequest) :
    (CreateBookmark lib env w req).2.categories = w.categories := by
  unfold CreateBookmark
  repeat' split
  all_goals first
    | rfl
    | (simp only [World.SaveBookmarks] at *; split_ifs at * <;> simp_all)

theorem CreateCategory_success_inv (env : Env) (w : World) (req : CreateCategoryRequest)
    (cats : List Category) (hc : w.categories = some cats)
    (hs : (CreateCategory env w req).1.success = true) :
    ∃ c : Category, (CreateCategory env w req).2.categories = some (cats ++ [c]) ∧
      (CreateCategory env w req).2.bookmarks = w.bookmarks := by
  by_cases hb : req.bound = true
  swap
  · simp [CreateCategory, hb] at hs
  by_cases h1 : cats.any (fun category => category.name == req.name) = true
  · simp [CreateCategory, hb, World.GetCategories, hc, h1] at hs
  by_cases h2 : cats.any (fun category => category.uploadDir == req.uploadDir) = true
  · simp [CreateCategory, hb, World.GetCategories, hc, h1, h2] at hs
  cases hwr : w.categoriesWritable with
  | false => simp [CreateCategory, hb, World.GetCategories, hc, h1, h2, World.SaveCategories, hwr] at hs
  | true =>
    refine ⟨{ id := env.newID "cat_", name := req.name, icon := req.icon,
              uploadDir := req.uploadDir,
              sort := if req.sort = 0 then (cats.length : Int) else req.sort,
              createdAt := env.now, updatedAt := Time.zero }, ?_, ?_⟩
    · simp only [CreateCategory, hb, World.GetCategories, hc, h1, h2, World.SaveCategories, hwr,
        Bool.not_true, Bool.false_eq_true, if_false, if_true]
      rw [categories_of_store (store_ensureDir _ _)]
    · simp only [CreateCategory, hb, World.GetCategories, hc, h1, h2, World.SaveCategories, hwr,
        Bool.not_true, Bool.false_eq_true, if_false, if_true]
      rw [bookmarks_of_store (store_ensureDir _ _)]


theorem UpdateCategory_written (env : Env) (w : World) (id : String)
    (req : UpdateCategoryRequest) (cats : List Category) (hc : w.categories = some cats)
    (hs : (UpdateCategory env w id req).1.success = true) :
    ∃ i, (UpdateCategory env w id req).2.categories =
        some (updateAt cats i (fun category =>
          { category with name := req.name, icon := req.icon, uploadDir := req.uploadDir,
                          sort := req.sort, updatedAt := env.now })) ∧
      (UpdateCategory env w id req).2.bookmarks = w.bookmarks := by
  by_cases hb : req.bound = true
  swap
  · simp [UpdateCategory, hb] at hs
  cases hf : findFirst (fun category => category.id == id) cats with
  | none => simp [UpdateCategory, hb, World.GetCategories, hc, hf] at hs
  | some r =>
    obtain ⟨i, c0⟩ := r
    by_cases h1 : cats.enum.any (fun e => e.1 != i && e.2.name == req.name) = true
    · simp [UpdateCategory, hb, World.GetCategories, hc, hf, h1] at hs
    by_cases h2 : cats.enum.any (fun e => e.1 != i && e.2.uploadDir == req.uploadDir) = true
    · simp [UpdateCategory, hb, World.GetCategories, hc, hf, h1, h2] at hs
    cases hwr : w.categoriesWritable with
    | false =>
      simp [UpdateCategory, hb, World.GetCategories, hc, hf, h1, h2, World.SaveCategories,
        hwr] at hs
    | true =>
      refine ⟨i, ?_, ?_⟩
      · simp only [UpdateCategory, hb, World.GetCategories, hc, hf, h1, h2,
          World.SaveCategories, hwr, Bool.not_true, Bool.false_eq_true, if_false, if_true]
        rw [categories_of_store (store_ensureDir _ _)]
      · simp only [UpdateCategory, hb, World.GetCategories, hc, hf, h1, h2,
          World.SaveCategories, hwr, Bool.not_true, Bool.false_eq_true, if_false, if_true]
        rw [bookmarks_of_store (store_ensureDir _ _)]

theorem DeleteCategory_categories (w : World) (id : String) (cats : List Category)
    (hc : w.categories = some cats) (hs : (DeleteCategory w id).1.success = true) :
    ∃ i c0, findFirst (fun category => category.id == id) cats = some (i, c0) ∧
      (DeleteCategory w id).2.categories = some (cats.eraseIdx i) := by
  by_cases hall : id = "all"
  · simp [DeleteCategory, hall] at hs
  cases hf : findFirst (fun category => category.id == id) cats with
  | none => simp [DeleteCategory, hall, World.GetCategories, hc, hf] at hs
  | some r =>
    obtain ⟨i, c0⟩ := r
    refine ⟨i, c0, rfl, ?_⟩
    cases hcw : (removeUploadDir (cascadeBookmarks w id) c0).categoriesWritable
    · simp [DeleteCategory, hall, World.GetCategories, hc, hf, World.SaveCategories, hcw] at hs
    · simp [DeleteCategory, hall, World.GetCategories, hc, hf, World.SaveCategories, hcw]

theorem DeleteBookmark_written (w : World) (id : String) (bs : List Bookmark)
    (hw : w.bookmarks = some bs) (hs : (DeleteBookmark w id).1.success = true) :
    ∃ i, (DeleteBookmark w id).2.bookmarks = some (bs.eraseIdx i) ∧
      (DeleteBookmark w id).2.categories = w.categories := by
  cases hf : findFirst (fun bookmark => bookmark.id == id) bs with
  | none => simp [DeleteBookmark, World.GetBookmarks, hw, hf] at hs
  | some r =>
    obtain ⟨i, b0⟩ := r
    refine ⟨i, ?_⟩
    simp only [DeleteBookmark, World.GetBookmarks, hw, hf] at hs ⊢
    generalize hw1 : (if isLocalIcon b0.icon = true then
      w.removeIfPresent (iconFilePath b0.icon) else w) = w1 at hs ⊢
    have hst : w1.store = w.store := by
      rw [← hw1]
      split <;> simp
    cases hwr : w1.bookmarksWritable
    · simp [World.SaveBookmarks, hwr] at hs
    · simp [World.SaveBookmarks, hwr, categories_of_store hst]


theorem integrity_append (cats : List Category) (bs : List Bookmark) (nb : Bookmark)
    (h : ReferentialIntegrity cats bs) (hk : unknownCategory cats nb.category = false) :
    ReferentialIntegrity cats (bs ++ [nb]) := by
  intro b hb
  rcases List.mem_append.mp hb with hb | hb
  · exact h b hb
  · have hbn : b = nb := by simpa using hb
    subst hbn
    by_cases hall : b.category = "all"
    · exact Or.inl hall
    · right
      by_contra hne
      have : unknownCategory cats b.category = true := by
        rw [unknownCategory_iff]
        exact ⟨hall, fun c hc hid => hne ⟨c, hc, hid⟩⟩
      rw [hk] at this
      exact Bool.false_ne_true this

/-- Referential integrity of the two collections as the handlers load and save
them, the directory tree left aside. In a world whose two collections can be read
and in which every stored bookmark names `all` or the id of a stored category,
the same holds of the collections left by every successful `CreateBookmark`,
`UpdateBookmark`, `DeleteBookmark`, `CreateCategory` and `UpdateCategory`, and by
every successful `DeleteCategory` when `bookmarks.json` can be written. What the
file operations of a handler do to the two files themselves is not looked at
here; see `DeleteBookmark_removes_categories_file`. -/
theorem collections_integrity_invariant (lib : StdLib) (env : Env) (w : World)
    (hri : w.Intact) :
    (∀ req, (CreateBookmark lib env w req).1.success = true →
      (CreateBookmark lib env w req).2.Intact) ∧
    (∀ id req, (UpdateBookmark lib env w id req).1.success = true →
      (UpdateBookmark lib env w id req).2.Intact) ∧
    (∀ id, (DeleteBookmark w id).1.success = true → (DeleteBookmark w id).2.Intact) ∧
    (∀ req, (CreateCategory env w req).1.success = true →
      (CreateCategory env w req).2.Intact) ∧
    (∀ id req, (UpdateCategory env w id req).1.success = true →
      (UpdateCategory env w id req).2.Intact) ∧
    (∀ id, w.bookmarksWritable = true → (DeleteCategory w id).1.success = true →
      (DeleteCategory w id).2.Intact) := by
  obtain ⟨cats, bs, hc, hb, h⟩ := hri
  refine ⟨?_, ?_, ?_, ?_, ?_, ?_⟩
  · intro req hs
    obtain ⟨cats1, bs1, hbd, hurl, hc1, hk, hb1, hd, hwr⟩ :=
      CreateBookmark_success_inv lib env w req hs
    have e1 : cats1 = cats := Option.some.inj (hc1.symm.trans hc)
    have e2 : bs1 = bs := Option.some.inj (hb1.symm.trans hb)
    subst e1 e2
    obtain ⟨nb, hnb, hcase⟩ := CreateBookmark_pass lib env w req cats1 bs1 hbd hurl hc hk hb hd
    rcases hcase with ⟨_, heq⟩ | ⟨hf, _⟩
    · refine ⟨cats1, bs1 ++ [nb], ?_, ?_, ?_⟩
      · rw [heq]
        exact hc
      · rw [heq]
      · apply integrity_append cats1 bs1 nb h
        rw [hnb]
        exact hk
    · rw [hwr] at hf
      exact absurd hf (by decide)
  · intro id req hs
    obtain ⟨cats1, bs1, i, b0, _, _, hc1, hk, hb1, _, _, heq⟩ :=
      UpdateBookmark_success_inv lib env w id req hs
    have e1 : cats1 = cats := Option.some.inj (hc1.symm.trans hc)
    have e2 : bs1 = bs := Option.some.inj (hb1.symm.trans hb)
    subst e1 e2
    refine ⟨cats1, _, ?_, by rw [heq], ?_⟩
    · rw [heq]
      exact (categories_of_store (store_iconTransition _ _ _ _ _)).trans hc
    · intro b hbm
      rcases mem_updateAt _ _ _ _ hbm with hold | ⟨y, _, hy⟩
      · exact h b hold
      · have hcat : b.category = req.category := by rw [hy]
        rw [hcat]
        by_cases hall : req.category = "all"
        · exact Or.inl hall
        · right
          by_contra hne
          have : unknownCategory cats1 req.category = true := by
            rw [unknownCategory_iff]
            exact ⟨hall, fun c hc hid => hne ⟨c, hc, hid⟩⟩
          rw [hk] at this
          exact Bool.false_ne_true this
  · intro id hs
    obtain ⟨i, h1, h2⟩ := DeleteBookmark_written w id bs hb hs
    refine ⟨cats, bs.eraseIdx i, h2.trans hc, h1, ?_⟩
    intro b hbm
    exact h b (List.mem_of_mem_eraseIdx hbm)
  · intro req hs
    obtain ⟨c, h1, h2⟩ := CreateCategory_success_inv env w req cats hc hs
    refine ⟨cats ++ [c], bs, h1, h2.trans hb, ?_⟩
    intro b hbm
    rcases h b hbm with hall | ⟨c0, hc0, hid⟩
    · exact Or.inl hall
    · exact Or.inr ⟨c0, List.mem_append_left _ hc0, hid⟩
  · intro id req hs
    obtain ⟨i, h1, h2⟩ := UpdateCategory_written env w id req cats hc hs
    refine ⟨_, bs, h1, h2.trans hb, ?_⟩
    intro b hbm
    rcases h b hbm with hall | ⟨c0, hc0, hid⟩
    · exact Or.inl hall
    · right
      have hmap := updateAt_map_eq (fun c : Category => c.id)
        (fun category => { category with name := req.name, icon := req.icon,
                                         uploadDir := req.uploadDir, sort := req.sort,
                                         updatedAt := env.now })
        (fun _ => rfl) cats i
      have hin : c0.id ∈ cats.map (fun c : Category => c.id) := List.mem_map.mpr ⟨c0, hc0, rfl⟩
      rw [← hmap] at hin
      obtain ⟨c1, hc1, hid1⟩ := List.mem_map.mp hin
      exact ⟨c1, hc1, hid1.trans hid⟩
  · intro id hwr hs
    obtain ⟨i, c0, hf, h1⟩ := DeleteCategory_categories w id cats hc hs
    obtain ⟨h2, _⟩ := DeleteCategory_cascade w id bs hb hwr hs
    obtain ⟨hi, hp, _⟩ := findFirst_some _ _ _ _ hf
    have hid0 : c0.id = id := by simpa using hp
    refine ⟨cats.eraseIdx i, _, h1, h2, ?_⟩
    intro b hbm
    obtain ⟨hbs, hne⟩ := List.mem_filter.mp hbm
    have hne2 : b.category ≠ id := by simpa using hne
    rcases h b hbs with hall | ⟨c, hcm, hid⟩
    · exact Or.inl hall
    · right
      refine ⟨c, ?_, hid⟩
      obtain ⟨j, hj⟩ := List.mem_iff_getElem?.mp hcm
      rw [List.mem_eraseIdx_iff_getElem?]
      refine ⟨j, ?_, hj⟩
      intro hji
      subst hji
      rw [hi] at hj
      have : c0 = c := Option.some.inj hj
      subst this
      exact hne2 (hid.symm.trans hid0)

/-- The collections of the example world: deleting `catA` succeeds and leaves
collections in which every stored bookmark names a stored category. -/
theorem referential_integrity_example :
    exWorld.Intact ∧ exWorld.bookmarksWritable = true ∧
    (DeleteCategory exWorld "catA").1.success = true ∧
    (DeleteCategory exWorld "catA").2.Intact :=
  have hi : exWorld.Intact :=
    ⟨[exCatA, exCatB], [exBookmarkA, exBookmarkB], rfl, rfl, by
      simp [ReferentialIntegrity, exCatA, exCatB, exBookmarkA, exBookmarkB]⟩
  ⟨hi, rfl, by decide,
    (collections_integrity_invariant smallLib exEnv exWorld hi).2.2.2.2.2 "catA" rfl
      (by decide)⟩

/-! ## Replacing a local icon by another local icon -/

theorem moveIcon_ne_empty (w : World) (icon oldCategoryId newCategoryId : String)
    (categories : List Category) (h : icon ≠ "") :
    (moveIconToNewCategory w icon oldCategoryId newCategoryId categories).1 ≠ "" := by
  unfold moveIconToNewCategory
  split
  · exact h
  · split
    · dsimp only
      split
      · exact uploads_ref_ne_empty _ _
      · split
        · exact h
        · exact uploads_ref_ne_empty _ _
    · exact h

/-- C26 as stated fails: the stored icon `/uploads/dirA/x.png` is local, the request
icon `/uploads/dirB/x.png` is another local reference and the category changes from
`catA` to `catB`; the update succeeds and the icon written, the result of
`moveIconToNewCategory` on the old icon, is the very value of the request. -/
theorem UpdateBookmark_request_icon_stored_counterexample :
    (UpdateBookmark smallLib exEnv exWorld "bookmark_1"
      (exUpdateReq "/uploads/dirB/x.png" "catB")).1.success = true ∧
    exWorld.bookmarks = some [exBookmarkA, exBookmarkB] ∧ exBookmarkA.id = "bookmark_1" ∧
    isLocalIcon exBookmarkA.icon = true ∧
    isLocalIcon (exUpdateReq "/uploads/dirB/x.png" "catB").icon = true ∧
    (exUpdateReq "/uploads/dirB/x.png" "catB").icon ≠ exBookmarkA.icon ∧
    (exUpdateReq "/uploads/dirB/x.png" "catB").category ≠ exBookmarkA.category ∧
    (moveIconToNewCategory exWorld exBookmarkA.icon exBookmarkA.category "catB"
      [exCatA, exCatB]).1 = "/uploads/dirB/x.png" ∧
    ((UpdateBookmark smallLib exEnv exWorld "bookmark_1"
      (exUpdateReq "/uploads/dirB/x.png" "catB")).2.bookmarks.bind (fun bs => bs[0]?)).map
        (fun b => b.icon) = some (exUpdateReq "/uploads/dirB/x.png" "catB").icon := by
  decide

/-- C26, amended: a successful `UpdateBookmark` whose stored icon is a local
reference and whose request icon is a different local reference. When the request
category differs from the stored one, the icon written is the first component of
`moveIconToNewCategory` applied to the stored icon, a value that does not depend on
the request icon, the tree and the trace of `os` calls are those that call leaves,
and the request icon is stored only when it equals that result. When the category
is unchanged, the request icon is stored as it is and the tree and the trace of
`os` calls are as before: no file is moved or deleted. -/
theorem UpdateBookmark_local_to_local (lib : StdLib) (env : Env) (w : World) (id : String)
    (req : UpdateBookmarkRequest) (cats : List Category) (bs : List Bookmark) (i : Nat)
    (b0 : Bookmark) (hc : w.categories = some cats) (hw : w.bookmarks = some bs)
    (hi : bs[i]? = some b0) (hid : b0.id = id)
    (hfirst : ∀ j b, j < i → bs[j]? = some b → b.id ≠ id)
    (hold : isLocalIcon b0.icon = true) (hnew : isLocalIcon req.icon = true)
    (hne : req.icon ≠ b0.icon)
    (hs : (UpdateBookmark lib env w id req).1.success = true) :
    ∃ (bs' : List Bookmark) (b : Bookmark),
      (UpdateBookmark lib env w id req).2.bookmarks = some bs' ∧ bs'[i]? = some b ∧
      (req.category ≠ b0.category →
        b.icon = (moveIconToNewCategory w b0.icon b0.category req.category cats).1 ∧
        (b.icon = req.icon ↔
          req.icon = (moveIconToNewCategory w b0.icon b0.category req.category cats).1) ∧
        (UpdateBookmark lib env w id req).2.fs =
          (moveIconToNewCategory w b0.icon b0.category req.category cats).2.fs ∧
        (UpdateBookmark lib env w id req).2.trace =
          (moveIconToNewCategory w b0.icon b0.category req.category cats).2.trace) ∧
      (req.category = b0.category →
        b.icon = req.icon ∧ (UpdateBookmark lib env w id req).2.fs = w.fs ∧
        (UpdateBookmark lib env w id req).2.trace = w.trace) := by
  obtain ⟨bs', hfin, _, _, hrec, hfs, htr⟩ :=
    UpdateBookmark_written lib env w id req cats bs i b0 hc hw hi hid hfirst hs
  have hne' : ¬ b0.icon = req.icon := fun e => hne e.symm
  have hold0 : b0.icon ≠ "" := by
    intro e
    rw [e] at hold
    exact absurd hold (by decide)
  have hnew0 : req.icon ≠ "" := by
    intro e
    rw [e] at hnew
    exact absurd hnew (by decide)
  refine ⟨bs', _, hfin, hrec, ?_, ?_⟩
  · intro hcat
    have hcat' : ¬ b0.category = req.category := fun e => hcat e.symm
    have hit : UpdateBookmark.iconTransition w b0.icon b0.category req cats =
        moveIconToNewCategory w b0.icon b0.category req.category cats := by
      simp [UpdateBookmark.iconTransition, hne', hold, hnew, hcat']
    have hmne := moveIcon_ne_empty w b0.icon b0.category req.category cats hold0
    have hicon : (if (UpdateBookmark.iconTransition w b0.icon b0.category req cats).1 = ""
        then "/favicon.ico"
        else (UpdateBookmark.iconTransition w b0.icon b0.category req cats).1) =
        (moveIconToNewCategory w b0.icon b0.category req.category cats).1 := by
      rw [hit]
      simp [hmne]
    refine ⟨hicon, ?_, by rw [hfs, hit], by rw [htr, hit]⟩
    constructor
    · intro e
      exact e.symm.trans hicon
    · intro e
      exact hicon.trans e.symm
  · intro hcat
    have hit : UpdateBookmark.iconTransition w b0.icon b0.category req cats = (req.icon, w) := by
      simp [UpdateBookmark.iconTransition, hne', hold, hnew, hcat]
    refine ⟨?_, by rw [hfs, hit], by rw [htr, hit]⟩
    simp [hit, hnew0]

/-- Witness of C26 on the example world: the first bookmark, with the local icon
`/uploads/dirA/x.png`, gets the local icon `/uploads/dirB/new.png` and moves from
`catA` to `catB`; the icon written is `/uploads/dirB/x.png`, the old file moved,
and not the icon of the request. -/
theorem UpdateBookmark_local_to_local_witness :
    (UpdateBookmark smallLib exEnv exWorld "bookmark_1"
      (exUpdateReq "/uploads/dirB/new.png" "catB")).1.success = true ∧
    (moveIconToNewCategory exWorld exBookmarkA.icon exBookmarkA.category "catB"
      [exCatA, exCatB]).1 = "/uploads/dirB/x.png" ∧
    ∃ (bs' : List Bookmark) (b : Bookmark),
      (UpdateBookmark smallLib exEnv exWorld "bookmark_1"
        (exUpdateReq "/uploads/dirB/new.png" "catB")).2.bookmarks = some bs' ∧
      bs'[0]? = some b ∧
      ((exUpdateReq "/uploads/dirB/new.png" "catB").category ≠ exBookmarkA.category →
        b.icon = (moveIconToNewCategory exWorld exBookmarkA.icon exBookmarkA.category
          (exUpdateReq "/uploads/dirB/new.png" "catB").category [exCatA, exCatB]).1 ∧
        (b.icon = (exUpdateReq "/uploads/dirB/new.png" "catB").icon ↔
          (exUpdateReq "/uploads/dirB/new.png" "catB").icon =
            (moveIconToNewCategory exWorld exBookmarkA.icon exBookmarkA.category
              (exUpdateReq "/uploads/dirB/new.png" "catB").category [exCatA, exCatB]).1) ∧
        (UpdateBookmark smallLib exEnv exWorld "bookmark_1"
          (exUpdateReq "/uploads/dirB/new.png" "catB")).2.fs =
          (moveIconToNewCategory exWorld exBookmarkA.icon exBookmarkA.category
            (exUpdateReq "/uploads/dirB/new.png" "catB").category [exCatA, exCatB]).2.fs ∧
        (UpdateBookmark smallLib exEnv exWorld "bookmark_1"
          (exUpdateReq "/uploads/dirB/new.png" "catB")).2.trace =
          (moveIconToNewCategory exWorld exBookmarkA.icon exBookmarkA.category
            (exUpdateReq "/uploads/dirB/new.png" "catB").category [exCatA, exCatB]).2.trace) ∧
      ((exUpdateReq "/uploads/dirB/new.png" "catB").category = exBookmarkA.category →
        b.icon = (exUpdateReq "/uploads/dirB/new.png" "catB").icon ∧
        (UpdateBookmark smallLib exEnv exWorld "bookmark_1"
          (exUpdateReq "/uploads/dirB/new.png" "catB")).2.fs = exWorld.fs ∧
        (UpdateBookmark smallLib exEnv exWorld "bookmark_1"
          (exUpdateReq "/uploads/dirB/new.png" "catB")).2.trace = exWorld.trace) :=
  ⟨by decide, by decide,
    UpdateBookmark_local_to_local smallLib exEnv exWorld "bookmark_1"
      (exUpdateReq "/uploads/dirB/new.png" "catB") [exCatA, exCatB]
      [exBookmarkA, exBookmarkB] 0 exBookmarkA rfl rfl rfl rfl
      (fun j b hj _ => absurd hj (Nat.not_lt_zero j)) (by decide) (by decide) (by decide)
      (by decide)⟩

/-! ## The path of the file of an icon -/

/-- C25, the code at the failing input: the reference `/uploads/../users.json`
starts with `/uploads/`, `CreateBookmark` stores it as it is, and the path that is
removed for it is `data/users.json`, outside `data/uploads`: `DeleteBookmark`, the
cascade of `DeleteCategory`, the icon replacement of `UpdateBookmark` and the
`oldIcon` block of `UploadIcon` each remove that file. -/
theorem icon_removal_escapes_uploads :
    isLocalIcon exEscapeIcon = true ∧
    (∃ b, (CreateBookmark smallLib exEnv exWorld (exCreateReq "nine" "catB" exEscapeIcon 0)).1 =
        ⟨200, true, "书签创建成功", some b⟩ ∧ b.icon = exEscapeIcon) ∧
    toPath GetUploadsPath = ["data", "uploads"] ∧
    toPath (iconFilePath exEscapeIcon) = ["data", "users.json"] ∧
    underUploads (toPath (iconFilePath exEscapeIcon)) = false ∧
    exEscapeWorld.fs.kind ["data", "users.json"] = some Kind.file ∧
    ((DeleteBookmark exEscapeWorld "bookmark_9").1.success = true ∧
      (DeleteBookmark exEscapeWorld "bookmark_9").2.fs.kind ["data", "users.json"] = none) ∧
    ((DeleteCategory exEscapeWorld "catB").1.success = true ∧
      (DeleteCategory exEscapeWorld "catB").2.fs.kind ["data", "users.json"] = none) ∧
    ((UpdateBookmark smallLib exEnv exEscapeWorld "bookmark_9"
        { exUpdateReq "https://nine.example/i.png" "catB" with name := "nine" }).1.success = true ∧
      (UpdateBookmark smallLib exEnv exEscapeWorld "bookmark_9"
        { exUpdateReq "https://nine.example/i.png" "catB" with name := "nine" }).2.fs.kind
          ["data", "users.json"] = none) ∧
    (UploadIcon.removeOldIcon exEscapeWorld exEscapeIcon).fs.kind ["data", "users.json"] = none := by
  refine ⟨by decide, ⟨_, rfl, rfl⟩, by decide, by decide, by decide, by decide, by decide,
    by decide, by decide, by decide⟩

/-! ## Settings -/

/-- What `UpdateSettings` checks of a bound request: it passes the validations, that
is, it is not answered with status 400, exactly when the trimmed title is not
empty, the title has at most 50 bytes, the five sizes are in their ranges and
the theme is one of the three names; a request that is answered with status 400
leaves the file as it was, and a request that passes is saved, when the file can be
written, with the trimmed title, the other fields of the request and the time of
the save. -/
theorem UpdateSettings_validation (env : Env) (s : SettingsStore)
    (req : UpdateSettingsRequest) (hb : req.bound = true) :
    ((UpdateSettings env s req).1.status ≠ 400 ↔
      (trimSpace req.siteTitle ≠ "" ∧ len req.siteTitle ≤ 50 ∧
       (120 ≤ req.cardWidth ∧ req.cardWidth ≤ 300) ∧
       (60 ≤ req.cardHeight ∧ req.cardHeight ≤ 150) ∧
       (24 ≤ req.iconWidth ∧ req.iconWidth ≤ 80) ∧
       (24 ≤ req.iconHeight ∧ req.iconHeight ≤ 80) ∧
       (50 ≤ req.sidebarWidth ∧ req.sidebarWidth ≤ 600) ∧
       (req.theme = "auto" ∨ req.theme = "light" ∨ req.theme = "dark"))) ∧
    ((UpdateSettings env s req).1.status = 400 → (UpdateSettings env s req).2 = s) ∧
    ((UpdateSettings env s req).1.status ≠ 400 → s.writable = true →
      (UpdateSettings env s req).1.success = true ∧
      (UpdateSettings env s req).2.settings = some
        { siteTitle := trimSpace req.siteTitle, cardWidth := req.cardWidth,
          cardHeight := req.cardHeight, iconWidth := req.iconWidth,
          iconHeight := req.iconHeight, sidebarWidth := req.sidebarWidth,
          theme := req.theme, updatedAt := env.now }) := by
  by_cases h1 : trimSpace req.siteTitle = "" ∨ len req.siteTitle > 50
  · have hr : (UpdateSettings env s req).1.status = 400 ∧ (UpdateSettings env s req).2 = s := by
      simp [UpdateSettings, hb, h1]
    refine ⟨⟨fun h => absurd hr.1 h, ?_⟩, fun _ => hr.2, fun h => absurd hr.1 h⟩
    rintro ⟨h2, h3, _⟩
    rcases h1 with h1 | h1
    · exact absurd h1 h2
    · omega
  by_cases h2 : req.cardWidth < 120 ∨ req.cardWidth > 300 ∨
      req.cardHeight < 60 ∨ req.cardHeight > 150 ∨
      req.iconWidth < 24 ∨ req.iconWidth > 80 ∨
      req.iconHeight < 24 ∨ req.iconHeight > 80 ∨
      req.sidebarWidth < 50 ∨ req.sidebarWidth > 600
  · have hr : (UpdateSettings env s req).1.status = 400 ∧ (UpdateSettings env s req).2 = s := by
      simp only [UpdateSettings, hb, h1, h2, Bool.not_true, Bool.false_eq_true, if_false,
        if_true, and_self]
    refine ⟨⟨fun h => absurd hr.1 h, ?_⟩, fun _ => hr.2, fun h => absurd hr.1 h⟩
    rintro ⟨_, _, h⟩
    omega
  by_cases h3 : req.theme ≠ "auto" ∧ req.theme ≠ "light" ∧ req.theme ≠ "dark"
  · have hr : (UpdateSettings env s req).1.status = 400 ∧ (UpdateSettings env s req).2 = s := by
      unfold UpdateSettings
      rw [if_neg (by simp [hb]), if_neg h1, if_neg h2, if_pos h3]
      exact ⟨rfl, rfl⟩
    refine ⟨⟨fun h => absurd hr.1 h, ?_⟩, fun _ => hr.2, fun h => absurd hr.1 h⟩
    rintro ⟨_, _, _, _, _, _, _, h⟩
    obtain ⟨a, b, c⟩ := h3
    rcases h with h | h | h
    · exact absurd h a
    · exact absurd h b
    · exact absurd h c
  have hcond : trimSpace req.siteTitle ≠ "" ∧ len req.siteTitle ≤ 50 ∧
       (120 ≤ req.cardWidth ∧ req.cardWidth ≤ 300) ∧
       (60 ≤ req.cardHeight ∧ req.cardHeight ≤ 150) ∧
       (24 ≤ req.iconWidth ∧ req.iconWidth ≤ 80) ∧
       (24 ≤ req.iconHeight ∧ req.iconHeight ≤ 80) ∧
       (50 ≤ req.sidebarWidth ∧ req.sidebarWidth ≤ 600) ∧
       (req.theme = "auto" ∨ req.theme = "light" ∨ req.theme = "dark") := by
    refine ⟨fun e => h1 (Or.inl e), by omega, by omega, by omega, by omega, by omega,
      by omega, ?_⟩
    by_contra hn
    push_neg at hn
    exact h3 hn
  cases hwr : s.writable with
  | false =>
    have hr : (UpdateSettings env s req).1.status = 500 := by
      unfold UpdateSettings
      rw [if_neg (by simp [hb]), if_neg h1, if_neg h2, if_neg h3]
      simp [SettingsStore.SaveSettings, hwr]
    refine ⟨⟨fun _ => hcond, fun _ => by rw [hr]; decide⟩, ?_, ?_⟩
    · intro h
      rw [hr] at h
      exact absurd h (by decide)
    · intro _ h
      exact absurd h (by decide)
  | true =>
    have hr : (UpdateSettings env s req).1.status = 200 ∧
        (UpdateSettings env s req).1.success = true ∧
        (UpdateSettings env s req).2.settings = some
          { siteTitle := trimSpace req.siteTitle, cardWidth := req.cardWidth,
            cardHeight := req.cardHeight, iconWidth := req.iconWidth,
            iconHeight := req.iconHeight, sidebarWidth := req.sidebarWidth,
            theme := req.theme, updatedAt := env.now } := by
      unfold UpdateSettings
      rw [if_neg (by simp [hb]), if_neg h1, if_neg h2, if_neg h3]
      simp [SettingsStore.SaveSettings, hwr]
    refine ⟨⟨fun _ => hcond, fun _ => by rw [hr.1]; decide⟩, ?_, fun _ _ => hr.2⟩
    intro h
    rw [hr.1] at h
    exact absurd h (by decide)

/-- C23, the code at the failing input: a bound request whose title has seventeen
characters, not blank and well within fifty, and whose other fields are in their
ranges. The title takes 51 bytes in UTF-8, the test `len(req.SiteTitle) > 50`
counts bytes, and the request is answered with status 400 and the message that
the title must not be longer than 50 characters; nothing is saved. -/
theorem UpdateSettings_title_bytes :
    (exSettingsReq exLongTitle).bound = true ∧
    trimSpace exLongTitle ≠ "" ∧ exLongTitle.length = 17 ∧ len exLongTitle = 51 ∧
    (120 ≤ (exSettingsReq exLongTitle).cardWidth ∧ (exSettingsReq exLongTitle).cardWidth ≤ 300) ∧
    (60 ≤ (exSettingsReq exLongTitle).cardHeight ∧ (exSettingsReq exLongTitle).cardHeight ≤ 150) ∧
    (24 ≤ (exSettingsReq exLongTitle).iconWidth ∧ (exSettingsReq exLongTitle).iconWidth ≤ 80) ∧
    (24 ≤ (exSettingsReq exLongTitle).iconHeight ∧ (exSettingsReq exLongTitle).iconHeight ≤ 80) ∧
    (50 ≤ (exSettingsReq exLongTitle).sidebarWidth ∧
      (exSettingsReq exLongTitle).sidebarWidth ≤ 600) ∧
    (exSettingsReq exLongTitle).theme = "auto" ∧
    UpdateSettings exEnv exSettingsStore (exSettingsReq exLongTitle) =
      (⟨400, false, "网站标题不能为空且长度不能超过50个字符", none⟩, exSettingsStore) := by
  decide

/-! ## Ties of the listing order -/

theorem insertBack_filter {α : Type} (less : α → α → Bool) (p : α → Bool)
    (hp : ∀ a b, p a = true → p b = true → less a b = false) (y : α) (acc : List α) :
    (insertBack less y acc).filter p = if p y = true then y :: acc.filter p else acc.filter p := by
  induction acc with
  | nil => by_cases hy : p y = true <;> simp [insertBack, hy]
  | cons z zs ih =>
    unfold insertBack
    by_cases hyz : less y z = true
    · rw [if_pos hyz, List.filter_cons, ih]
      by_cases hy : p y = true
      · have hz : p z = false := by
          cases hz : p z with
          | false => rfl
          | true =>
            have := hp y z hy hz
            rw [hyz] at this
            exact absurd this (by decide)
        simp [hy, hz]
      · by_cases hz : p z = true <;> simp [hy, hz]
    · rw [if_neg hyz]
      by_cases hy : p y = true <;> simp [hy]

theorem insertionSort_fold_filter {α : Type} (less : α → α → Bool) (p : α → Bool)
    (hp : ∀ a b, p a = true → p b = true → less a b = false) (l acc : List α) :
    (l.foldl (fun acc x => insertBack less x acc) acc).filter p =
      (l.filter p).reverse ++ acc.filter p := by
  induction l generalizing acc with
  | nil => simp
  | cons x xs ih =>
    rw [List.foldl_cons, ih, insertBack_filter less p hp]
    by_cases hx : p x = true <;> simp [hx]

/-- Insertion sort keeps the stored order of the elements of a class in which no
element is less than another. -/
theorem insertionSort_filter {α : Type} (less : α → α → Bool) (p : α → Bool)
    (hp : ∀ a b, p a = true → p b = true → less a b = false) (l : List α) :
    (insertionSort less l).filter p = l.filter p := by
  unfold insertionSort
  rw [List.filter_reverse, insertionSort_fold_filter less p hp]
  simp

theorem tied_not_less (x a b : Bookmark) (ha : tied x a = true) (hb : tied x b = true) :
    GetBookmarks.less a b = false := by
  simp only [tied, Bool.and_eq_true, beq_iff_eq] at ha hb
  have hs : a.sort = b.sort := ha.1.symm.trans hb.1
  have ht : a.createdAt = b.createdAt := ha.2.symm.trans hb.2
  simp [GetBookmarks.less, hs, ht, Time.Before]


/-- C24, amended: under the contract of `sort.Slice`, for every readable bookmark
collection and every bookmark `x`, the bookmarks tied with `x` (equal `sort` and
equal `createdAt`) that `GetBookmarks`, `GetBookmarksByCategory` and
`SearchBookmarksH` select all stand in the output, each as often as it is
selected, in an order that the contract leaves open; they stand in the stored
order whenever `sort.Slice` sorts the selected bookmarks as its insertion sort
does. -/
theorem listing_keeps_ties (lib : StdLib) (hc : lib.SortContract) (w : World)
    (bs : List Bookmark) (hw : w.bookmarks = some bs) (categoryId keyword : String)
    (x : Bookmark) :
    (∃ out, GetBookmarks lib w = ⟨200, true, "", some out⟩ ∧
      (out.filter (tied x)).Perm (bs.filter (tied x)) ∧
      (lib.sortSlice GetBookmarks.less bs = insertionSort GetBookmarks.less bs →
        out.filter (tied x) = bs.filter (tied x))) ∧
    (∃ out, GetBookmarksByCategory lib w categoryId = ⟨200, true, "", some out⟩ ∧
      (out.filter (tied x)).Perm
        ((GetBookmarksByCategory.filtered categoryId bs).filter (tied x)) ∧
      (lib.sortSlice GetBookmarksByCategory.less (GetBookmarksByCategory.filtered categoryId bs) =
          insertionSort GetBookmarksByCategory.less
            (GetBookmarksByCategory.filtered categoryId bs) →
        out.filter (tied x) =
          (GetBookmarksByCategory.filtered categoryId bs).filter (tied x))) ∧
    (∃ out, SearchBookmarksH lib w keyword = ⟨200, true, "", some out⟩ ∧
      (out.filter (tied x)).Perm
        ((bs.filter (SearchBookmarksH.isMatch lib (lib.toLower keyword))).filter (tied x)) ∧
      (lib.sortSlice SearchBookmarksH.less
          (bs.filter (SearchBookmarksH.isMatch lib (lib.toLower keyword))) =
          insertionSort SearchBookmarksH.less
            (bs.filter (SearchBookmarksH.isMatch lib (lib.toLower keyword))) →
        out.filter (tied x) =
          (bs.filter (SearchBookmarksH.isMatch lib (lib.toLower keyword))).filter (tied x))) := by
  refine ⟨⟨lib.sortSlice GetBookmarks.less bs,
      by simp only [GetBookmarks, World.GetBookmarks, hw], (hc.perm _ _).filter _, ?_⟩,
    ⟨lib.sortSlice GetBookmarksByCategory.less (GetBookmarksByCategory.filtered categoryId bs),
      by simp only [GetBookmarksByCategory, World.GetBookmarks, hw], (hc.perm _ _).filter _, ?_⟩,
    ⟨lib.sortSlice SearchBookmarksH.less
        (bs.filter (SearchBookmarksH.isMatch lib (lib.toLower keyword))),
      by simp only [SearchBookmarksH, World.GetBookmarks, hw], (hc.perm _ _).filter _, ?_⟩⟩
  · intro h
    rw [h]
    exact insertionSort_filter _ _ (tied_not_less x) _
  · intro h
    rw [h]
    exact insertionSort_filter GetBookmarks.less _ (tied_not_less x) _
  · intro h
    rw [h]
    exact insertionSort_filter GetBookmarks.less _ (tied_not_less x) _

/-- Witness of C24 on the seven bookmarks with ties: under insertion sort, which
meets the contract, the two bookmarks tied with `x` are listed in the stored
order. -/
theorem listing_keeps_ties_witness :
    smallLib.SortContract ∧ exTieWorld.bookmarks = some exTieList ∧
    exTieList.filter (tied (exTie "x" 1 0)) = [exTie "x" 1 0, exTie "y" 1 0] ∧
    ∃ out, GetBookmarks smallLib exTieWorld = ⟨200, true, "", some out⟩ ∧
      (out.filter (tied (exTie "x" 1 0))).Perm (exTieList.filter (tied (exTie "x" 1 0))) ∧
      (smallLib.sortSlice GetBookmarks.less exTieList =
          insertionSort GetBookmarks.less exTieList →
        out.filter (tied (exTie "x" 1 0)) = exTieList.filter (tied (exTie "x" 1 0))) :=
  ⟨smallLib_sortContract, rfl, by decide,
    (listing_keeps_ties smallLib smallLib_sortContract exTieWorld exTieList rfl "all" ""
      (exTie "x" 1 0)).1⟩

/-! ## The calendar of package `time` -/

theorem isLeap_iff (y : Int) :
    isLeap y = true ↔ y % 4 = 0 ∧ (y % 100 ≠ 0 ∨ y % 400 = 0) := by
  simp [isLeap]

theorem century_spec (c r1 n100 : Nat) (hc : 36524 * c + r1 < 146097) (hr1 : r1 < 36524)
    (h : c - c / 4 = n100) :
    n100 ≤ 3 ∧ 36524 * c + r1 - 36524 * n100 ≤ 36524 ∧
      (n100 ≤ 2 → 36524 * c + r1 - 36524 * n100 < 36524) ∧
      36524 * n100 ≤ 36524 * c + r1 := by
  have hc4 : c ≤ 4 := by omega
  rcases (by omega : c = 0 ∨ c = 1 ∨ c = 2 ∨ c = 3 ∨ c = 4) with h0 | h0 | h0 | h0 | h0 <;>
    subst h0 <;> simp at h <;> omega

theorem yearInCycle_spec (d3 q r3 n1 : Nat) (hd3 : d3 < 1461) (hq : d3 = 365 * q + r3)
    (hr3 : r3 < 365) (h : q - q / 4 = n1) :
    n1 ≤ 3 ∧ 365 * n1 ≤ d3 ∧ (n1 ≤ 2 → d3 - 365 * n1 < 365) ∧ d3 - 365 * n1 ≤ 365 := by
  rcases (by omega : q = 0 ∨ q = 1 ∨ q = 2 ∨ q = 3 ∨ q = 4) with h0 | h0 | h0 | h0 | h0 <;>
    subst h0 <;> simp at h <;> omega

theorem isLeap_cycles (n400 : Int) (n100 n4 n1 : Nat) (h100 : n100 ≤ 3) (h4 : n4 ≤ 24)
    (h1 : n1 ≤ 3) :
    isLeap (1 + 400 * n400 + ((100 * n100 + 4 * n4 + n1 : Nat) : Int)) = true ↔
      n1 = 3 ∧ (n4 ≠ 24 ∨ n100 = 3) := by
  rw [isLeap_iff]
  have hm4 : (1 + 400 * n400 + ((100 * n100 + 4 * n4 + n1 : Nat) : Int)) % 4 =
      ((1 + n1 : Nat) : Int) % 4 := by omega
  have hm100 : (1 + 400 * n400 + ((100 * n100 + 4 * n4 + n1 : Nat) : Int)) % 100 =
      ((1 + 4 * n4 + n1 : Nat) : Int) % 100 := by omega
  have hm400 : (1 + 400 * n400 + ((100 * n100 + 4 * n4 + n1 : Nat) : Int)) % 400 =
      ((1 + 100 * n100 + 4 * n4 + n1 : Nat) : Int) % 400 := by omega
  rw [hm4, hm100, hm400]
  constructor
  · intro h
    omega
  · intro h
    omega

theorem daysBeforeYear_cycles (n400 : Int) (n100 n4 n1 : Nat) (h100 : n100 ≤ 3) (h4 : n4 ≤ 24)
    (h1 : n1 ≤ 3) :
    daysBeforeYear (1 + 400 * n400 + ((100 * n100 + 4 * n4 + n1 : Nat) : Int)) =
      146097 * n400 + ((36524 * n100 + 1461 * n4 + 365 * n1 : Nat) : Int) := by
  unfold daysBeforeYear
  omega

theorem cycleOfDays_snd (n : Nat) :
    (cycleOfDays n).2 =
      (n - 36524 * (n / 36524 - n / 36524 / 4)) % 1461 -
        365 * ((n - 36524 * (n / 36524 - n / 36524 / 4)) % 1461 / 365 -
          (n - 36524 * (n / 36524 - n / 36524 / 4)) % 1461 / 365 / 4) :=
  rfl

theorem cycleOfDays_spec (n : Nat) (hd1 : n < 146097) :
    ∃ n100 n4 n1 : Nat, n100 ≤ 3 ∧ n4 ≤ 24 ∧ n1 ≤ 3 ∧
      (cycleOfDays n).1 = 100 * n100 + 4 * n4 + n1 ∧
      n = 36524 * n100 + 1461 * n4 + 365 * n1 + (cycleOfDays n).2 ∧
      ((cycleOfDays n).2 < 365 ∨
        ((cycleOfDays n).2 = 365 ∧ n1 = 3 ∧ (n4 ≠ 24 ∨ n100 = 3))) := by
  have hc := Nat.div_add_mod n 36524
  have hr1 : n % 36524 < 36524 := Nat.mod_lt _ (by norm_num)
  obtain ⟨a1, a2, a3, a4⟩ := century_spec (n / 36524) (n % 36524) _
    (by omega) hr1 rfl
  rw [hc] at a2 a3 a4
  have hd2 := Nat.div_add_mod
    (n - 36524 * (n / 36524 - n / 36524 / 4)) 1461
  have hd3 : (n - 36524 * (n / 36524 - n / 36524 / 4)) % 1461 < 1461 :=
    Nat.mod_lt _ (by norm_num)
  have hq := Nat.div_add_mod
    ((n - 36524 * (n / 36524 - n / 36524 / 4)) % 1461) 365
  have hr3 : (n - 36524 * (n / 36524 - n / 36524 / 4)) % 1461 % 365
      < 365 := Nat.mod_lt _ (by norm_num)
  obtain ⟨b1, b2, b3, b4⟩ := yearInCycle_spec _ _ _ _ hd3 hq.symm hr3 rfl
  refine ⟨n / 36524 - n / 36524 / 4,
    (n - 36524 * (n / 36524 - n / 36524 / 4)) / 1461,
    (n - 36524 * (n / 36524 - n / 36524 / 4)) % 1461 / 365 -
      (n - 36524 * (n / 36524 - n / 36524 / 4)) % 1461 / 365 / 4,
    a1, ?_, b1, rfl, ?_, ?_⟩
  · generalize n - 36524 * (n / 36524 - n / 36524 / 4) = d2 at *
    omega
  · rw [cycleOfDays_snd]
    generalize n / 36524 - n / 36524 / 4 = n100 at *
    generalize hd2e : n - 36524 * n100 = d2 at *
    generalize d2 % 1461 / 365 - d2 % 1461 / 365 / 4 = n1 at *
    generalize d2 / 1461 = n4 at *
    generalize d2 % 1461 = d3 at *
    omega
  · rw [cycleOfDays_snd]
    generalize n / 36524 - n / 36524 / 4 = n100 at *
    generalize hd2e : n - 36524 * n100 = d2 at *
    generalize d2 % 1461 / 365 - d2 % 1461 / 365 / 4 = n1 at *
    generalize d2 / 1461 = n4 at *
    generalize d2 % 1461 = d3 at *
    omega

theorem daysBefore_table (leap : Bool) :
    daysBefore leap 1 = 0 ∧ daysBefore leap 2 = 31 ∧
      daysBefore leap 3 = 59 + (if leap = true then 1 else 0) ∧
      daysBefore leap 4 = 90 + (if leap = true then 1 else 0) ∧
      daysBefore leap 5 = 120 + (if leap = true then 1 else 0) ∧
      daysBefore leap 6 = 151 + (if leap = true then 1 else 0) ∧
      daysBefore leap 7 = 181 + (if leap = true then 1 else 0) ∧
      daysBefore leap 8 = 212 + (if leap = true then 1 else 0) ∧
      daysBefore leap 9 = 243 + (if leap = true then 1 else 0) ∧
      daysBefore leap 10 = 273 + (if leap = true then 1 else 0) ∧
      daysBefore leap 11 = 304 + (if leap = true then 1 else 0) ∧
      daysBefore leap 12 = 334 + (if leap = true then 1 else 0) ∧
      daysBefore leap 13 = 365 + (if leap = true then 1 else 0) := by
  cases leap <;> decide

theorem scan_spec (f : Nat → Nat) (yday : Nat) (h0 : f 1 ≤ yday) (h13 : yday < f 13) :
    1 ≤ (if yday < f 2 then 1
      else if yday < f 3 then 2
      else if yday < f 4 then 3
      else if yday < f 5 then 4
      else if yday < f 6 then 5
      else if yday < f 7 then 6
      else if yday < f 8 then 7
      else if yday < f 9 then 8
      else if yday < f 10 then 9
      else if yday < f 11 then 10
      else if yday < f 12 then 11
      else 12) ∧
    (if yday < f 2 then 1
      else if yday < f 3 then 2
      else if yday < f 4 then 3
      else if yday < f 5 then 4
      else if yday < f 6 then 5
      else if yday < f 7 then 6
      else if yday < f 8 then 7
      else if yday < f 9 then 8
      else if yday < f 10 then 9
      else if yday < f 11 then 10
      else if yday < f 12 then 11
      else 12) ≤ 12 ∧
    f (if yday < f 2 then 1
      else if yday < f 3 then 2
      else if yday < f 4 then 3
      else if yday < f 5 then 4
      else if yday < f 6 then 5
      else if yday < f 7 then 6
      else if yday < f 8 then 7
      else if yday < f 9 then 8
      else if yday < f 10 then 9
      else if yday < f 11 then 10
      else if yday < f 12 then 11
      else 12) ≤ yday ∧
    yday < f ((if yday < f 2 then 1
      else if yday < f 3 then 2
      else if yday < f 4 then 3
      else if yday < f 5 then 4
      else if yday < f 6 then 5
      else if yday < f 7 then 6
      else if yday < f 8 then 7
      else if yday < f 9 then 8
      else if yday < f 10 then 9
      else if yday < f 11 then 10
      else if yday < f 12 then 11
      else 12) + 1) := by
  by_cases h1 : yday < f 2
  · rw [if_pos h1]
    simp only [Nat.reduceAdd]
    omega
  rw [if_neg h1]
  by_cases h2 : yday < f 3
  · rw [if_pos h2]
    simp only [Nat.reduceAdd]
    omega
  rw [if_neg h2]
  by_cases h3 : yday < f 4
  · rw [if_pos h3]
    simp only [Nat.reduceAdd]
    omega
  rw [if_neg h3]
  by_cases h4 : yday < f 5
  · rw [if_pos h4]
    simp only [Nat.reduceAdd]
    omega
  rw [if_neg h4]
  by_cases h5 : yday < f 6
  · rw [if_pos h5]
    simp only [Nat.reduceAdd]
    omega
  rw [if_neg h5]
  by_cases h6 : yday < f 7
  · rw [if_pos h6]
    simp only [Nat.reduceAdd]
    omega
  rw [if_neg h6]
  by_cases h7 : yday < f 8
  · rw [if_pos h7]
    simp only [Nat.reduceAdd]
    omega
  rw [if_neg h7]
  by_cases h8 : yday < f 9
  · rw [if_pos h8]
    simp only [Nat.reduceAdd]
    omega
  rw [if_neg h8]
  by_cases h9 : yday < f 10
  · rw [if_pos h9]
    simp only [Nat.reduceAdd]
    omega
  rw [if_neg h9]
  by_cases h10 : yday < f 11
  · rw [if_pos h10]
    simp only [Nat.reduceAdd]
    omega
  rw [if_neg h10]
  by_cases h11 : yday < f 12
  · rw [if_pos h11]
    simp only [Nat.reduceAdd]
    omega
  rw [if_neg h11]
  simp only [Nat.reduceAdd]
  omega

theorem monthOfYday_spec (leap : Bool) (yday : Nat)
    (h : yday < 365 + (if leap = true then 1 else 0)) :
    1 ≤ monthOfYday leap yday ∧ monthOfYday leap yday ≤ 12 ∧
      daysBefore leap (monthOfYday leap yday) ≤ yday ∧
      yday < daysBefore leap (monthOfYday leap yday + 1) := by
  have t1 := (daysBefore_table leap).1
  have t13 := (daysBefore_table leap).2.2.2.2.2.2.2.2.2.2.2.2
  exact scan_spec (daysBefore leap) yday (by omega) (by omega)

/-! ## The fields of an instant -/

theorem clock_spec (t : Int) :
    1 ≤ (Time.clock t).month ∧ (Time.clock t).month ≤ 12 ∧
    1 ≤ (Time.clock t).day ∧
    (Time.clock t).day ≤ daysIn (isLeap (Time.clock t).year) (Time.clock t).month ∧
    (Time.clock t).hour < 24 ∧ (Time.clock t).minute < 60 ∧ (Time.clock t).second < 60 ∧
    (Time.clock t).nano < 1000000000 ∧ Clock.instant (Time.clock t) = t := by
  have hd1 : ((t / 1000000000 / 86400 % 146097).toNat : Int) = t / 1000000000 / 86400 % 146097 := by
    apply Int.toNat_of_nonneg
    omega
  have hd1lt : (t / 1000000000 / 86400 % 146097).toNat < 146097 := by omega
  obtain ⟨n100, n4, n1, b100, b4, b1, hy, hn, hyd⟩ := cycleOfDays_spec _ hd1lt
  have hleap := isLeap_cycles (t / 1000000000 / 86400 / 146097) n100 n4 n1 b100 b4 b1
  have hdby := daysBeforeYear_cycles (t / 1000000000 / 86400 / 146097) n100 n4 n1 b100 b4 b1
  rw [← hy] at hleap hdby
  have hyd2 : (cycleOfDays (t / 1000000000 / 86400 % 146097).toNat).2 <
      365 + (if isLeap (1 + 400 * (t / 1000000000 / 86400 / 146097) +
        ((cycleOfDays (t / 1000000000 / 86400 % 146097).toNat).1 : Nat)) = true
        then 1 else 0) := by
    rcases hyd with h | ⟨h, h3⟩
    · omega
    · rw [if_pos (hleap.2 h3)]
      omega
  obtain ⟨m1, m12, mlo, mhi⟩ := monthOfYday_spec _ _ hyd2
  have hsod : ((t / 1000000000 % 86400).toNat : Int) = t / 1000000000 % 86400 := by
    apply Int.toNat_of_nonneg
    omega
  have hnano : ((t % 1000000000).toNat : Int) = t % 1000000000 := by
    apply Int.toNat_of_nonneg
    omega
  simp only [Time.clock, Clock.instant, daysIn, yearOfDays]
  generalize (t / 1000000000 / 86400 % 146097).toNat = d1 at *
  generalize (t / 1000000000 % 86400).toNat = sod at *
  generalize (t % 1000000000).toNat = nano at *
  generalize (cycleOfDays d1).2 = yd at *
  generalize (1 + 400 * (t / 1000000000 / 86400 / 146097) + ((cycleOfDays d1).1 : Nat) : Int) = y at *
  generalize monthOfYday (isLeap y) yd = month at *
  generalize daysBefore (isLeap y) month = db at *
  generalize daysBefore (isLeap y) (month + 1) = db1 at *
  generalize daysBeforeYear y = dby at *
  refine ⟨m1, m12, ?_, ?_, ?_, ?_, ?_, ?_, ?_⟩
  · omega
  · omega
  · omega
  · omega
  · omega
  · omega
  · have e1 : db + (yd - db + 1 - 1) = yd := by omega
    have e2 : sod / 3600 * 3600 + sod % 3600 / 60 * 60 + sod % 60 = sod := by omega
    have e3 : dby + (yd : Int) = t / 1000000000 / 86400 := by
      clear e2 hsod hnano mlo mhi m1 m12 hyd2 hleap
      omega
    rw [e1, e2, e3, hsod, hnano]
    clear e1 e2 e3 hsod hnano mlo mhi m1 m12 hyd2 hleap hdby hn hyd hd1 hy
    show @Eq Int _ _
    omega

/-! ## The text of an instant -/

theorem digitVal_digitChar (d : Nat) (h : d < 10) : digitVal (digitChar d) = some d := by
  interval_cases d <;> rfl

theorem num2_pad2 (n : Nat) (h : n < 100) :
    num2 (digitChar (n / 10 % 10)) (digitChar (n % 10)) = some n := by
  unfold num2
  rw [digitVal_digitChar _ (Nat.mod_lt _ (by norm_num)),
    digitVal_digitChar _ (Nat.mod_lt _ (by norm_num))]
  simp only [Option.some.injEq]
  omega

theorem num4_pad4 (n : Nat) (h : n < 10000) :
    num4 (digitChar (n / 1000 % 10)) (digitChar (n / 100 % 10)) (digitChar (n / 10 % 10))
      (digitChar (n % 10)) = some n := by
  unfold num4
  rw [digitVal_digitChar _ (Nat.mod_lt _ (by norm_num)),
    digitVal_digitChar _ (Nat.mod_lt _ (by norm_num)),
    digitVal_digitChar _ (Nat.mod_lt _ (by norm_num)),
    digitVal_digitChar _ (Nat.mod_lt _ (by norm_num))]
  simp only [Option.some.injEq]
  omega

theorem spanDigits_map (ds : List Nat) (h : ∀ d ∈ ds, d < 10) :
    spanDigits (ds.map digitChar ++ ['Z']) = (ds, ['Z']) := by
  induction ds with
  | nil => rfl
  | cons d ds ih =>
    have hd := digitVal_digitChar d (h d (List.mem_cons_self d ds))
    have ih2 := ih (fun x hx => h x (List.mem_cons_of_mem d hx))
    simp only [List.map_cons, List.cons_append, spanDigits, hd]
    have e : (List.map digitChar ds).append ['Z'] = List.map digitChar ds ++ ['Z'] := rfl
    rw [e, ih2]

theorem nanoDigits_value (n : Nat) (h : n < 1000000000) :
    (nanoDigits n).foldl (fun a d => 10 * a + d) 0 = n := by
  simp only [nanoDigits, List.foldl_cons, List.foldl_nil]
  omega

theorem trim_append (l : List Nat) :
    (l.reverse.dropWhile (fun d => d == 0)).reverse ++
      List.replicate (l.reverse.takeWhile (fun d => d == 0)).length 0 = l := by
  have h1 : l.reverse.takeWhile (fun d => d == 0) =
      List.replicate (l.reverse.takeWhile (fun d => d == 0)).length 0 := by
    rw [List.eq_replicate_iff]
    refine ⟨rfl, fun b hb => ?_⟩
    have := (List.mem_takeWhile_imp hb)
    simpa using this
  have h2 := List.takeWhile_append_dropWhile (fun d => d == 0) l.reverse
  have h3 : l = (l.reverse.dropWhile (fun d => d == 0)).reverse ++
      (l.reverse.takeWhile (fun d => d == 0)).reverse := by
    rw [← List.reverse_append, h2, List.reverse_reverse]
  rw [h1, List.reverse_replicate] at h3
  exact h3.symm

theorem nanoOfDigits_trim (n : Nat) (h : n < 1000000000) :
    nanoOfDigits ((nanoDigits n).reverse.dropWhile (fun d => d == 0)).reverse = n := by
  have h1 := trim_append (nanoDigits n)
  generalize ((nanoDigits n).reverse.dropWhile (fun d => d == 0)).reverse = tr at *
  generalize hk : ((nanoDigits n).reverse.takeWhile (fun d => d == 0)).length = k at *
  have hlen : tr.length + k = 9 := by
    have := congrArg List.length h1
    simpa [nanoDigits] using this
  have h2 : tr ++ List.replicate 9 0 = nanoDigits n ++ List.replicate (9 - k) 0 := by
    have e : List.replicate 9 0 = List.replicate k 0 ++ List.replicate (9 - k) 0 := by
      rw [← List.replicate_add]
      congr 1
      omega
    rw [← h1, List.append_assoc, e]
  unfold nanoOfDigits
  rw [h2, List.take_left' (by simp [nanoDigits])]
  exact nanoDigits_value n h

theorem parseNano_formatNano (n : Nat) (h : n < 1000000000) :
    parseNano (formatNano n ++ ['Z']) = some (n, ['Z']) := by
  unfold formatNano
  by_cases h0 : n = 0
  · subst h0
    rfl
  · rw [if_neg h0]
    have hv := nanoOfDigits_trim n h
    have hlt : ∀ d ∈ ((nanoDigits n).reverse.dropWhile (fun d => d == 0)).reverse, d < 10 := by
      intro d hd
      have hd2 : d ∈ nanoDigits n := by
        rw [List.mem_reverse] at hd
        exact List.mem_reverse.1 ((List.dropWhile_sublist _).subset hd)
      simp only [nanoDigits, List.mem_cons, List.mem_singleton, List.not_mem_nil, or_false] at hd2
      omega
    have hs := spanDigits_map _ hlt
    generalize ((nanoDigits n).reverse.dropWhile (fun d => d == 0)).reverse = tr at *
    cases tr with
    | nil =>
      exfalso
      apply h0
      rw [← hv]
      rfl
    | cons d ds =>
      simp only [List.cons_append, parseNano, hs, hv]

theorem parseRFC3339_format (c : Clock) (hy : 0 ≤ c.year) (hy2 : c.year < 10000)
    (hm : 1 ≤ c.month) (hm2 : c.month ≤ 12) (hd : 1 ≤ c.day)
    (hd2 : c.day ≤ daysIn (isLeap c.year) c.month) (hh : c.hour < 24) (hmi : c.minute < 60)
    (hs : c.second < 60) (hn : c.nano < 1000000000) :
    parseRFC3339 c.format = some (Clock.instant c) := by
  have hdm : c.day < 100 := by
    have : daysIn (isLeap c.year) c.month ≤ 31 := by
      have hmc : c.month = 1 ∨ c.month = 2 ∨ c.month = 3 ∨ c.month = 4 ∨ c.month = 5 ∨
          c.month = 6 ∨ c.month = 7 ∨ c.month = 8 ∨ c.month = 9 ∨ c.month = 10 ∨
          c.month = 11 ∨ c.month = 12 := by omega
      rcases hmc with h | h | h | h | h | h | h | h | h | h | h | h <;> rw [h] <;>
        cases isLeap c.year <;> decide
    omega
  have e1 := num4_pad4 c.year.toNat (by omega)
  have e2 := num2_pad2 c.month (by omega)
  have e3 := num2_pad2 c.day hdm
  have e4 := num2_pad2 c.hour (by omega)
  have e5 := num2_pad2 c.minute (by omega)
  have e6 := num2_pad2 c.second (by omega)
  have e7 := parseNano_formatNano c.nano hn
  have e8 : parseZone ['Z'] = some 0 := rfl
  have e9 : ((c.year.toNat : Nat) : Int) = c.year := Int.toNat_of_nonneg hy
  simp only [Clock.format, pad4, pad2, List.cons_append, List.nil_append, parseRFC3339, e1, e2,
    e3, e4, e5, e6, e7, e8, e9]
  rw [if_pos ⟨hm, hm2, hd, hd2, hh, hmi, hs⟩]
  simp

/-- The JSON form of an instant of the years 0 to 9999 reads back as the instant. -/
theorem MarshalJSON_UnmarshalJSON (t : Time) (h1 : 0 ≤ Time.Year t) (h2 : Time.Year t < 10000) :
    (Time.MarshalJSON t).bind Time.UnmarshalJSON = some t := by
  obtain ⟨a3, a4, a5, a6, a7, a8, a9, a10, a11⟩ := clock_spec t
  have hr : ¬ (Time.Year t < 0 ∨ 10000 ≤ Time.Year t) := by omega
  unfold Time.MarshalJSON
  rw [if_neg hr]
  show parseRFC3339 (Time.clock t).format = some t
  rw [parseRFC3339_format _ h1 h2 a3 a4 a5 a6 a7 a8 a9 a10, a11]

/-- An instant outside the years 0 to 9999 has no JSON form. -/
theorem MarshalJSON_none (t : Time) (h : Time.Year t < 0 ∨ 10000 ≤ Time.Year t) :
    Time.MarshalJSON t = none := by
  unfold Time.MarshalJSON
  rw [if_pos h]

/-! ## Round trip of the two collections -/

theorem category_json_round_trip (c : Category)
    (h1 : 0 ≤ Time.Year c.createdAt ∧ Time.Year c.createdAt < 10000)
    (h2 : 0 ≤ Time.Year c.updatedAt ∧ Time.Year c.updatedAt < 10000) :
    ∃ doc, Category.toJSON c = some doc ∧ Category.fromJSON doc = some c := by
  have e1 := MarshalJSON_UnmarshalJSON c.createdAt h1.1 h1.2
  have e2 := MarshalJSON_UnmarshalJSON c.updatedAt h2.1 h2.2
  cases hm1 : Time.MarshalJSON c.createdAt with
  | none => simp [hm1] at e1
  | some s1 =>
    cases hm2 : Time.MarshalJSON c.updatedAt with
    | none => simp [hm2] at e2
    | some s2 =>
      rw [hm1] at e1
      rw [hm2] at e2
      simp only [Option.some_bind] at e1 e2
      refine ⟨_, by simp only [Category.toJSON, encodeTime, hm1, hm2, Option.map_some']; rfl, ?_⟩
      simp [Category.fromJSON, decodeString, decodeInt, decodeTime, JSON.member,
        List.lookup, e1, e2]

theorem decodeElement_str (tags : List String) :
    decodeArray decodeElement (tags.map JSON.str) = some tags := by
  induction tags with
  | nil => rfl
  | cons t ts ih => simp [decodeArray, decodeElement, ih]

theorem bookmark_json_round_trip (b : Bookmark)
    (h1 : 0 ≤ Time.Year b.createdAt ∧ Time.Year b.createdAt < 10000)
    (h2 : 0 ≤ Time.Year b.updatedAt ∧ Time.Year b.updatedAt < 10000) :
    ∃ doc, Bookmark.toJSON b = some doc ∧ Bookmark.fromJSON doc = some b := by
  have e1 := MarshalJSON_UnmarshalJSON b.createdAt h1.1 h1.2
  have e2 := MarshalJSON_UnmarshalJSON b.updatedAt h2.1 h2.2
  cases hm1 : Time.MarshalJSON b.createdAt with
  | none => simp [hm1] at e1
  | some s1 =>
    cases hm2 : Time.MarshalJSON b.updatedAt with
    | none => simp [hm2] at e2
    | some s2 =>
      rw [hm1] at e1
      rw [hm2] at e2
      simp only [Option.some_bind] at e1 e2
      refine ⟨_, by simp only [Bookmark.toJSON, encodeTime, hm1, hm2, Option.map_some']; rfl, ?_⟩
      cases ht : b.tags with
      | none =>
        simp [Bookmark.fromJSON, decodeString, decodeInt, decodeTime,
          decodeStrings, encodeStrings, JSON.member, List.lookup, e1, e2, ht]
        cases b
        simp_all
      | some tags =>
        simp [Bookmark.fromJSON, decodeString, decodeInt, decodeTime,
          decodeStrings, encodeStrings, JSON.member, List.lookup, e1, e2, ht, decodeElement_str]
        cases b
        simp_all

theorem encodeArray_decodeArray {α : Type} (enc : α → Option JSON) (dec : JSON → Option α)
    (l : List α) (h : ∀ a ∈ l, ∃ doc, enc a = some doc ∧ dec doc = some a) :
    ∃ docs, encodeArray enc l = some docs ∧ decodeArray dec docs = some l := by
  induction l with
  | nil => exact ⟨[], rfl, rfl⟩
  | cons a as ih =>
    obtain ⟨d, hd1, hd2⟩ := h a (List.mem_cons_self a as)
    obtain ⟨ds, hds1, hds2⟩ := ih (fun b hb => h b (List.mem_cons_of_mem a hb))
    exact ⟨d :: ds, by simp [encodeArray, hd1, hds1], by simp [decodeArray, hd2, hds2]⟩

/-- C22 as stated fails: a category, or a bookmark, whose `createdAt` lies in the
year 10141 has no JSON form, since `Time.MarshalJSON` returns the error
`year outside of range [0,9999]`. `SaveCategories` and `SaveBookmarks` return that
error for the collection and write nothing, so that there is no document to load
the collection from. -/
theorem persistence_year_range_counterexample :
    Time.Year exFarInstant = 10141 ∧ Time.MarshalJSON exFarInstant = none ∧
    Storage.SaveCategories [exCatA, { exCatB with createdAt := exFarInstant }] = none ∧
    Storage.SaveBookmarks [{ exBookmarkA with createdAt := exFarInstant }, exBookmarkB] = none ∧
    ¬ (∃ doc, Storage.SaveCategories [exCatA, { exCatB with createdAt := exFarInstant }] =
        some doc ∧
      Storage.GetCategories doc = some [exCatA, { exCatB with createdAt := exFarInstant }]) := by
  refine ⟨by decide, by decide, rfl, rfl, ?_⟩
  rintro ⟨doc, h, _⟩
  have h0 : Storage.SaveCategories [exCatA, { exCatB with createdAt := exFarInstant }] = none :=
    rfl
  rw [h0] at h
  cases h

/-- C22, amended: round trip of the two collections. For every category
collection and every bookmark collection whose timestamps `createdAt` and
`updatedAt` lie in the years 0 to 9999 (strings are Unicode text, timestamps are
instants), `SaveCategories` and `SaveBookmarks` write a document, loading that
document yields the very collection, every field of every record included, and
saving what was loaded writes the same document again. -/
theorem persistence_round_trip (cats : List Category) (bs : List Bookmark)
    (hc : ∀ c ∈ cats, (0 ≤ Time.Year c.createdAt ∧ Time.Year c.createdAt < 10000) ∧
      (0 ≤ Time.Year c.updatedAt ∧ Time.Year c.updatedAt < 10000))
    (hb : ∀ b ∈ bs, (0 ≤ Time.Year b.createdAt ∧ Time.Year b.createdAt < 10000) ∧
      (0 ≤ Time.Year b.updatedAt ∧ Time.Year b.updatedAt < 10000)) :
    (∃ doc, Storage.SaveCategories cats = some doc ∧
      Storage.GetCategories doc = some cats ∧
      (Storage.GetCategories doc).bind Storage.SaveCategories = some doc) ∧
    (∃ doc, Storage.SaveBookmarks bs = some doc ∧
      Storage.GetBookmarks doc = some bs ∧
      (Storage.GetBookmarks doc).bind Storage.SaveBookmarks = some doc) := by
  obtain ⟨ds1, h11, h12⟩ := encodeArray_decodeArray Category.toJSON Category.fromJSON cats
    (fun c hm => category_json_round_trip c (hc c hm).1 (hc c hm).2)
  obtain ⟨ds2, h21, h22⟩ := encodeArray_decodeArray Bookmark.toJSON Bookmark.fromJSON bs
    (fun b hm => bookmark_json_round_trip b (hb b hm).1 (hb b hm).2)
  have s1 : Storage.SaveCategories cats = some (JSON.arr ds1) := by
    simp [Storage.SaveCategories, h11]
  have s2 : Storage.SaveBookmarks bs = some (JSON.arr ds2) := by
    simp [Storage.SaveBookmarks, h21]
  have g1 : Storage.GetCategories (JSON.arr ds1) = some cats := h12
  have g2 : Storage.GetBookmarks (JSON.arr ds2) = some bs := h22
  refine ⟨⟨_, s1, g1, ?_⟩, ⟨_, s2, g2, ?_⟩⟩
  · rw [g1]
    exact s1
  · rw [g2]
    exact s2

/-- Witness of C22 on two stored collections with timestamps of 2024 and 2025
and with the zero time, the second of which holds a bookmark with tags and one
with the nil slice; the timestamps are written as texts of the layout
`RFC3339Nano`. -/
theorem persistence_round_trip_witness :
    (∀ c ∈ exStoredCategories,
      (0 ≤ Time.Year c.createdAt ∧ Time.Year c.createdAt < 10000) ∧
      (0 ≤ Time.Year c.updatedAt ∧ Time.Year c.updatedAt < 10000)) ∧
    (∀ b ∈ exStoredBookmarks,
      (0 ≤ Time.Year b.createdAt ∧ Time.Year b.createdAt < 10000) ∧
      (0 ≤ Time.Year b.updatedAt ∧ Time.Year b.updatedAt < 10000)) ∧
    Time.MarshalJSON exInstant = some "2024-05-17T08:30:00.123456789Z" ∧
    Time.MarshalJSON 63871383845000000000 = some "2025-01-02T03:04:05Z" ∧
    Time.MarshalJSON Time.zero = some "0001-01-01T00:00:00Z" ∧
    (Storage.SaveCategories exStoredCategories).bind Storage.GetCategories =
      some exStoredCategories ∧
    (Storage.SaveBookmarks exStoredBookmarks).bind Storage.GetBookmarks =
      some exStoredBookmarks ∧
    ((∃ doc, Storage.SaveCategories exStoredCategories = some doc ∧
      Storage.GetCategories doc = some exStoredCategories ∧
      (Storage.GetCategories doc).bind Storage.SaveCategories = some doc) ∧
    (∃ doc, Storage.SaveBookmarks exStoredBookmarks = some doc ∧
      Storage.GetBookmarks doc = some exStoredBookmarks ∧
      (Storage.GetBookmarks doc).bind Storage.SaveBookmarks = some doc)) :=
  have hc : ∀ c ∈ exStoredCategories,
      (0 ≤ Time.Year c.createdAt ∧ Time.Year c.createdAt < 10000) ∧
      (0 ≤ Time.Year c.updatedAt ∧ Time.Year c.updatedAt < 10000) := by
    decide
  have hb : ∀ b ∈ exStoredBookmarks,
      (0 ≤ Time.Year b.createdAt ∧ Time.Year b.createdAt < 10000) ∧
      (0 ≤ Time.Year b.updatedAt ∧ Time.Year b.updatedAt < 10000) := by
    decide
  ⟨hc, hb, by decide, by decide, by decide, by decide, by decide,
    persistence_round_trip exStoredCategories exStoredBookmarks hc hb⟩

/-! ## Deleting a bookmark, the collection file in the tree -/

theorem writeFile_kind_self (fs fs' : FS) (p : Path) (h : fs.writeFile p = some fs') :
    fs'.kind p = some Kind.file := by
  unfold FS.writeFile at h
  split at h
  · rename_i hk
    simp only [Option.some.injEq] at h
    rw [← h]
    exact hk
  · simp at h
  · rename_i hk
    split at h
    · simp only [Option.some.injEq] at h
      subst h
      have hp : p ≠ [] := by
        intro e
        simp [FS.kind, e] at hk
      simp only [FS.kind, hp, if_false] at hk ⊢
      rw [List.lookup_append, hk]
      simp [List.lookup]
    · simp at h

theorem writeFile_kind_other (fs fs' : FS) (p q : Path) (h : fs.writeFile p = some fs')
    (hq : q ≠ p) : fs'.kind q = fs.kind q := by
  unfold FS.writeFile at h
  split at h
  · simp only [Option.some.injEq] at h
    rw [← h]
  · simp at h
  · split at h
    · simp only [Option.some.injEq] at h
      subst h
      unfold FS.kind
      by_cases h0 : q = []
      · simp [h0]
      · simp only [h0, if_false]
        rw [List.lookup_append]
        cases hl : List.lookup q fs with
        | some k => rfl
        | none =>
          have hb : (q == p) = false := by simpa using hq
          simp [List.lookup, hb]
    · simp at h


/-- On a tree that holds `bookmarks.json` as a file, and for an id whose bookmarks
have no local icon that names that very file, nothing the handler does reaches
the collection file, and the handler that goes through the tree does what
`DeleteBookmark` does on the collection kept apart from the tree. -/
theorem DeleteBookmark_onDisk_eq (w : World) (id : String)
    (hfile : w.fs.kind (toPath bookmarksPath) = some Kind.file)
    (hp : ∀ b ∈ w.bookmarks.getD [], b.id = id → isLocalIcon b.icon = true →
      toPath (iconFilePath b.icon) ≠ toPath bookmarksPath) :
    DeleteBookmark.onDisk w id = DeleteBookmark w id := by
  unfold DeleteBookmark.onDisk DeleteBookmark World.readBookmarks World.GetBookmarks
  rw [if_pos hfile]
  cases hb : w.bookmarks with
  | none => rfl
  | some bs =>
    cases hf : findFirst (fun bookmark => bookmark.id == id) bs with
    | none => simp only [hf]
    | some r =>
      obtain ⟨i, b0⟩ := r
      obtain ⟨h1, h2, _⟩ := findFirst_some _ bs i b0 hf
      simp only [hf]
      have hmem : b0 ∈ w.bookmarks.getD [] := by
        rw [hb]
        exact List.getElem?_mem h1
      have hk : (if isLocalIcon b0.icon = true then w.removeIfPresent (iconFilePath b0.icon)
          else w).fs.kind (toPath bookmarksPath) = some Kind.file := by
        by_cases hl : isLocalIcon b0.icon = true
        · rw [if_pos hl,
            (removeIfPresent_effect w (iconFilePath b0.icon)).2.2.1 _
              (fun e => hp b0 hmem (by simpa using h2) hl e.symm)]
          exact hfile
        · rw [if_neg hl]
          exact hfile
      generalize (if isLocalIcon b0.icon = true then w.removeIfPresent (iconFilePath b0.icon)
        else w) = w1 at hk ⊢
      have hwf : w1.fs.writeFile (toPath bookmarksPath) = some w1.fs := by
        unfold FS.writeFile
        rw [hk]
      cases hwr : w1.bookmarksWritable <;>
        simp [World.writeBookmarks, World.SaveBookmarks, hwr, hwf]

/-- C18, the code at the failing input: the icon `/uploads/../bookmarks.json` of
the third bookmark is a local reference whose file is `data/bookmarks.json`, the
bookmark collection itself. `DeleteBookmark` finds that file, removes it, saves
the collection without the bookmark and answers with success: the file of the
icon is there again. -/
theorem DeleteBookmark_icon_file_remains :
    (exDiskEscape "bookmarks.json").readBookmarks = some [exBookmarkA, exBookmarkB,
      { exBookmarkB with id := "bookmark_9", name := "nine",
                         icon := "/uploads/../bookmarks.json" }] ∧
    isLocalIcon "/uploads/../bookmarks.json" = true ∧
    toPath (filepathJoin [GetDataPath, trimPrefix "/uploads/../bookmarks.json" "/"]) =
      ["data", "bookmarks.json"] ∧
    (exDiskEscape "bookmarks.json").fs.kind ["data", "bookmarks.json"] = some Kind.file ∧
    (DeleteBookmark.onDisk (exDiskEscape "bookmarks.json") "bookmark_9").1 =
      ⟨200, true, "书签删除成功", none⟩ ∧
    (DeleteBookmark.onDisk (exDiskEscape "bookmarks.json") "bookmark_9").2.trace =
      [OsCall.stat "data/bookmarks.json", OsCall.remove "data/bookmarks.json"] ∧
    (DeleteBookmark.onDisk (exDiskEscape "bookmarks.json") "bookmark_9").2.readBookmarks =
      some [exBookmarkA, exBookmarkB] ∧
    (DeleteBookmark.onDisk (exDiskEscape "bookmarks.json") "bookmark_9").2.fs.kind
      ["data", "bookmarks.json"] = some Kind.file := by
  decide

/-- With `bookmarks.json` read from and written to the tree, `DeleteBookmark`
answers not-found exactly when no stored bookmark has the id.
When it reports success, the stored collection is the previous one without the
first record that has the id, the other records unchanged and in their order;
and when the icon of the removed bookmark starts with `/uploads/` and the path
`filepath.Join(dataPath, TrimPrefix(icon, "/"))` is not that of `bookmarks.json`,
no file is at that path afterwards (nothing at all when a file was there
before). -/
theorem DeleteBookmark_onDisk_contract (w : World) (id : String) (bs : List Bookmark)
    (hw : w.readBookmarks = some bs) :
    ((DeleteBookmark.onDisk w id).1 = ⟨404, false, "书签不存在", none⟩ ↔
      ∀ b ∈ bs, b.id ≠ id) ∧
    (∀ (i : Nat) (b0 : Bookmark), bs[i]? = some b0 → b0.id = id →
      (∀ j b, j < i → bs[j]? = some b → b.id ≠ id) →
      (DeleteBookmark.onDisk w id).1.success = true →
      (DeleteBookmark.onDisk w id).2.readBookmarks = some (bs.take i ++ bs.drop (i + 1)) ∧
      (hasPrefix b0.icon "/uploads/" = true →
        toPath (filepathJoin [GetDataPath, trimPrefix b0.icon "/"]) ≠ toPath bookmarksPath →
        (DeleteBookmark.onDisk w id).2.fs.kind
            (toPath (filepathJoin [GetDataPath, trimPrefix b0.icon "/"])) ≠ some Kind.file ∧
        (w.fs.kind (toPath (filepathJoin [GetDataPath, trimPrefix b0.icon "/"])) =
            some Kind.file →
          (DeleteBookmark.onDisk w id).2.fs.kind
            (toPath (filepathJoin [GetDataPath, trimPrefix b0.icon "/"])) = none))) := by
  have hrd : w.bookmarks = some bs := by
    unfold World.readBookmarks at hw
    split at hw
    · exact hw
    · simp at hw
  constructor
  · cases hf : findFirst (fun bookmark => bookmark.id == id) bs with
    | none =>
      have h1 : (DeleteBookmark.onDisk w id).1 = ⟨404, false, "书签不存在", none⟩ := by
        simp [DeleteBookmark.onDisk, hw, hf]
      rw [findFirst_none] at hf
      exact ⟨fun _ b hb e => by simpa [e] using hf b hb, fun _ => h1⟩
    | some r =>
      obtain ⟨i, b0⟩ := r
      obtain ⟨h1, h2, _⟩ := findFirst_some _ bs i b0 hf
      constructor
      · intro h
        exfalso
        simp only [DeleteBookmark.onDisk, hw, hf, World.writeBookmarks] at h
        generalize (if isLocalIcon b0.icon = true then w.removeIfPresent (iconFilePath b0.icon)
          else w) = w1 at h
        cases hwr : w1.bookmarksWritable
        · simp [hwr] at h
        · cases hwf : w1.fs.writeFile (toPath bookmarksPath) <;> simp [hwr, hwf] at h
      · intro h
        exact absurd (by simpa using h2) (h b0 (List.getElem?_mem h1))
  · intro i b0 hi hid hfirst hs
    have hf : findFirst (fun bookmark => bookmark.id == id) bs = some (i, b0) :=
      findFirst_of_first _ bs i b0 hi (by simp [hid])
        (fun j y hj hy => by simpa using hfirst j y hj hy)
    have hfin : ∃ fs2, (if isLocalIcon b0.icon = true then
            w.removeIfPresent (iconFilePath b0.icon) else w).fs.writeFile
          (toPath bookmarksPath) = some fs2 ∧
        (DeleteBookmark.onDisk w id).2.bookmarks = some (bs.eraseIdx i) ∧
        (DeleteBookmark.onDisk w id).2.fs = fs2 := by
      simp only [DeleteBookmark.onDisk, hw, hf, World.writeBookmarks] at hs ⊢
      generalize (if isLocalIcon b0.icon = true then w.removeIfPresent (iconFilePath b0.icon)
        else w) = w1 at hs ⊢
      cases hwr : w1.bookmarksWritable
      · simp [hwr] at hs
      · cases hwf : w1.fs.writeFile (toPath bookmarksPath) with
        | none => simp [hwr, hwf] at hs
        | some fs2 => exact ⟨fs2, rfl, by simp [hwr], by simp [hwr]⟩
    obtain ⟨fs2, hwf, hb2, hfs2⟩ := hfin
    refine ⟨?_, ?_⟩
    · unfold World.readBookmarks
      rw [hfs2, writeFile_kind_self _ _ _ hwf, if_pos rfl, hb2,
        List.eraseIdx_eq_take_drop_succ]
    · intro hpre hne
      rw [hfs2, writeFile_kind_other _ _ _ _ hwf hne]
      simp only [isLocalIcon_of_uploads _ hpre, if_true] at hwf ⊢
      exact ⟨removeIfPresent_gone w _,
        fun hk => ((removeIfPresent_effect w (iconFilePath b0.icon)).1 hk).2⟩

/-- The contract of `DeleteBookmark` on the example tree with the two collection
files: `bookmark_1` is the first bookmark, its icon `/uploads/dirA/x.png` names the file
`data/uploads/dirA/x.png`, which is there before the call; the call succeeds, the
bookmark is removed and nothing is at that path afterwards. -/
theorem DeleteBookmark_onDisk_example :
    exDiskWorld.readBookmarks = some [exBookmarkA, exBookmarkB] ∧
    exBookmarkA.id = "bookmark_1" ∧ hasPrefix exBookmarkA.icon "/uploads/" = true ∧
    toPath (filepathJoin [GetDataPath, trimPrefix exBookmarkA.icon "/"]) =
      ["data", "uploads", "dirA", "x.png"] ∧
    toPath bookmarksPath = ["data", "bookmarks.json"] ∧
    exDiskWorld.fs.kind ["data", "uploads", "dirA", "x.png"] = some Kind.file ∧
    (DeleteBookmark.onDisk exDiskWorld "bookmark_1").1.success = true ∧
    (DeleteBookmark.onDisk exDiskWorld "bookmark_1").2.readBookmarks = some [exBookmarkB] ∧
    (DeleteBookmark.onDisk exDiskWorld "bookmark_1").2.fs.kind
      ["data", "uploads", "dirA", "x.png"] = none :=
  have h := (DeleteBookmark_onDisk_contract exDiskWorld "bookmark_1"
    [exBookmarkA, exBookmarkB] (by decide)).2 0 exBookmarkA rfl rfl
    (fun j b hj _ => absurd hj (Nat.not_lt_zero j)) (by decide)
  ⟨by decide, rfl, by decide, by decide, by decide, by decide, by decide, h.1,
    (h.2 (by decide) (by decide)).2 (by decide)⟩

/-! ## Referential integrity, the collection files in the tree -/

/-- C21, the code at the failing input: both collection files are in the tree and
every stored bookmark names a stored category. The icon of the third bookmark is
`/uploads/../categories.json`, a local reference whose file is
`data/categories.json`. `DeleteBookmark` of that bookmark removes the file and
answers with success: no category collection can be read any more, while the
bookmarks of `catA` and `catB` are still stored. -/
theorem DeleteBookmark_removes_categories_file :
    (exDiskEscape "categories.json").IntactOnDisk ∧
    (exDiskEscape "categories.json").readCategories = some [exCatA, exCatB] ∧
    isLocalIcon "/uploads/../categories.json" = true ∧
    toPath (iconFilePath "/uploads/../categories.json") = toPath categoriesPath ∧
    (DeleteBookmark.onDisk (exDiskEscape "categories.json") "bookmark_9").1 =
      ⟨200, true, "书签删除成功", none⟩ ∧
    DeleteBookmark.onDisk (exDiskEscape "categories.json") "bookmark_9" =
      DeleteBookmark (exDiskEscape "categories.json") "bookmark_9" ∧
    (DeleteBookmark.onDisk (exDiskEscape "categories.json") "bookmark_9").2.trace =
      [OsCall.stat "data/categories.json", OsCall.remove "data/categories.json"] ∧
    (DeleteBookmark.onDisk (exDiskEscape "categories.json") "bookmark_9").2.fs.kind
      (toPath categoriesPath) = none ∧
    (DeleteBookmark.onDisk (exDiskEscape "categories.json") "bookmark_9").2.readCategories =
      none ∧
    (DeleteBookmark.onDisk (exDiskEscape "categories.json") "bookmark_9").2.readBookmarks =
      some [exBookmarkA, exBookmarkB] ∧
    exBookmarkA.category = "catA" ∧
    ¬ (DeleteBookmark.onDisk (exDiskEscape "categories.json") "bookmark_9").2.IntactOnDisk := by
  have hafter : (DeleteBookmark.onDisk (exDiskEscape "categories.json")
      "bookmark_9").2.readCategories = none := by decide
  refine ⟨⟨[exCatA, exCatB], [exBookmarkA, exBookmarkB,
      { exBookmarkB with id := "bookmark_9", name := "nine",
                         icon := "/uploads/../categories.json" }],
      by decide, by decide, ?_⟩, by decide, by decide, by decide,
    by decide, by decide, by decide, by decide, hafter, by decide, rfl, ?_⟩
  · simp [ReferentialIntegrity, exCatA, exCatB, exBookmarkA, exBookmarkB]
  · rintro ⟨cats, bs, hc, _⟩
    rw [hafter] at hc
    exact absurd hc (by simp)

/-! ## Ties under the `sort.Slice` of Go since 1.19 -/

/-- On a slice of at most twelve elements `sort.Slice` is its insertion sort. -/
theorem sortSlice_small {α : Type} (less : α → α → Bool) (l : List α) (h : l.length ≤ 12) :
    sortSlice less l = insertionSort less l := by
  simp [sortSlice, pdqsort, h, insertionSortRange]

/-- At most twelve bookmarks are listed by `sort.Slice` with their ties in the
stored order. -/
theorem sortSlice_small_keeps_ties (bs : List Bookmark) (h : bs.length ≤ 12) :
    TiesKeepOrder bs (goLib.sortSlice GetBookmarks.less bs) := by
  intro x
  show (sortSlice GetBookmarks.less bs).filter (tied x) = bs.filter (tied x)
  rw [sortSlice_small _ _ h]
  exact insertionSort_filter _ _ (tied_not_less x) _

/-- C24 as stated fails: of thirteen stored bookmarks the first, `x`, and the
seventh, `y`, are tied. `sort.Slice` takes the seventh as the pivot, swaps it with
the first and partitions, and `GetBookmarks`, `GetBookmarksByCategory` for `"all"`
and `SearchBookmarksH` for the empty keyword list `y` before `x`. -/
theorem listing_ties_reordered_counterexample :
    exTie13World.bookmarks = some exTie13List ∧
    exTie13List[0]? = some (exTie "x" 6 0) ∧ exTie13List[6]? = some (exTie "y" 6 0) ∧
    tied (exTie "x" 6 0) (exTie "y" 6 0) = true ∧
    choosePivot GetBookmarks.less exTie13List 0 13 = (6, SortedHint.increasingHint) ∧
    pdqsort GetBookmarks.less (exTie13List.length + 1) exTie13List 0 exTie13List.length
        (bitsLen exTie13List.length) true true =
      some [exTie "b1" 1 0, exTie "b2" 2 0, exTie "b3" 3 0, exTie "b4" 4 0, exTie "b5" 5 0,
        exTie "y" 6 0, exTie "x" 6 0, exTie "b7" 7 0, exTie "b8" 8 0, exTie "b9" 9 0,
        exTie "b10" 10 0, exTie "b11" 11 0, exTie "b12" 12 0] ∧
    GetBookmarks goLib exTie13World = ⟨200, true, "", some
      [exTie "b1" 1 0, exTie "b2" 2 0, exTie "b3" 3 0, exTie "b4" 4 0, exTie "b5" 5 0,
        exTie "y" 6 0, exTie "x" 6 0, exTie "b7" 7 0, exTie "b8" 8 0, exTie "b9" 9 0,
        exTie "b10" 10 0, exTie "b11" 11 0, exTie "b12" 12 0]⟩ ∧
    GetBookmarksByCategory goLib exTie13World "all" = GetBookmarks goLib exTie13World ∧
    SearchBookmarksH goLib exTie13World "" = GetBookmarks goLib exTie13World ∧
    ¬ TiesKeepOrder exTie13List
      [exTie "b1" 1 0, exTie "b2" 2 0, exTie "b3" 3 0, exTie "b4" 4 0, exTie "b5" 5 0,
        exTie "y" 6 0, exTie "x" 6 0, exTie "b7" 7 0, exTie "b8" 8 0, exTie "b9" 9 0,
        exTie "b10" 10 0, exTie "b11" 11 0, exTie "b12" 12 0] := by
  refine ⟨rfl, by decide, by decide, by decide, by decide, by decide, by decide, by decide,
    by decide, ?_⟩
  intro h
  exact absurd (h (exTie "x" 6 0)) (by decide)

end Navdesk
